import Mathlib

/-!
# Deformable-body kernels: mass-spring network and tetrahedral FEM

A shallow embedding of `src/src/mass_spring/physics.h`, `src/src/3d_fem/physical_mesh.h`
and `src/src/3d_fem/physics.h`.

Conventions of the embedding.

* `float` is an arbitrary linearly ordered field `α` (exact arithmetic); every definition is
  computable and can be evaluated at `α = ℚ`.
* `Eigen::VectorXf` is a function `ℕ → α` of the entry index, a (dense or sparse) matrix is a
  function `ℕ → ℕ → α` of row and column; an object of size `3n` only has its entries below
  `3n` read and written by the code.
* `std::vector` is `List`; `v[i]` is `List.getD v i 0`.
* `abs` applied to a `float` is the absolute value.
* Library routines of Eigen that are not part of the repository are parameters of the
  embedding: the Euclidean norm `norm : (Fin 3 → α) → α` and the sparse `SimplicialLDLT`
  factor-and-solve `solve : Mat α → VecX α → VecX α`. The 3×3 `inverse()` of a fixed-size
  matrix is the cofactor formula `adjugate / det`.
* The material functions `gradPsi` and `psi_hessian` of the headers `gradient.h` and
  `hessian.h`, which are not among the sources, are parameters as well.
-/

namespace Sim

/-- The type of `Eigen::Vector3f`. -/
abbrev Vec3 (α : Type) := Fin 3 → α

/-- The type of `Eigen::VectorXf`: entry index to value. -/
abbrev VecX (α : Type) := ℕ → α

/-- The type of a dense or sparse Eigen matrix: row, column to value. -/
abbrev Mat (α : Type) := ℕ → ℕ → α

/-- An `Eigen::Triplet`: row, column, value. -/
abbrev Triplet (α : Type) := ℕ × ℕ × α

section Linear

variable {α : Type} [LinearOrderedField α]

/-- Component `d % 3` of a 3-vector. -/
def Vec3.comp (r : Vec3 α) (d : ℕ) : α := r ⟨d % 3, Nat.mod_lt d (by decide)⟩

/-- Dot product of two 3-vectors. -/
def dot (v w : Vec3 α) : α := v 0 * w 0 + v 1 * w 1 + v 2 * w 2

/-- Cross product of two 3-vectors. -/
def cross (v w : Vec3 α) : Vec3 α :=
  ![v 1 * w 2 - v 2 * w 1, v 2 * w 0 - v 0 * w 2, v 0 * w 1 - v 1 * w 0]

/-- The read `q.segment(i*3, 3)`. -/
def segment (q : VecX α) (i : ℕ) : Vec3 α := fun c => q (3 * i + c.val)

/-- The update `q.segment(i*3, 3) += r`. -/
def addSegment (q : VecX α) (i : ℕ) (r : Vec3 α) : VecX α :=
  fun d => if d / 3 = i then q d + r.comp d else q d

/-- The update `q.segment(i*3, 3) *= c`. -/
def scaleSegment (q : VecX α) (i : ℕ) (c : α) : VecX α :=
  fun d => if d / 3 = i then q d * c else q d

/-- Product of an `n`-column matrix with a vector of size `n`. -/
def mulVec (n : ℕ) (A : Mat α) (x : VecX α) : VecX α :=
  fun r => ∑ c in Finset.range n, A r c * x c

/-- The result of `setFromTriplets`: the matrix holds exactly the given triplets, the values of
triplets with the same row and column being summed. -/
def setFromTriplets (ts : List (Triplet α)) : Mat α :=
  fun r c => ((ts.filter (fun t => decide (t.1 = r ∧ t.2.1 = c))).map (fun t => t.2.2)).sum

/-- The contract of `SimplicialLDLT` for the system matrix `A` of size `n`: after
`compute(A)`, `solve(b)` returns a solution of `A x = b`, for every right-hand side `b`. -/
def Solves (n : ℕ) (solve : Mat α → VecX α → VecX α) (A : Mat α) : Prop :=
  ∀ b : VecX α, ∀ d, d < n → mulVec n A (solve A b) d = b d

end Linear

/-- The struct `Mesh` of `draw_shapes.h`. -/
structure Mesh (α : Type) where
  positions : List (Vec3 α)
  uv : List (Fin 2 → α) := []
  normals : List (Vec3 α) := []
  indices : List ℕ

/-- The struct `TetrahedralMesh` of `draw_shapes.h`. -/
structure TetrahedralMesh (α : Type) where
  positions : List (Vec3 α)
  indices : List ℕ

/-! ## Mass-spring solver (`src/src/mass_spring/physics.h`) -/

namespace MassSpring

/-- An element of `edges`: the two vertex indices and the undeformed length. -/
abbrev Edge (α : Type) := ℕ × ℕ × α

/-- The class `PhysicalMesh` of the mass-spring solver. -/
structure PhysicalMesh (α : Type) where
  q : VecX α
  q_dot : VecX α
  fixed_points : List ℕ
  edges : List (Edge α)
  n : ℕ
  k : α
  m : α
  M : Mat α
  g : α
  K_tmp : Mat α
  f_tmp : VecX α
  enableHessian : Bool

section Defs

variable {α : Type} [LinearOrderedField α]

/-- The predicate handed to `std::find_if`: the stored edge joins `a` and `b`, in either
orientation. -/
def sameEdge (a b : ℕ) (e : Edge α) : Bool :=
  decide ((e.1 = a ∧ e.2.1 = b) ∨ (e.1 = b ∧ e.2.1 = a))

/-- Body of the innermost constructor loop for the index slots `i1 = 3*i + p`, `i2 = 3*i + o`. -/
def addEdge (norm : Vec3 α → α) (mesh : Mesh α) (edges : List (Edge α)) (p o i1 i2 : ℕ) :
    List (Edge α) :=
  if o ≠ p ∧ mesh.indices.getD i1 0 ≠ mesh.indices.getD i2 0 then
    match edges.find? (sameEdge (mesh.indices.getD i1 0) (mesh.indices.getD i2 0)) with
    | some _ => edges
    | none =>
      let q1 := mesh.positions.getD (mesh.indices.getD i1 0) 0
      let q2 := mesh.positions.getD (mesh.indices.getD i2 0) 0
      let l := q2 - q1
      let l0 := norm l
      edges ++ [(mesh.indices.getD i1 0, mesh.indices.getD i2 0, l0)]
  else edges

/-- The loops `for p < 3`, `for o = p .. 2` over one triangle `i`. -/
def addTriangle (norm : Vec3 α → α) (mesh : Mesh α) (edges : List (Edge α)) (i : ℕ) :
    List (Edge α) :=
  (List.range 3).foldl
    (fun es p => (List.range' p (3 - p)).foldl
      (fun es2 o => addEdge norm mesh es2 p o (3 * i + p) (3 * i + o)) es)
    edges

/-- The list of unique edges built by the constructor. -/
def buildEdges (norm : Vec3 α → α) (mesh : Mesh α) : List (Edge α) :=
  (List.range (mesh.indices.length / 3)).foldl (addTriangle norm mesh) []

/-- Invariant of the edge-building loops, `C x y` being the index pairs presented to `addEdge`
so far: every stored edge joins two different indices of a presented pair and carries the norm
of its initial edge vector; no two stored edges join the same indices; every presented pair of
different indices is stored. -/
def EdgeInv (norm : Vec3 α → α) (mesh : Mesh α) (C : ℕ → ℕ → Prop) (es : List (Edge α)) :
    Prop :=
  (∀ e ∈ es, e.1 ≠ e.2.1 ∧
    e.2.2 = norm (mesh.positions.getD e.2.1 0 - mesh.positions.getD e.1 0) ∧ C e.1 e.2.1) ∧
  es.Pairwise (fun e e2 => sameEdge e.1 e.2.1 e2 = false) ∧
  (∀ a b, C a b → a ≠ b → ∃ e ∈ es, sameEdge a b e = true)

/-- The constructor `PhysicalMesh(mesh, m, k, g, fixed_points)`. -/
def PhysicalMesh.init (norm : Vec3 α → α) (mesh : Mesh α) (m k g : α)
    (fixed_points : List ℕ) : PhysicalMesh α :=
  let n := mesh.positions.length
  { q := fun d => if d < 3 * n then (mesh.positions.getD (d / 3) 0).comp d else 0
    q_dot := fun _ => 0
    fixed_points := fixed_points
    edges := buildEdges norm mesh
    n := n
    k := k
    m := m
    M := fun r c => if r = c ∧ r < 3 * n then m else 0
    g := g
    K_tmp := fun _ _ => 0
    f_tmp := fun _ => 0
    enableHessian := false }

/-- The solver built from `mesh` with gravity `0` is at rest: all members are as constructed,
the entries of `q` and `q_dot` (those below `3n`) included. -/
def AtRest (norm : Vec3 α → α) (mesh : Mesh α) (m k : α) (fp : List ℕ) (pm : PhysicalMesh α) :
    Prop :=
  pm.edges = buildEdges norm mesh ∧ pm.n = mesh.positions.length ∧
  pm.M = (fun r c => if r = c ∧ r < 3 * mesh.positions.length then m else 0) ∧
  pm.m = m ∧ pm.k = k ∧ pm.fixed_points = fp ∧ pm.g = 0 ∧ pm.enableHessian = false ∧
  ∀ d, d < 3 * mesh.positions.length →
    pm.q d = (PhysicalMesh.init norm mesh m k 0 fp).q d ∧ pm.q_dot d = 0

/-- The method `moveFixedPoints(r)`. -/
def moveFixedPoints (pm : PhysicalMesh α) (r : Vec3 α) : PhysicalMesh α :=
  { pm with q := pm.fixed_points.foldl (fun q i => addSegment q i r) pm.q }

/-- The local `r_i` of `simulationStep` after the clamp: the length of `r`, replaced by `0.01`
when below `0.001`. -/
def r_i (norm : Vec3 α → α) (r : Vec3 α) : α :=
  if |norm r| < 1 / 1000 then 1 / 100 else norm r

/-- The local `f_i` of `simulationStep`: the force coefficient of an edge. -/
def f_i (norm : Vec3 α → α) (k : α) (r : Vec3 α) (l0 : α) : α :=
  if |r_i norm r - l0| < 1 / 100 then 0 else -k * (1 - l0 / r_i norm r)

/-- The local `k_i` of `simulationStep` for the block entry `(p, o)`. -/
def k_i (norm : Vec3 α → α) (k : α) (r : Vec3 α) (l0 : α) (p o : Fin 3) : α :=
  let a := (r_i norm r - l0) / (r_i norm r * r_i norm r * r_i norm r)
  let b := 1 / (r_i norm r * r_i norm r)
  let gamma := (r_i norm r - l0) / r_i norm r
  let coef := k * (if p = o then b - a else b - gamma)
  let constant := if p = o then a / b else 0
  coef * r p * r o + constant

/-- The `tripletList` of one edge `(i, j)`. -/
def edgeTriplets (norm : Vec3 α → α) (k : α) (r : Vec3 α) (l0 : α) (i j : ℕ) :
    List (Triplet α) :=
  (List.finRange 3).flatMap fun p => (List.finRange 3).flatMap fun o =>
    [ (3 * i + p.val, 3 * j + o.val, -k_i norm k r l0 p o),
      (3 * j + p.val, 3 * i + o.val, -k_i norm k r l0 p o),
      (3 * j + p.val, 3 * j + o.val, k_i norm k r l0 p o),
      (3 * i + p.val, 3 * i + o.val, k_i norm k r l0 p o) ]

/-- Body of the loop `for (auto edge : edges)` of `simulationStep`, acting on
`(f_tmp, K_tmp)`. -/
def edgeStep (norm : Vec3 α → α) (pm : PhysicalMesh α) (acc : VecX α × Mat α)
    (edge : Edge α) : VecX α × Mat α :=
  let i := edge.1
  let j := edge.2.1
  let l0 := edge.2.2
  let r : Vec3 α := segment pm.q i - segment pm.q j
  let f := f_i norm pm.k r l0
  let f1 := addSegment acc.1 i (f • r)
  let f2 := addSegment f1 j (-f • r)
  let K :=
    if pm.enableHessian then acc.2 + setFromTriplets (edgeTriplets norm pm.k r l0 i j)
    else acc.2
  (f2, K)

/-- The loop adding the gravitational force: `f_tmp(i*3 + 1) += -m*g` for `i < n`. -/
def addGravity (pm : PhysicalMesh α) (f : VecX α) : VecX α :=
  fun d => if d % 3 = 1 ∧ d / 3 < pm.n then f d + -pm.m * pm.g else f d

/-- The assembled `(f_tmp, K_tmp)` handed to `backwardEulerStep`. -/
def assemble (norm : Vec3 α → α) (pm : PhysicalMesh α) : VecX α × Mat α :=
  let acc := pm.edges.foldl (edgeStep norm pm) (fun _ => 0, fun _ _ => 0)
  (addGravity pm acc.1, acc.2)

/-- The velocity `new_q_dot` of `backwardEulerStep` after the fixed points are zeroed. -/
def new_q_dot (solve : Mat α → VecX α → VecX α) (pm : PhysicalMesh α) (K : Mat α)
    (f : VecX α) (h : α) : VecX α :=
  let rightHandSide : VecX α := mulVec (3 * pm.n) pm.M pm.q_dot + h • f
  let v := solve (pm.M + (h * h) • K) rightHandSide
  pm.fixed_points.foldl (fun w i => scaleSegment w i 0) v

/-- The method `backwardEulerStep(K, f, h)`. -/
def backwardEulerStep (solve : Mat α → VecX α → VecX α) (pm : PhysicalMesh α) (K : Mat α)
    (f : VecX α) (h : α) : PhysicalMesh α :=
  { pm with
    q := pm.q + h • new_q_dot solve pm K f h
    q_dot := new_q_dot solve pm K f h }

/-- The method `simulationStep(h)`. -/
def simulationStep (norm : Vec3 α → α) (solve : Mat α → VecX α → VecX α)
    (pm : PhysicalMesh α) (h : α) : PhysicalMesh α :=
  let fk := assemble norm pm
  backwardEulerStep solve { pm with f_tmp := fk.1, K_tmp := fk.2 } fk.2 fk.1 h

/-- The object `pm` holds the system of `ref` (edges, size, masses, stiffness, fixed points,
gravity, flag) at the positions of `ref` and with zero velocities (entries below `3n`). -/
def StillAt (ref pm : PhysicalMesh α) : Prop :=
  pm.edges = ref.edges ∧ pm.n = ref.n ∧ pm.M = ref.M ∧ pm.m = ref.m ∧ pm.k = ref.k ∧
  pm.fixed_points = ref.fixed_points ∧ pm.g = ref.g ∧ pm.enableHessian = ref.enableHessian ∧
  ∀ d, d < 3 * ref.n → pm.q d = ref.q d ∧ pm.q_dot d = 0

/-- A state of the system of two vertices joined by one edge of rest length `l0`, vertex 0
fixed, no gravity, stiffness matrix disabled: vertex 0 is at `(x0, 0, 0)`, vertex 1 at
`(x, 0, 0)` with velocity `(v, 0, 0)`. -/
def OnAxis (l0 m k x0 : α) (pm : PhysicalMesh α) (x v : α) : Prop :=
  pm.edges = [(0, 1, l0)] ∧ pm.n = 2 ∧
  pm.M = (fun r c => if r = c ∧ r < 3 * 2 then m else 0) ∧ pm.m = m ∧ pm.k = k ∧
  pm.fixed_points = [0] ∧ pm.g = 0 ∧ pm.enableHessian = false ∧
  pm.q 0 = x0 ∧ pm.q 1 = 0 ∧ pm.q 2 = 0 ∧ pm.q 3 = x ∧ pm.q 4 = 0 ∧ pm.q 5 = 0 ∧
  pm.q_dot 3 = v ∧ pm.q_dot 4 = 0 ∧ pm.q_dot 5 = 0

end Defs

end MassSpring

/-! ## FEM solver (`src/src/3d_fem/physical_mesh.h`, `src/src/3d_fem/physics.h`) -/

namespace Fem

/-- The class `PhysicalMesh` of the FEM solver. `skinMeshTetrahedra` is the `std::map` from a
skin vertex index to its tetrahedron index and skin matrix. -/
structure PhysicalMesh (α : Type) where
  q : VecX α
  q_dot : VecX α
  tetIndices : List (List ℕ)
  volumes : List α
  Ts : List (Mat α)
  Bs : List (Mat α)
  Ds : List (Mat α)
  n : ℕ
  n_tet : ℕ
  M : Mat α
  C : α
  D : α
  g : α
  skinMesh : Mesh α
  skinMeshTetrahedra : ℕ → Option (ℕ × Mat α)

/-- The two variables at file scope of `physics.h` that cache the inverse mass matrix. -/
structure Globals (α : Type) where
  inverseCalculated : Bool
  M_inv : Mat α

section Defs

variable {α : Type} [LinearOrderedField α]

/-- The time step `const float h = 0.001f`. -/
def h : α := 1 / 1000

/-- Transpose of a matrix. -/
def transpose (A : Mat α) : Mat α := fun r c => A c r

/-- Product of a matrix with `n` columns and a matrix with `n` rows. -/
def matMul (n : ℕ) (A B : Mat α) : Mat α :=
  fun r c => ∑ t in Finset.range n, A r t * B t c

/-- Determinant of a 3×3 matrix. -/
def det3 (T : Mat α) : α :=
  T 0 0 * (T 1 1 * T 2 2 - T 1 2 * T 2 1) - T 0 1 * (T 1 0 * T 2 2 - T 1 2 * T 2 0)
    + T 0 2 * (T 1 0 * T 2 1 - T 1 1 * T 2 0)

/-- Signed cofactor `(i, j)` of a 3×3 matrix. -/
def cofactor3 (T : Mat α) (i j : ℕ) : α :=
  T ((i + 1) % 3) ((j + 1) % 3) * T ((i + 2) % 3) ((j + 2) % 3)
    - T ((i + 1) % 3) ((j + 2) % 3) * T ((i + 2) % 3) ((j + 1) % 3)

/-- The fixed-size `Matrix3f::inverse()`: transposed cofactors over the determinant. -/
def inverse3 (T : Mat α) : Mat α :=
  fun r c => if r < 3 ∧ c < 3 then cofactor3 T c r / det3 T else 0

/-- The 12 coordinates in `qq` of the four vertices `tetIndex`. -/
def qTetOf (tetIndex : List ℕ) (qq : VecX α) : VecX α :=
  fun d => if d < 12 then qq (3 * tetIndex.getD (d / 3) 0 + d % 3) else 0

/-- The method `getQTet(i, qq)`, for the current list `tetIndices`. -/
def getQTet (tetIndices : List (List ℕ)) (i : ℕ) (qq : VecX α) : VecX α :=
  qTetOf (tetIndices.getD i []) qq

/-- The method `getFMat(i, qq)`: `pos * Ds[i]`, `pos` the 3×4 matrix of the columns of
`getQTet`. -/
def getFMat (pm : PhysicalMesh α) (i : ℕ) (qq : VecX α) : Mat α :=
  let pos : Mat α := fun r j => if r < 3 ∧ j < 4 then getQTet pm.tetIndices i qq (3 * j + r) else 0
  fun r c => if r < 3 ∧ c < 3 then matMul 4 pos (pm.Ds.getD i 0) r c else 0

/-- The method `getFFlat(i, qq)`. -/
def getFFlat (pm : PhysicalMesh α) (i : ℕ) (qq : VecX α) : VecX α :=
  fun d => if d < 9 then getFMat pm i qq (d / 3) (d % 3) else 0

/-- The vector `v` before the template loop: ones at `2, 5, 8, 11`. -/
def v0 : VecX α := fun d => if d = 2 ∨ d = 5 ∨ d = 8 ∨ d = 11 then 1 else 0

/-- One pass of the template loop on `v`: `v_temp[0] = v[11]`, `v_temp[k+1] = v[k]`. -/
def shift (v : VecX α) : VecX α :=
  fun d => if d = 0 then v 11 else if d < 12 then v (d - 1) else 0

/-- The 12×12 template `M_i`: row `j` is row `j` of the identity plus `v` after `j + 1`
shifts. -/
def M_i : Mat α :=
  fun j k => if j < 12 ∧ k < 12 then (if j = k then 1 else 0) + (shift^[j + 1] v0) k else 0

/-- The 144 triplets `(3*idx[j/3] + j%3, 3*idx[k/3] + k%3, A(j,k))`, in loop order. -/
def localTriplets (tetIndex : List ℕ) (A : Mat α) : List (Triplet α) :=
  (List.range 12).flatMap fun j => (List.range 12).map fun k =>
    (3 * tetIndex.getD (j / 3) 0 + j % 3, 3 * tetIndex.getD (k / 3) 0 + k % 3, A j k)

/-- The update `M.coeffRef(r, c) += v` for each triplet `(r, c, v)` in turn. -/
def coeffRefAdd (M : Mat α) (ts : List (Triplet α)) : Mat α :=
  ts.foldl (fun A t => fun r c => if r = t.1 ∧ c = t.2.1 then A r c + t.2.2 else A r c) M

/-- The skin matrix `w` (3×12) of barycentric coordinates `phi`. -/
def skinWeights (phi : Vec3 α) : Mat α :=
  fun r c =>
    if r < 3 ∧ c < 12 ∧ c % 3 = r then
      (if c / 3 = 0 then 1 - phi 0 - phi 1 - phi 2
       else if c / 3 = 1 then phi 0 else if c / 3 = 2 then phi 1 else phi 2)
    else 0

/-- The loop over the skin vertices for tetrahedron `i`. -/
def bindSkin (skinMesh : Mesh α) (T_i_inv : Mat α) (q0 : Vec3 α) (i : ℕ)
    (skin : ℕ → Option (ℕ × Mat α)) : ℕ → Option (ℕ × Mat α) :=
  (List.range skinMesh.positions.length).foldl
    (fun sk j =>
      let v := skinMesh.positions.getD j 0
      let phi : Vec3 α := fun r => ∑ t : Fin 3, T_i_inv r.val t.val * (v - q0) t
      if phi 0 < 1 ∧ phi 0 > 0 ∧ phi 1 < 1 ∧ phi 1 > 0 ∧ phi 2 < 1 ∧ phi 2 > 0 then
        Function.update sk j (some (i, skinWeights phi))
      else sk)
    skin

/-- The `tetIndex` pushed for tetrahedron `i`. -/
def tetIndexAt (mesh : TetrahedralMesh α) (i : ℕ) : List ℕ :=
  [mesh.indices.getD (i * 4) 0, mesh.indices.getD (i * 4 + 1) 0,
    mesh.indices.getD (i * 4 + 2) 0, mesh.indices.getD (i * 4 + 3) 0]

/-- The local `vol` of the constructor: `abs(((q1 - q0).cross(q2 - q0)).dot(q3 - q0) / 6)`. -/
def vol (qTet : VecX α) : α :=
  |dot (cross (segment qTet 1 - segment qTet 0) (segment qTet 2 - segment qTet 0))
      (segment qTet 3 - segment qTet 0) / 6|

/-- The local `T_i` of the constructor: columns `q1 - q0`, `q2 - q0`, `q3 - q0`. -/
def T_i (qTet : VecX α) : Mat α :=
  fun r c =>
    if r < 3 then
      (if c = 0 then qTet (3 + r) - qTet r else if c = 1 then qTet (6 + r) - qTet r
       else if c = 2 then qTet (9 + r) - qTet r else 0)
    else 0

/-- The local `D_i` of the constructor: row 0 is `-ones^T * T_i_inv`, rows 1 to 3 are
`T_i_inv`. -/
def D_i (T_i_inv : Mat α) : Mat α :=
  fun r c =>
    if c < 3 then
      (if r = 0 then -(∑ t in Finset.range 3, T_i_inv t c)
       else if r < 4 then T_i_inv (r - 1) c else 0)
    else 0

/-- The local `B_i` of the constructor: `B_i.block(k*3, j*3 + k, 3, 1) = D_i.row(j)^T`. -/
def B_i (D : Mat α) : Mat α :=
  fun r c => if r < 9 ∧ c < 12 ∧ r / 3 = c % 3 then D (c / 3) (r % 3) else 0

/-- Body of the constructor loop for tetrahedron `i`. -/
def tetStep (mesh : TetrahedralMesh α) (pm : PhysicalMesh α) (i : ℕ) : PhysicalMesh α :=
  let tetIndex := tetIndexAt mesh i
  let tetIndices := pm.tetIndices ++ [tetIndex]
  let qTet := getQTet tetIndices i pm.q
  let q0 := segment qTet 0
  let T_i_inv := inverse3 (T_i qTet)
  { pm with
    tetIndices := tetIndices
    volumes := pm.volumes ++ [vol qTet]
    Ts := pm.Ts ++ [T_i qTet]
    Ds := pm.Ds ++ [D_i T_i_inv]
    Bs := pm.Bs ++ [B_i (D_i T_i_inv)]
    M := coeffRefAdd pm.M (localTriplets tetIndex (fun j k => vol qTet * M_i j k / 20))
    skinMeshTetrahedra := bindSkin pm.skinMesh T_i_inv q0 i pm.skinMeshTetrahedra }

/-- The constructor `PhysicalMesh(mesh, skinMesh)`. -/
def PhysicalMesh.init (mesh : TetrahedralMesh α) (skinMesh : Mesh α) : PhysicalMesh α :=
  let n := mesh.positions.length
  let n_tet := mesh.indices.length / 4
  (List.range n_tet).foldl (tetStep mesh)
    { q := fun d => if d < 3 * n then (mesh.positions.getD (d / 3) 0).comp d else 0
      q_dot := fun _ => 0
      tetIndices := []
      volumes := []
      Ts := []
      Bs := []
      Ds := []
      n := n
      n_tet := n_tet
      M := fun _ _ => 0
      C := 170
      D := 339 / 2
      g := 3
      skinMesh := skinMesh
      skinMeshTetrahedra := fun _ => none }

/-- The local block `volumes[i] * Bs[i].transpose() * hessian * Bs[i]` of `ddVddQ`. -/
def ddVddQ_i (psi_hessian : α → α → VecX α → Mat α) (pm : PhysicalMesh α) (qq : VecX α)
    (i : ℕ) : Mat α :=
  let ff_i := getFFlat pm i qq
  let hessian := psi_hessian pm.C pm.D ff_i
  matMul 9 (matMul 9 (pm.volumes.getD i 0 • transpose (pm.Bs.getD i 0)) hessian)
    (pm.Bs.getD i 0)

/-- The method `ddVddQ(qq)`: inside the loop over the tetrahedra the result is set from the
triplets of the current tetrahedron by `setFromTriplets`. -/
def ddVddQ (psi_hessian : α → α → VecX α → Mat α) (pm : PhysicalMesh α) (qq : VecX α) :
    Mat α :=
  (List.range pm.n_tet).foldl
    (fun _ i => setFromTriplets
      (localTriplets (pm.tetIndices.getD i []) (ddVddQ_i psi_hessian pm qq i)))
    (fun _ _ => 0)

/-- The global Hessian in the words of the specification: the sum over all tetrahedra of the
local 12×12 blocks, scattered to the rows and columns of the tetrahedron. -/
def ddVddQ_summed (psi_hessian : α → α → VecX α → Mat α) (pm : PhysicalMesh α)
    (qq : VecX α) : Mat α :=
  fun r c => ∑ i in Finset.range pm.n_tet,
    setFromTriplets (localTriplets (pm.tetIndices.getD i []) (ddVddQ_i psi_hessian pm qq i)) r c

/-- The method `dVdQ(qq)`. -/
def dVdQ (gradPsi : α → α → VecX α → VecX α) (pm : PhysicalMesh α) (qq : VecX α) : VecX α :=
  (List.range pm.n_tet).foldl
    (fun acc i =>
      let ff_i := getFFlat pm i qq
      let grad := gradPsi pm.C pm.D ff_i
      let dVdQ_i : VecX α :=
        mulVec 9 (pm.volumes.getD i 0 • transpose (pm.Bs.getD i 0)) grad
      (List.range 4).foldl
        (fun acc2 k =>
          let index := (pm.tetIndices.getD i []).getD k 0
          let a := addSegment acc2 index (segment dVdQ_i k)
          fun d => if d = index * 3 + 1 then a d + pm.volumes.getD i 0 * pm.g else a d)
        acc)
    (fun _ => 0)

/-- The method `forwardEulerStep()`, with the file-scope cache it reads and writes. -/
def forwardEulerStep (solve : Mat α → VecX α → VecX α) (gradPsi : α → α → VecX α → VecX α)
    (gl : Globals α) (pm : PhysicalMesh α) : VecX α × Globals α :=
  let gl2 : Globals α :=
    if gl.inverseCalculated then gl
    else
      { inverseCalculated := true
        M_inv := fun r c => solve pm.M (fun d => if d = c then 1 else 0) r }
  let f : VecX α := -dVdQ gradPsi pm pm.q
  let rightHandSide : VecX α := mulVec (3 * pm.n) pm.M pm.q_dot + (h : α) • f
  (mulVec (3 * pm.n) gl2.M_inv rightHandSide, gl2)

/-- The floor loop of `simulationStep` on the velocity returned by the integrator. -/
def floorClamp (pm : PhysicalMesh α) (v : VecX α) : VecX α :=
  (List.range pm.n).foldl
    (fun w i => if (pm.q + (h : α) • w) (3 * i + 1) ≤ -3 then Function.update w (3 * i + 1) 0
      else w)
    v

/-- The part of `simulationStep()` after the integrator returned `v`: floor loop, then
`q += h * new_q_dot; q_dot = new_q_dot`. -/
def integrate (pm : PhysicalMesh α) (v : VecX α) : PhysicalMesh α :=
  { pm with
    q := pm.q + (h : α) • floorClamp pm v
    q_dot := floorClamp pm v }

/-- The method `simulationStep()`, with the file-scope cache. -/
def simulationStep (solve : Mat α → VecX α → VecX α) (gradPsi : α → α → VecX α → VecX α)
    (s : PhysicalMesh α × Globals α) : PhysicalMesh α × Globals α :=
  let r := forwardEulerStep solve gradPsi s.2 s.1
  (integrate s.1 r.1, r.2)

/-- The vector `phi = T_i_inv * (v - q0)` of the skin loop of the constructor. -/
def skinPhi (T_i_inv : Mat α) (q0 v : Vec3 α) : Vec3 α :=
  fun r => ∑ t : Fin 3, T_i_inv r.val t.val * (v - q0) t

/-- The containment test of the skin loop of the constructor. -/
def skinTest (phi : Vec3 α) : Prop :=
  phi 0 < 1 ∧ phi 0 > 0 ∧ phi 1 < 1 ∧ phi 1 > 0 ∧ phi 2 < 1 ∧ phi 2 > 0

/-- The vector `phi` that the constructor computes for skin vertex `j` in tetrahedron `i`. -/
def restPhi (mesh : TetrahedralMesh α) (skinMesh : Mesh α) (i j : ℕ) : Vec3 α :=
  skinPhi (inverse3 (T_i (qTetOf (tetIndexAt mesh i) (PhysicalMesh.init mesh skinMesh).q)))
    (segment (qTetOf (tetIndexAt mesh i) (PhysicalMesh.init mesh skinMesh).q) 0)
    (skinMesh.positions.getD j 0)

/-- The method `getSkinMesh()`, returning the object and the skinned mesh. The entries of the
map are visited in the order of their keys, the skin vertex indices. -/
def getSkinMesh (pm : PhysicalMesh α) : PhysicalMesh α × Mesh α :=
  let positions := (List.range pm.skinMesh.positions.length).foldl
    (fun ps i_vert =>
      match pm.skinMeshTetrahedra i_vert with
      | some (i_tet, w) =>
        ps.set i_vert
          (fun r => ∑ c in Finset.range 12, w r.val c * getQTet pm.tetIndices i_tet pm.q c)
      | none => ps)
    pm.skinMesh.positions
  (pm, { pm.skinMesh with positions := positions })

/-- The method `dEdV(v)`. -/
def dEdV (gradPsi : α → α → VecX α → VecX α) (pm : PhysicalMesh α) (v : VecX α) : VecX α :=
  let q_i : VecX α := pm.q + (h : α) • v
  mulVec (3 * pm.n) pm.M (v - pm.q_dot) + (h : α) • dVdQ gradPsi pm q_i

/-- The method `backwardEulerLinearStep()`. -/
def backwardEulerLinearStep (solve : Mat α → VecX α → VecX α)
    (gradPsi : α → α → VecX α → VecX α) (psi_hessian : α → α → VecX α → Mat α)
    (pm : PhysicalMesh α) : VecX α :=
  let f : VecX α := -dVdQ gradPsi pm pm.q
  let K : Mat α := -ddVddQ psi_hessian pm pm.q
  let rightHandSide : VecX α := mulVec (3 * pm.n) pm.M pm.q_dot + (h : α) • f
  solve (pm.M + ((h : α) * h) • K) rightHandSide

/-- The loop of `gradiendDescent` with `fuel` passes left, from the iterate `v_i`: the final
iterate and the number of updates `v_i += a*d` performed. `normX` is the norm of a dynamic
vector. -/
def gdLoop (normX : VecX α → α) (gradPsi : α → α → VecX α → VecX α) (pm : PhysicalMesh α)
    (a tol : α) : ℕ → VecX α → VecX α × ℕ
  | 0, v_i => (v_i, 0)
  | fuel + 1, v_i =>
    let g_i := dEdV gradPsi pm v_i
    if normX g_i < tol then (v_i, 0)
    else
      let d : VecX α := -g_i
      ((gdLoop normX gradPsi pm a tol fuel (v_i + a • d)).1,
        (gdLoop normX gradPsi pm a tol fuel (v_i + a • d)).2 + 1)

/-- The method `gradiendDescent(a, tol, verbose)`; `verbose` only prints. -/
def gradiendDescent (normX : VecX α → α) (gradPsi : α → α → VecX α → VecX α)
    (pm : PhysicalMesh α) (a tol : α) (_verbose : Bool) : VecX α :=
  (gdLoop normX gradPsi pm a tol 100 pm.q_dot).1

end Defs

end Fem

/-! ## Concrete inputs -/

section Examples

variable {α : Type} [LinearOrderedField α]

/-- A solver for diagonal systems: `x_d = b_d / A_dd`. -/
def diagSolve (A : Mat α) (b : VecX α) : VecX α := fun d => b d / A d d

/-- One right triangle with legs 3 and 4. -/
def triangleMesh : Mesh α :=
  { positions := [![0, 0, 0], ![3, 0, 0], ![0, 4, 0]]
    indices := [0, 1, 2] }

/-- Two triangles sharing the edge between the vertices 1 and 2, listed in opposite
orientations. -/
def quadMesh : Mesh α :=
  { positions := [![0, 0, 0], ![3, 0, 0], ![0, 4, 0], ![3, 4, 0]]
    indices := [0, 1, 2, 2, 1, 3] }

/-- A skin mesh without vertices. -/
def emptySkin : Mesh α :=
  { positions := []
    indices := [] }

/-- The unit tetrahedron on the vertices 0 to 3, and a fifth vertex used by no tetrahedron. -/
def unitTet5 : TetrahedralMesh α :=
  { positions := [![0, 0, 0], ![1, 0, 0], ![0, 1, 0], ![0, 0, 1], ![1, 1, 1]]
    indices := [0, 1, 2, 3] }

/-- Two tetrahedra sharing the face of the vertices 1, 2, 3. -/
def twoTets : TetrahedralMesh α :=
  { positions := [![0, 0, 0], ![1, 0, 0], ![0, 1, 0], ![0, 0, 1], ![1, 1, 1]]
    indices := [0, 1, 2, 3, 1, 2, 3, 4] }

/-- The Hessian of the energy density `ψ(F) = |F|² / 2`: the 9×9 identity. -/
def identityHessian : α → α → VecX α → Mat α :=
  fun _ _ _ a b => if a = b ∧ a < 9 then 1 else 0

/-- The unit tetrahedron. -/
def unitTet : TetrahedralMesh α :=
  { positions := [![0, 0, 0], ![1, 0, 0], ![0, 1, 0], ![0, 0, 1]]
    indices := [0, 1, 2, 3] }

/-- The unit tetrahedron scaled by 2. -/
def bigTet : TetrahedralMesh α :=
  { positions := [![0, 0, 0], ![2, 0, 0], ![0, 2, 0], ![0, 0, 2]]
    indices := [0, 1, 2, 3] }

/-- A tetrahedron with four coplanar vertices. -/
def flatTet : TetrahedralMesh α :=
  { positions := [![0, 0, 0], ![1, 0, 0], ![0, 1, 0], ![1, 1, 0]]
    indices := [0, 1, 2, 3] }

/-- A skin mesh with the single vertex `v`. -/
def skinAt (v : Vec3 α) : Mesh α :=
  { positions := [v]
    indices := [] }

/-- A material without elastic forces: `gradPsi = 0`. -/
def zeroGrad : α → α → VecX α → VecX α := fun _ _ _ _ => 0

/-- A solver for the mass matrix `c (I + J) ⊗ I₃` of a single tetrahedron (`J` the 4×4 matrix
of ones, `2c` the diagonal entry): `x = (b - (J ⊗ I₃) b / 5) / c`. -/
def tetMassSolve (A : Mat α) (b : VecX α) : VecX α :=
  fun d => (b d - (b (d % 3) + b (d % 3 + 3) + b (d % 3 + 6) + b (d % 3 + 9)) / 5)
    / (A d d / 2)

/-- A solver result that does not depend on the system: all entries `1`. -/
def onesSolve : Mat α → VecX α → VecX α := fun _ _ _ => 1

/-- Two vertices `a`, `b` and one degenerate triangle `(0, 1, 1)`: a single edge `(0, 1)`. -/
def segmentMesh (a b : Vec3 α) : Mesh α :=
  { positions := [a, b]
    indices := [0, 1, 1] }

end Examples

/-! ## Theorems: mass-spring solver -/

namespace MassSpring

section Theorems

set_option linter.unusedSectionVars false

variable {α : Type} [LinearOrderedField α]

theorem foldl_addSegment (r : Vec3 α) (l : List ℕ) (q : VecX α) (d : ℕ) :
    (l.foldl (fun q i => addSegment q i r) q) d = q d + (l.count (d / 3) : α) * r.comp d := by
  induction l generalizing q with
  | nil => simp
  | cons a t ih =>
    rw [List.foldl_cons, ih, List.count_cons]
    by_cases h : d / 3 = a
    · subst h
      simp [addSegment]
      ring
    · have h2 : ¬ a = d / 3 := fun e => h e.symm
      simp [addSegment, h, h2]

theorem foldl_scaleSegment_zero (l : List ℕ) (v : VecX α) (d : ℕ) :
    (l.foldl (fun w i => scaleSegment w i 0) v) d = if d / 3 ∈ l then 0 else v d := by
  induction l generalizing v with
  | nil => simp
  | cons a t ih =>
    rw [List.foldl_cons, ih]
    by_cases h : d / 3 = a
    · subst h
      simp [scaleSegment]
    · have h2 : ¬ a = d / 3 := fun e => h e.symm
      simp [scaleSegment, h, h2]

theorem segment_div (i : ℕ) (c : Fin 3) : (3 * i + c.val) / 3 = i := by
  have := c.isLt
  omega

theorem comp_segment_index (r : Vec3 α) (i : ℕ) (c : Fin 3) : r.comp (3 * i + c.val) = r c := by
  unfold Vec3.comp
  congr 1
  apply Fin.ext
  have := c.isLt
  simp only
  omega

/-- C7 (as amended): `moveFixedPoints(D)` adds `D` to the position of a vertex once for every
occurrence of the vertex in `fixed_points`; so for a duplicate-free list every fixed vertex
moves by exactly `D`, in every case a non-fixed vertex keeps its position, and `q_dot` is
unchanged. -/
theorem moveFixedPoints_spec (pm : PhysicalMesh α) (D : Vec3 α) :
    (∀ i, segment (moveFixedPoints pm D).q i
        = segment pm.q i + (pm.fixed_points.count i : α) • D) ∧
    (pm.fixed_points.Nodup →
      ∀ i ∈ pm.fixed_points, segment (moveFixedPoints pm D).q i = segment pm.q i + D) ∧
    (∀ i, i ∉ pm.fixed_points → segment (moveFixedPoints pm D).q i = segment pm.q i) ∧
    (moveFixedPoints pm D).q_dot = pm.q_dot := by
  have key : ∀ i, segment (moveFixedPoints pm D).q i
      = segment pm.q i + (pm.fixed_points.count i : α) • D := by
    intro i
    funext c
    simp only [segment, moveFixedPoints, foldl_addSegment, segment_div, comp_segment_index,
      Pi.add_apply, Pi.smul_apply, smul_eq_mul]
  refine ⟨key, ?_, ?_, rfl⟩
  · intro hnd i hi
    rw [key i, List.count_eq_one_of_mem hnd hi]
    simp
  · intro i hi
    rw [key i, List.count_eq_zero_of_not_mem hi]
    simp

/-- C8: after `simulationStep(h)`, whatever the solver returned and whether or not the stiffness
matrix is enabled, every vertex of `fixed_points` has zero velocity and the position it had
before the step. -/
theorem simulationStep_fixed (norm : Vec3 α → α) (solve : Mat α → VecX α → VecX α)
    (pm : PhysicalMesh α) (h : α) (i : ℕ) (hi : i ∈ pm.fixed_points) :
    segment (simulationStep norm solve pm h).q_dot i = 0 ∧
    segment (simulationStep norm solve pm h).q i = segment pm.q i := by
  have hv : ∀ c : Fin 3, (simulationStep norm solve pm h).q_dot (3 * i + c.val) = 0 := by
    intro c
    simp only [simulationStep, backwardEulerStep, new_q_dot, foldl_scaleSegment_zero,
      segment_div, hi, if_true]
  constructor
  · funext c
    exact hv c
  · funext c
    have h2 := hv c
    simp only [simulationStep, backwardEulerStep] at h2
    simp only [simulationStep, backwardEulerStep, segment, Pi.add_apply, Pi.smul_apply,
      smul_eq_mul, h2, mul_zero, add_zero]

theorem r_i_ne_zero (norm : Vec3 α → α) (r : Vec3 α) : r_i norm r ≠ 0 := by
  unfold r_i
  split_ifs with hc
  · norm_num
  · intro h0
    apply hc
    rw [h0, abs_zero]
    norm_num

theorem r_i_of_le (norm : Vec3 α → α) (r : Vec3 α) (hr : 1 / 1000 ≤ norm r) :
    r_i norm r = norm r := by
  unfold r_i
  rw [if_neg]
  intro hc
  have := le_abs_self (norm r)
  linarith

/-- C9: the spring force law of `simulationStep`. For an edge `(i, j, l0)` with
`r = q_i - q_j` and `|r| ≥ 0.001`: inside the tolerance `||r| - l0| < 0.01` the edge leaves the
force vector as it was; outside it adds `X = -k (1 - l0/|r|) r = -k (|r| - l0) r / |r|` to the
entries of vertex `i` and `-X` to those of vertex `j` (for `k > 0` the coefficient of `r` is
negative when the edge is stretched and positive when it is compressed). When `|r| < 0.001`
the divisor is `0.01`, and the divisor is never zero. -/
theorem spring_force_law (norm : Vec3 α → α) (pm : PhysicalMesh α) (acc : VecX α × Mat α)
    (i j : ℕ) (l0 : α) :
    (1 / 1000 ≤ norm (segment pm.q i - segment pm.q j) →
      (|norm (segment pm.q i - segment pm.q j) - l0| < 1 / 100 →
        (edgeStep norm pm acc (i, j, l0)).1 = acc.1) ∧
      (¬ |norm (segment pm.q i - segment pm.q j) - l0| < 1 / 100 →
        ∀ X : Vec3 α,
          X = (-pm.k * (1 - l0 / norm (segment pm.q i - segment pm.q j)))
                • (segment pm.q i - segment pm.q j) →
          X = (-pm.k * (norm (segment pm.q i - segment pm.q j) - l0)
                / norm (segment pm.q i - segment pm.q j)) • (segment pm.q i - segment pm.q j) ∧
          (edgeStep norm pm acc (i, j, l0)).1 = addSegment (addSegment acc.1 i X) j (-X) ∧
          (i ≠ j →
            segment (edgeStep norm pm acc (i, j, l0)).1 i = segment acc.1 i + X ∧
            segment (edgeStep norm pm acc (i, j, l0)).1 j = segment acc.1 j - X ∧
            ∀ v, v ≠ i → v ≠ j →
              segment (edgeStep norm pm acc (i, j, l0)).1 v = segment acc.1 v) ∧
          (0 < pm.k →
            (l0 < norm (segment pm.q i - segment pm.q j) →
              -pm.k * (1 - l0 / norm (segment pm.q i - segment pm.q j)) < 0) ∧
            (norm (segment pm.q i - segment pm.q j) < l0 →
              0 < -pm.k * (1 - l0 / norm (segment pm.q i - segment pm.q j)))))) ∧
    (|norm (segment pm.q i - segment pm.q j)| < 1 / 1000 →
      r_i norm (segment pm.q i - segment pm.q j) = 1 / 100) ∧
    r_i norm (segment pm.q i - segment pm.q j) ≠ 0 := by
  refine ⟨fun hr => ⟨fun htol => ?_, fun htol X hX => ?_⟩, fun hc => ?_, r_i_ne_zero norm _⟩
  · have hf : f_i norm pm.k (segment pm.q i - segment pm.q j) l0 = 0 := by
      unfold f_i
      rw [r_i_of_le norm _ hr, if_pos htol]
    funext d
    simp only [edgeStep, hf, addSegment, Vec3.comp, zero_smul, neg_zero, Pi.zero_apply,
      add_zero, ite_self]
  · have hpos : 0 < norm (segment pm.q i - segment pm.q j) := by
      have : (0 : α) < 1 / 1000 := by norm_num
      linarith
    have hf : f_i norm pm.k (segment pm.q i - segment pm.q j) l0
        = -pm.k * (1 - l0 / norm (segment pm.q i - segment pm.q j)) := by
      unfold f_i
      rw [r_i_of_le norm _ hr, if_neg htol]
    have hstep : (edgeStep norm pm acc (i, j, l0)).1 = addSegment (addSegment acc.1 i X) j (-X) := by
      simp only [edgeStep, hf, hX, neg_smul]
    refine ⟨?_, hstep, fun hij => ⟨?_, ?_, ?_⟩, fun hk => ⟨fun hs => ?_, fun hs => ?_⟩⟩
    · rw [hX]
      congr 1
      field_simp
    · rw [hstep]
      funext c
      simp only [segment, addSegment, segment_div, comp_segment_index, if_pos, hij, if_false,
        Pi.add_apply]
    · rw [hstep]
      funext c
      simp only [segment, addSegment, segment_div, comp_segment_index, if_pos,
        Ne.symm hij, if_false, Pi.sub_apply, Pi.neg_apply]
      ring
    · intro v hvi hvj
      rw [hstep]
      funext c
      simp only [segment, addSegment, segment_div, hvi, hvj, if_false]
    · have h1 : l0 / norm (segment pm.q i - segment pm.q j) < 1 := (div_lt_one hpos).mpr hs
      have h2 : 0 < 1 - l0 / norm (segment pm.q i - segment pm.q j) := by linarith
      have := mul_pos hk h2
      linarith
    · have h1 : 1 < l0 / norm (segment pm.q i - segment pm.q j) := (one_lt_div hpos).mpr hs
      have h2 : 1 - l0 / norm (segment pm.q i - segment pm.q j) < 0 := by linarith
      have := mul_neg_of_pos_of_neg hk h2
      linarith
  · unfold r_i
    rw [if_pos hc]

theorem mulVec_diag (N : ℕ) (m : α) (A : Mat α)
    (hA : ∀ r c, A r c = if r = c ∧ r < N then m else 0) (x : VecX α) (d : ℕ) (hd : d < N) :
    mulVec N A x d = m * x d := by
  unfold mulVec
  rw [Finset.sum_eq_single d]
  · rw [hA]
    simp [hd]
  · intro c _ hcd
    rw [hA]
    simp [Ne.symm hcd]
  · intro hnot
    exact absurd (Finset.mem_range.mpr hd) hnot

theorem foldl_edgeStep_snd (norm : Vec3 α → α) (pm : PhysicalMesh α)
    (hH : pm.enableHessian = false) (es : List (Edge α)) (acc : VecX α × Mat α) :
    (es.foldl (edgeStep norm pm) acc).2 = acc.2 := by
  induction es generalizing acc with
  | nil => rfl
  | cons e t ih =>
    rw [List.foldl_cons, ih]
    simp [edgeStep, hH]

theorem assemble_snd (norm : Vec3 α → α) (pm : PhysicalMesh α)
    (hH : pm.enableHessian = false) : (assemble norm pm).2 = fun _ _ => 0 := by
  simp only [assemble]
  rw [foldl_edgeStep_snd norm pm hH]

/-- With the stiffness matrix disabled and `M = m I`, `m ≠ 0`, every entry below `3n` of the
solver's answer is `q_dot + (h/m) f`. -/
theorem solve_diag (norm : Vec3 α → α) (solve : Mat α → VecX α → VecX α)
    (pm : PhysicalMesh α) (h : α) (hm : pm.m ≠ 0) (hH : pm.enableHessian = false)
    (hM : pm.M = fun r c => if r = c ∧ r < 3 * pm.n then pm.m else 0)
    (hsolve : Solves (3 * pm.n) solve (pm.M + (h * h) • (assemble norm pm).2))
    (d : ℕ) (hd : d < 3 * pm.n) :
    solve (pm.M + (h * h) • (assemble norm pm).2)
        (mulVec (3 * pm.n) pm.M pm.q_dot + h • (assemble norm pm).1) d
      = pm.q_dot d + h / pm.m * (assemble norm pm).1 d := by
  have hA : ∀ r c, (pm.M + (h * h) • (assemble norm pm).2) r c
      = if r = c ∧ r < 3 * pm.n then pm.m else 0 := by
    intro r c
    rw [assemble_snd norm pm hH, hM]
    simp
  have h1 := hsolve (mulVec (3 * pm.n) pm.M pm.q_dot + h • (assemble norm pm).1) d hd
  rw [mulVec_diag (3 * pm.n) pm.m _ hA _ d hd] at h1
  have hM2 : ∀ r c, pm.M r c = if r = c ∧ r < 3 * pm.n then pm.m else 0 := by
    intro r c
    rw [hM]
  have h2 : mulVec (3 * pm.n) pm.M pm.q_dot d = pm.m * pm.q_dot d :=
    mulVec_diag (3 * pm.n) pm.m _ hM2 _ d hd
  simp only [Pi.add_apply, Pi.smul_apply, smul_eq_mul, h2] at h1
  field_simp
  linear_combination h1

/-- The force vector after the edge loop, entry by entry: every edge `(i, j, l0)` adds
`f_i r` at the entries of vertex `i` and `-f_i r` at those of vertex `j`, `r = q_i - q_j`. -/
theorem foldl_edgeStep_fst_apply (norm : Vec3 α → α) (pm : PhysicalMesh α)
    (es : List (Edge α)) (acc : VecX α × Mat α) (d : ℕ) :
    (es.foldl (edgeStep norm pm) acc).1 d
      = acc.1 d + (es.map (fun e =>
          (if d / 3 = e.1 then
              f_i norm pm.k (segment pm.q e.1 - segment pm.q e.2.1) e.2.2
                * (segment pm.q e.1 - segment pm.q e.2.1).comp d
            else 0)
          + (if d / 3 = e.2.1 then
              -(f_i norm pm.k (segment pm.q e.1 - segment pm.q e.2.1) e.2.2
                * (segment pm.q e.1 - segment pm.q e.2.1).comp d)
            else 0))).sum := by
  induction es generalizing acc with
  | nil => simp
  | cons e t ih =>
    rw [List.foldl_cons, ih, List.map_cons, List.sum_cons, ← add_assoc]
    congr 1
    simp only [edgeStep, addSegment, Vec3.comp, Pi.smul_apply, Pi.neg_apply, smul_eq_mul,
      neg_smul]
    split_ifs <;> ring

theorem assemble_fst_apply (norm : Vec3 α → α) (pm : PhysicalMesh α) (d : ℕ) :
    (assemble norm pm).1 d
      = (pm.edges.map (fun e =>
          (if d / 3 = e.1 then
              f_i norm pm.k (segment pm.q e.1 - segment pm.q e.2.1) e.2.2
                * (segment pm.q e.1 - segment pm.q e.2.1).comp d
            else 0)
          + (if d / 3 = e.2.1 then
              -(f_i norm pm.k (segment pm.q e.1 - segment pm.q e.2.1) e.2.2
                * (segment pm.q e.1 - segment pm.q e.2.1).comp d)
            else 0))).sum
        + (if d % 3 = 1 ∧ d / 3 < pm.n then -pm.m * pm.g else 0) := by
  simp only [assemble, addGravity]
  rw [foldl_edgeStep_fst_apply]
  split_ifs <;> simp

/-- C10: with the stiffness matrix disabled, `M = m I` and `m ≠ 0`, a solver that solves the
system `(M + h² K) v = M q_dot + h f` makes `simulationStep(h)` the semi-implicit Euler update.
The assembled force `F` is, entry by entry, the sum over the edges `(i, j, l0)` of the spring
force `f r` at the entries of vertex `i` and `-f r` at those of vertex `j`, with
`r = q_i - q_j` at the positions before the step, `ρ` the length of `r` (`0.01` when below
`0.001`) and `f = -k (1 - l0/ρ)` (`0` when `|ρ - l0| < 0.01`), plus the gravity `-m g` at the
vertical entry of every vertex. For every non-fixed vertex the new velocity is the old one plus
`(h/m) F`, and the new position is the old one plus `h` times the new velocity. -/
theorem simulationStep_semi_implicit (norm : Vec3 α → α) (solve : Mat α → VecX α → VecX α)
    (pm : PhysicalMesh α) (h : α) (hm : pm.m ≠ 0) (hH : pm.enableHessian = false)
    (hM : pm.M = fun r c => if r = c ∧ r < 3 * pm.n then pm.m else 0)
    (hsolve : Solves (3 * pm.n) solve (pm.M + (h * h) • (assemble norm pm).2))
    (i : ℕ) (hi : i < pm.n) (hfree : i ∉ pm.fixed_points) :
    (∀ d, (assemble norm pm).1 d
      = (pm.edges.map (fun e =>
          (fun r : Vec3 α =>
            (fun ρ : α =>
              (fun f : α =>
                (if d / 3 = e.1 then f * r.comp d else 0)
                  + (if d / 3 = e.2.1 then -(f * r.comp d) else 0))
              (if |ρ - e.2.2| < 1 / 100 then 0 else -pm.k * (1 - e.2.2 / ρ)))
            (if |norm r| < 1 / 1000 then 1 / 100 else norm r))
          (segment pm.q e.1 - segment pm.q e.2.1))).sum
        + (if d % 3 = 1 ∧ d / 3 < pm.n then -pm.m * pm.g else 0)) ∧
    segment (simulationStep norm solve pm h).q_dot i
      = segment pm.q_dot i + (h / pm.m) • segment (assemble norm pm).1 i ∧
    segment (simulationStep norm solve pm h).q i
      = segment pm.q i + h • segment (simulationStep norm solve pm h).q_dot i := by
  refine ⟨fun d => assemble_fst_apply norm pm d, ?_, ?_⟩
  · funext c
    have hd : 3 * i + c.val < 3 * pm.n := by
      have := c.isLt
      omega
    have hs := solve_diag norm solve pm h hm hH hM hsolve (3 * i + c.val) hd
    simp only [simulationStep, backwardEulerStep, new_q_dot, segment, foldl_scaleSegment_zero,
      segment_div, hfree, if_false, Pi.add_apply, Pi.smul_apply, smul_eq_mul]
    exact hs
  · funext c
    simp only [simulationStep, backwardEulerStep, segment, Pi.add_apply, Pi.smul_apply,
      smul_eq_mul]

/-- The loops over one triangle call `addEdge` for the slot pairs `(0,1)`, `(0,2)`, `(1,2)`. -/
theorem addTriangle_eq (norm : Vec3 α → α) (mesh : Mesh α) (es : List (Edge α)) (i : ℕ) :
    addTriangle norm mesh es i
      = addEdge norm mesh
          (addEdge norm mesh (addEdge norm mesh es 0 1 (3 * i + 0) (3 * i + 1))
            0 2 (3 * i + 0) (3 * i + 2))
          1 2 (3 * i + 1) (3 * i + 2) := by
  have h0 : ∀ (l : List (Edge α)) (p : ℕ), addEdge norm mesh l p p (3 * i + p) (3 * i + p) = l := by
    intro l p
    simp [addEdge]
  simp only [addTriangle, List.range_succ, List.range_zero, List.nil_append, List.cons_append,
    List.foldl_cons, List.foldl_nil, List.range', h0]

theorem sameEdge_iff (a b : ℕ) (e : Edge α) :
    sameEdge a b e = true ↔ (e.1 = a ∧ e.2.1 = b) ∨ (e.1 = b ∧ e.2.1 = a) := by
  simp [sameEdge]

theorem sameEdge_false_iff (a b : ℕ) (e : Edge α) :
    sameEdge a b e = false ↔ ¬ ((e.1 = a ∧ e.2.1 = b) ∨ (e.1 = b ∧ e.2.1 = a)) := by
  rw [← sameEdge_iff, Bool.not_eq_true]

theorem sameEdge_comm (a b : ℕ) (e : Edge α) : sameEdge a b e = sameEdge b a e := by
  rw [Bool.eq_iff_iff, sameEdge_iff, sameEdge_iff]
  tauto

theorem addEdge_skip (norm : Vec3 α → α) (mesh : Mesh α) (es : List (Edge α))
    (p o i1 i2 : ℕ) (e : Edge α)
    (he : e ∈ es) (hs : sameEdge (mesh.indices.getD i1 0) (mesh.indices.getD i2 0) e = true) :
    addEdge norm mesh es p o i1 i2 = es := by
  unfold addEdge
  split_ifs with hc
  · split
    · rfl
    · rename_i hnone
      rw [List.find?_eq_none] at hnone
      exact absurd hs (hnone e he)
  · rfl

theorem addEdge_push (norm : Vec3 α → α) (mesh : Mesh α) (es : List (Edge α))
    (p o i1 i2 : ℕ) (hop : o ≠ p)
    (hab : mesh.indices.getD i1 0 ≠ mesh.indices.getD i2 0)
    (hs : ∀ e ∈ es, sameEdge (mesh.indices.getD i1 0) (mesh.indices.getD i2 0) e = false) :
    addEdge norm mesh es p o i1 i2
      = es ++ [(mesh.indices.getD i1 0, mesh.indices.getD i2 0,
          norm (mesh.positions.getD (mesh.indices.getD i2 0) 0
            - mesh.positions.getD (mesh.indices.getD i1 0) 0))] := by
  unfold addEdge
  rw [if_pos ⟨hop, hab⟩]
  split
  · rename_i x hsome
    have hmem := List.mem_of_find?_eq_some hsome
    have htrue := List.find?_some hsome
    rw [hs x hmem] at htrue
    exact absurd htrue (by decide)
  · rfl

theorem addEdge_inv (norm : Vec3 α → α) (mesh : Mesh α) (C : ℕ → ℕ → Prop)
    (es : List (Edge α)) (p o i1 i2 : ℕ) (hop : o ≠ p) (h : EdgeInv norm mesh C es) :
    EdgeInv norm mesh
      (fun x y => C x y ∨ (x = mesh.indices.getD i1 0 ∧ y = mesh.indices.getD i2 0))
      (addEdge norm mesh es p o i1 i2) := by
  obtain ⟨hA, hB, hC⟩ := h
  by_cases hab : mesh.indices.getD i1 0 = mesh.indices.getD i2 0
  · have hsame : addEdge norm mesh es p o i1 i2 = es := by
      unfold addEdge
      rw [if_neg]
      intro hc
      exact hc.2 hab
    rw [hsame]
    refine ⟨fun e he => ⟨(hA e he).1, (hA e he).2.1, Or.inl (hA e he).2.2⟩, hB, ?_⟩
    intro a b hab2 hne
    rcases hab2 with hc | ⟨rfl, rfl⟩
    · exact hC a b hc hne
    · exact absurd hab hne
  · by_cases hex : ∃ e ∈ es, sameEdge (mesh.indices.getD i1 0) (mesh.indices.getD i2 0) e = true
    · obtain ⟨e, he, hs⟩ := hex
      rw [addEdge_skip norm mesh es p o i1 i2 e he hs]
      refine ⟨fun e he => ⟨(hA e he).1, (hA e he).2.1, Or.inl (hA e he).2.2⟩, hB, ?_⟩
      intro a b hab2 hne
      rcases hab2 with hc | ⟨rfl, rfl⟩
      · exact hC a b hc hne
      · exact ⟨e, he, hs⟩
    · have hs : ∀ e ∈ es,
          sameEdge (mesh.indices.getD i1 0) (mesh.indices.getD i2 0) e = false := by
        intro e he
        by_contra hcon
        rw [Bool.not_eq_false] at hcon
        exact hex ⟨e, he, hcon⟩
      rw [addEdge_push norm mesh es p o i1 i2 hop hab hs]
      refine ⟨?_, ?_, ?_⟩
      · intro e he
        rcases List.mem_append.mp he with he | he
        · exact ⟨(hA e he).1, (hA e he).2.1, Or.inl (hA e he).2.2⟩
        · rw [List.mem_singleton] at he
          subst he
          exact ⟨hab, rfl, Or.inr ⟨rfl, rfl⟩⟩
      · rw [List.pairwise_append]
        refine ⟨hB, List.pairwise_singleton _ _, ?_⟩
        intro e he e2 he2
        rw [List.mem_singleton] at he2
        subst he2
        have := hs e he
        rw [sameEdge_false_iff] at this ⊢
        simp only
        tauto
      · intro a b hab2 hne
        rcases hab2 with hc | ⟨rfl, rfl⟩
        · obtain ⟨e, he, hse⟩ := hC a b hc hne
          exact ⟨e, List.mem_append_left _ he, hse⟩
        · refine ⟨_, List.mem_append_right _ (List.mem_singleton_self _), ?_⟩
          rw [sameEdge_iff]
          exact Or.inl ⟨rfl, rfl⟩

theorem EdgeInv.mono (norm : Vec3 α → α) (mesh : Mesh α) (C C2 : ℕ → ℕ → Prop)
    (es : List (Edge α)) (h : EdgeInv norm mesh C es) (h12 : ∀ x y, C x y ↔ C2 x y) :
    EdgeInv norm mesh C2 es := by
  have : C = C2 := by
    funext x y
    exact propext (h12 x y)
  rw [← this]
  exact h

theorem buildEdges_inv (norm : Vec3 α → α) (mesh : Mesh α) (t : ℕ) :
    EdgeInv norm mesh
      (fun x y => ∃ i, i < t ∧ ∃ p o, p < o ∧ o < 3 ∧
        mesh.indices.getD (3 * i + p) 0 = x ∧ mesh.indices.getD (3 * i + o) 0 = y)
      ((List.range t).foldl (addTriangle norm mesh) []) := by
  induction t with
  | zero =>
    refine ⟨?_, ?_, ?_⟩
    · intro e he
      simp at he
    · simp
    · rintro a b ⟨i, hi, -⟩
      omega
  | succ t ih =>
    rw [List.range_succ, List.foldl_append, List.foldl_cons, List.foldl_nil, addTriangle_eq]
    have h1 := addEdge_inv norm mesh _ _ 0 1 (3 * t + 0) (3 * t + 1) (by decide) ih
    have h2 := addEdge_inv norm mesh _ _ 0 2 (3 * t + 0) (3 * t + 2) (by decide) h1
    have h3 := addEdge_inv norm mesh _ _ 1 2 (3 * t + 1) (3 * t + 2) (by decide) h2
    refine EdgeInv.mono norm mesh _ _ _ h3 ?_
    intro x y
    constructor
    · rintro (((⟨i, hi, p, o, hpo, ho, hx, hy⟩ | ⟨hx, hy⟩) | ⟨hx, hy⟩) | ⟨hx, hy⟩)
      · exact ⟨i, by omega, p, o, hpo, ho, hx, hy⟩
      · exact ⟨t, by omega, 0, 1, by decide, by decide, hx.symm, hy.symm⟩
      · exact ⟨t, by omega, 0, 2, by decide, by decide, hx.symm, hy.symm⟩
      · exact ⟨t, by omega, 1, 2, by decide, by decide, hx.symm, hy.symm⟩
    · rintro ⟨i, hi, p, o, hpo, ho, hx, hy⟩
      by_cases hit : i < t
      · exact Or.inl (Or.inl (Or.inl ⟨i, hit, p, o, hpo, ho, hx, hy⟩))
      · have hie : i = t := by omega
        subst hie
        have hcases : (p = 0 ∧ o = 1) ∨ (p = 0 ∧ o = 2) ∨ (p = 1 ∧ o = 2) := by omega
        rcases hcases with ⟨rfl, rfl⟩ | ⟨rfl, rfl⟩ | ⟨rfl, rfl⟩
        · exact Or.inl (Or.inl (Or.inr ⟨hx.symm, hy.symm⟩))
        · exact Or.inl (Or.inr ⟨hx.symm, hy.symm⟩)
        · exact Or.inr ⟨hx.symm, hy.symm⟩

theorem countP_sameEdge_eq_one (a b : ℕ) (es : List (Edge α))
    (hp : es.Pairwise (fun e e2 => sameEdge e.1 e.2.1 e2 = false))
    (hex : ∃ e ∈ es, sameEdge a b e = true) :
    es.countP (sameEdge a b) = 1 := by
  induction es with
  | nil =>
    obtain ⟨e, he, -⟩ := hex
    simp at he
  | cons e t ih =>
    rw [List.pairwise_cons] at hp
    by_cases hs : sameEdge a b e = true
    · rw [List.countP_cons_of_pos _ _ hs]
      have hz : List.countP (sameEdge a b) t = 0 := by
        rw [List.countP_eq_zero]
        intro e2 he2 hs2
        have hf := hp.1 e2 he2
        rw [sameEdge_false_iff] at hf
        rw [sameEdge_iff] at hs hs2
        apply hf
        rcases hs with ⟨h1, h2⟩ | ⟨h1, h2⟩ <;> rcases hs2 with ⟨h3, h4⟩ | ⟨h3, h4⟩ <;>
          first
          | exact Or.inl ⟨h3.trans h1.symm, h4.trans h2.symm⟩
          | exact Or.inr ⟨h3.trans h2.symm, h4.trans h1.symm⟩
      rw [hz]
    · rw [List.countP_cons_of_neg _ _ hs]
      apply ih hp.2
      obtain ⟨e2, he2, hs2⟩ := hex
      rcases List.mem_cons.mp he2 with rfl | hmem
      · exact absurd hs2 hs
      · exact ⟨e2, hmem, hs2⟩

/-- C2: the edge list built by the constructor is a duplicate-free enumeration of the
undirected edges of the triangle list: no entry is a self-loop, every pair of different vertex
indices occurring together in a triangle has exactly one entry (in one of the two
orientations), and every entry joins two indices occurring together in a triangle. -/
theorem buildEdges_unique (norm : Vec3 α → α) (mesh : Mesh α) :
    (∀ e ∈ buildEdges norm mesh, e.1 ≠ e.2.1) ∧
    (∀ a b, a ≠ b →
      (∃ i, i < mesh.indices.length / 3 ∧ ∃ p o, p < 3 ∧ o < 3 ∧
        mesh.indices.getD (3 * i + p) 0 = a ∧ mesh.indices.getD (3 * i + o) 0 = b) →
      (buildEdges norm mesh).countP (sameEdge a b) = 1) ∧
    (∀ e ∈ buildEdges norm mesh,
      ∃ i, i < mesh.indices.length / 3 ∧ ∃ p o, p < 3 ∧ o < 3 ∧
        mesh.indices.getD (3 * i + p) 0 = e.1 ∧ mesh.indices.getD (3 * i + o) 0 = e.2.1) := by
  obtain ⟨hA, hB, hC⟩ := buildEdges_inv norm mesh (mesh.indices.length / 3)
  refine ⟨fun e he => (hA e he).1, ?_, ?_⟩
  · rintro a b hab ⟨i, hi, p, o, hp, ho, hx, hy⟩
    apply countP_sameEdge_eq_one a b _ hB
    have hpo : p ≠ o := by
      rintro rfl
      exact hab (hx.symm.trans hy)
    rcases Nat.lt_or_gt_of_ne hpo with hlt | hgt
    · exact hC a b ⟨i, hi, p, o, hlt, ho, hx, hy⟩ hab
    · obtain ⟨e, he, hs⟩ := hC b a ⟨i, hi, o, p, hgt, hp, hy, hx⟩ (Ne.symm hab)
      exact ⟨e, he, by rw [sameEdge_comm]; exact hs⟩
  · intro e he
    obtain ⟨i, hi, p, o, hpo, ho, hx, hy⟩ := (hA e he).2.2
    exact ⟨i, hi, p, o, by omega, ho, hx, hy⟩

/-- C3: every entry `(a, b, l0)` of the edge list carries the Euclidean distance of the initial
positions of `a` and `b` (`l0 = |p_b - p_a|`, so `l0 ≥ 0` and `l0² = |p_b - p_a|²`), and
neither `moveFixedPoints` nor `simulationStep` changes the edge list. -/
theorem rest_length_spec (norm : Vec3 α → α) (solve : Mat α → VecX α → VecX α)
    (mesh : Mesh α) (m k g : α) (fixed_points : List ℕ)
    (hnorm : ∀ v, 0 ≤ norm v ∧ norm v * norm v = dot v v) :
    (∀ e ∈ (PhysicalMesh.init norm mesh m k g fixed_points).edges,
      e.2.2 = norm (mesh.positions.getD e.2.1 0 - mesh.positions.getD e.1 0) ∧
      0 ≤ e.2.2 ∧
      e.2.2 * e.2.2 = dot (mesh.positions.getD e.2.1 0 - mesh.positions.getD e.1 0)
        (mesh.positions.getD e.2.1 0 - mesh.positions.getD e.1 0)) ∧
    (∀ (pm : PhysicalMesh α) (D : Vec3 α), (moveFixedPoints pm D).edges = pm.edges) ∧
    (∀ (pm : PhysicalMesh α) (h : α), (simulationStep norm solve pm h).edges = pm.edges) := by
  refine ⟨?_, fun _ _ => rfl, fun _ _ => rfl⟩
  intro e he
  have h1 := ((buildEdges_inv norm mesh (mesh.indices.length / 3)).1 e he).2.1
  refine ⟨h1, ?_, ?_⟩
  · rw [h1]
    exact (hnorm _).1
  · rw [h1]
    exact (hnorm _).2

theorem norm_neg_eq (norm : Vec3 α → α)
    (hnorm : ∀ v, 0 ≤ norm v ∧ norm v * norm v = dot v v) (r : Vec3 α) :
    norm (-r) = norm r := by
  have h1 := hnorm r
  have h2 := hnorm (-r)
  have hd : dot (-r) (-r) = dot r r := by
    simp only [dot, Pi.neg_apply]
    ring
  rw [hd, ← h1.2] at h2
  exact (mul_self_inj h2.1 h1.1).mp h2.2

theorem eq_zero_of_norm_zero (norm : Vec3 α → α)
    (hnorm : ∀ v, 0 ≤ norm v ∧ norm v * norm v = dot v v) (r : Vec3 α) (h0 : norm r = 0) :
    r = 0 := by
  have h1 := (hnorm r).2
  rw [h0, mul_zero] at h1
  simp only [dot] at h1
  have a0 := mul_self_nonneg (r 0)
  have a1 := mul_self_nonneg (r 1)
  have a2 := mul_self_nonneg (r 2)
  have e0 : r 0 = 0 := mul_self_eq_zero.mp (by linarith)
  have e1 : r 1 = 0 := mul_self_eq_zero.mp (by linarith)
  have e2 : r 2 = 0 := mul_self_eq_zero.mp (by linarith)
  funext c
  fin_cases c
  · exact e0
  · exact e1
  · exact e2

/-- An edge at its rest length exerts no force. -/
theorem f_i_rest (norm : Vec3 α → α)
    (hnorm : ∀ v, 0 ≤ norm v ∧ norm v * norm v = dot v v) (k : α) (r : Vec3 α) :
    f_i norm k r (norm (-r)) • r = 0 := by
  rw [norm_neg_eq norm hnorm]
  have hnn := (hnorm r).1
  unfold f_i r_i
  by_cases hc : |norm r| < 1 / 1000
  · rw [if_pos hc]
    rcases hnn.eq_or_lt with h0 | hpos
    · rw [eq_zero_of_norm_zero norm hnorm r h0.symm, smul_zero]
    · rw [abs_of_nonneg hnn] at hc
      rw [if_pos, zero_smul]
      rw [abs_lt]
      constructor <;> linarith
  · rw [if_neg hc, sub_self, abs_zero, if_pos (by norm_num), zero_smul]

theorem edgeStep_fst_of_zero (norm : Vec3 α → α) (pm : PhysicalMesh α) (acc : VecX α × Mat α)
    (e : Edge α)
    (h0 : f_i norm pm.k (segment pm.q e.1 - segment pm.q e.2.1) e.2.2
      • (segment pm.q e.1 - segment pm.q e.2.1) = 0) :
    (edgeStep norm pm acc e).1 = acc.1 := by
  funext d
  simp only [edgeStep, addSegment, neg_smul, h0, neg_zero, Vec3.comp, Pi.zero_apply, add_zero,
    ite_self]

theorem foldl_edgeStep_fst_of_zero (norm : Vec3 α → α) (pm : PhysicalMesh α)
    (es : List (Edge α)) (acc : VecX α × Mat α)
    (h0 : ∀ e ∈ es, f_i norm pm.k (segment pm.q e.1 - segment pm.q e.2.1) e.2.2
      • (segment pm.q e.1 - segment pm.q e.2.1) = 0) :
    (es.foldl (edgeStep norm pm) acc).1 = acc.1 := by
  induction es generalizing acc with
  | nil => rfl
  | cons e t ih =>
    rw [List.foldl_cons, ih _ (fun e2 he2 => h0 e2 (List.mem_cons_of_mem _ he2))]
    exact edgeStep_fst_of_zero norm pm acc e (h0 e (List.mem_cons_self _ _))

theorem init_q_segment (norm : Vec3 α → α) (mesh : Mesh α) (m k g : α) (fp : List ℕ)
    (a : ℕ) (ha : a < mesh.positions.length) :
    segment (PhysicalMesh.init norm mesh m k g fp).q a = mesh.positions.getD a 0 := by
  funext c
  have hc := c.isLt
  have hlt : 3 * a + c.val < 3 * mesh.positions.length := by omega
  simp only [segment, PhysicalMesh.init, hlt, if_true, segment_div, comp_segment_index]

theorem buildEdges_index_lt (norm : Vec3 α → α) (mesh : Mesh α)
    (hwf : ∀ x ∈ mesh.indices, x < mesh.positions.length) (e : Edge α)
    (he : e ∈ buildEdges norm mesh) :
    e.1 < mesh.positions.length ∧ e.2.1 < mesh.positions.length := by
  obtain ⟨i, hi, p, o, hpo, ho, hx, hy⟩ :=
    ((buildEdges_inv norm mesh (mesh.indices.length / 3)).1 e he).2.2
  have hlen : 3 * (mesh.indices.length / 3) ≤ mesh.indices.length :=
    Nat.mul_div_le mesh.indices.length 3
  have hp : 3 * i + p < mesh.indices.length := by omega
  have ho2 : 3 * i + o < mesh.indices.length := by omega
  constructor
  · rw [← hx, List.getD_eq_getElem _ _ hp]
    exact hwf _ (List.getElem_mem _)
  · rw [← hy, List.getD_eq_getElem _ _ ho2]
    exact hwf _ (List.getElem_mem _)

theorem assemble_fst_atRest (norm : Vec3 α → α) (mesh : Mesh α) (m k : α) (fp : List ℕ)
    (hnorm : ∀ v, 0 ≤ norm v ∧ norm v * norm v = dot v v)
    (hwf : ∀ x ∈ mesh.indices, x < mesh.positions.length)
    (pm : PhysicalMesh α) (hr : AtRest norm mesh m k fp pm) :
    (assemble norm pm).1 = fun _ => 0 := by
  obtain ⟨hE, hn, -, -, -, -, hg, -, hq⟩ := hr
  have hseg : ∀ a, a < mesh.positions.length → segment pm.q a = mesh.positions.getD a 0 := by
    intro a ha
    rw [← init_q_segment norm mesh m k 0 fp a ha]
    funext c
    have hc := c.isLt
    exact (hq (3 * a + c.val) (by omega)).1
  have hfold : (pm.edges.foldl (edgeStep norm pm) (fun _ => 0, fun _ _ => 0)).1 = fun _ => 0 := by
    rw [foldl_edgeStep_fst_of_zero]
    intro e he
    rw [hE] at he
    have hlt := buildEdges_index_lt norm mesh hwf e he
    have hl0 := ((buildEdges_inv norm mesh (mesh.indices.length / 3)).1 e he).2.1
    rw [hseg _ hlt.1, hseg _ hlt.2, hl0, ← neg_sub (mesh.positions.getD e.1 0)]
    exact f_i_rest norm hnorm pm.k _
  funext d
  simp only [assemble, addGravity, hfold, hg, mul_zero, add_zero, ite_self]

theorem simulationStep_atRest (norm : Vec3 α → α) (solve : Mat α → VecX α → VecX α)
    (mesh : Mesh α) (m k h : α) (fp : List ℕ)
    (hnorm : ∀ v, 0 ≤ norm v ∧ norm v * norm v = dot v v) (hm : 0 < m)
    (hwf : ∀ x ∈ mesh.indices, x < mesh.positions.length)
    (hsolve : Solves (3 * mesh.positions.length) solve
      (fun r c => if r = c ∧ r < 3 * mesh.positions.length then m else 0))
    (pm : PhysicalMesh α) (hr : AtRest norm mesh m k fp pm) :
    AtRest norm mesh m k fp (simulationStep norm solve pm h) := by
  have hF := assemble_fst_atRest norm mesh m k fp hnorm hwf pm hr
  obtain ⟨hE, hn, hM, hmm, hk, hfp, hg, hH, hq⟩ := hr
  have hM2 : pm.M = fun r c => if r = c ∧ r < 3 * pm.n then pm.m else 0 := by
    rw [hM, hn, hmm]
  have hA : pm.M + (h * h) • (assemble norm pm).2
      = fun r c => if r = c ∧ r < 3 * mesh.positions.length then m else 0 := by
    rw [assemble_snd norm pm hH, hM]
    funext r c
    simp
  have hs : Solves (3 * pm.n) solve (pm.M + (h * h) • (assemble norm pm).2) := by
    rw [hA, hn]
    exact hsolve
  have hv : ∀ d, d < 3 * mesh.positions.length →
      (simulationStep norm solve pm h).q_dot d = 0 := by
    intro d hd
    have hsd := solve_diag norm solve pm h (by rw [hmm]; exact ne_of_gt hm) hH hM2 hs d
      (by rw [hn]; exact hd)
    simp only [simulationStep, backwardEulerStep, new_q_dot, foldl_scaleSegment_zero]
    split_ifs
    · rfl
    · rw [hsd, hF, (hq d hd).2]
      simp
  refine ⟨hE, hn, hM, hmm, hk, hfp, hg, hH, fun d hd => ⟨?_, hv d hd⟩⟩
  have h2 := hv d hd
  simp only [simulationStep, backwardEulerStep] at h2
  simp only [simulationStep, backwardEulerStep, Pi.add_apply, Pi.smul_apply, smul_eq_mul, h2,
    mul_zero, add_zero]
  exact (hq d hd).1

theorem init_atRest (norm : Vec3 α → α) (mesh : Mesh α) (m k : α) (fp : List ℕ) :
    AtRest norm mesh m k fp (PhysicalMesh.init norm mesh m k 0 fp) :=
  ⟨rfl, rfl, rfl, rfl, rfl, rfl, rfl, rfl, fun _ _ => ⟨rfl, rfl⟩⟩

theorem iterate_atRest (norm : Vec3 α → α) (solve : Mat α → VecX α → VecX α)
    (mesh : Mesh α) (m k h : α) (fp : List ℕ)
    (hnorm : ∀ v, 0 ≤ norm v ∧ norm v * norm v = dot v v) (hm : 0 < m)
    (hwf : ∀ x ∈ mesh.indices, x < mesh.positions.length)
    (hsolve : Solves (3 * mesh.positions.length) solve
      (fun r c => if r = c ∧ r < 3 * mesh.positions.length then m else 0))
    (N : ℕ) :
    AtRest norm mesh m k fp
      ((fun pm => simulationStep norm solve pm h)^[N] (PhysicalMesh.init norm mesh m k 0 fp)) := by
  induction N with
  | zero => exact init_atRest norm mesh m k fp
  | succ N ih =>
    rw [Function.iterate_succ_apply']
    exact simulationStep_atRest norm solve mesh m k h fp hnorm hm hwf hsolve _ ih

/-- C6: rest-state invariance. For a mesh whose triangle indices are valid, `m > 0`, gravity
`g = 0` and the stiffness matrix disabled, any number `N` of `simulationStep(h)` calls on the
freshly constructed solver leaves every entry of `q` and of `q_dot` exactly as constructed
(the norm being the Euclidean norm and the solver solving the system `m I v = b`). -/
theorem rest_state_invariance (norm : Vec3 α → α) (solve : Mat α → VecX α → VecX α)
    (mesh : Mesh α) (m k h : α) (fp : List ℕ)
    (hnorm : ∀ v, 0 ≤ norm v ∧ norm v * norm v = dot v v) (hm : 0 < m)
    (hwf : ∀ x ∈ mesh.indices, x < mesh.positions.length)
    (hsolve : Solves (3 * mesh.positions.length) solve
      (fun r c => if r = c ∧ r < 3 * mesh.positions.length then m else 0))
    (N d : ℕ) (hd : d < 3 * mesh.positions.length) :
    ((fun pm => simulationStep norm solve pm h)^[N]
        (PhysicalMesh.init norm mesh m k 0 fp)).q d
      = (PhysicalMesh.init norm mesh m k 0 fp).q d ∧
    ((fun pm => simulationStep norm solve pm h)^[N]
        (PhysicalMesh.init norm mesh m k 0 fp)).q_dot d
      = (PhysicalMesh.init norm mesh m k 0 fp).q_dot d ∧
    ((fun pm => simulationStep norm solve pm h)^[N]
        (PhysicalMesh.init norm mesh m k 0 fp)).enableHessian = false :=
  ⟨((iterate_atRest norm solve mesh m k h fp hnorm hm hwf hsolve N).2.2.2.2.2.2.2.2 d hd).1,
   ((iterate_atRest norm solve mesh m k h fp hnorm hm hwf hsolve N).2.2.2.2.2.2.2.2 d hd).2,
   (iterate_atRest norm solve mesh m k h fp hnorm hm hwf hsolve N).2.2.2.2.2.2.2.1⟩

theorem diagSolve_solves (N : ℕ) (m : α) (hm : m ≠ 0) :
    Solves N diagSolve (fun r c => if r = c ∧ r < N then m else 0) := by
  intro b d hd
  rw [mulVec_diag N m _ (fun _ _ => rfl) _ d hd]
  simp only [diagSolve, hd, and_self, if_true]
  field_simp

theorem diagSolve_solves_step (norm : Vec3 α → α) (pm : PhysicalMesh α) (h : α)
    (hm : pm.m ≠ 0) (hH : pm.enableHessian = false)
    (hM : pm.M = fun r c => if r = c ∧ r < 3 * pm.n then pm.m else 0) :
    Solves (3 * pm.n) diagSolve (pm.M + (h * h) • (assemble norm pm).2) := by
  have hA : pm.M + (h * h) • (assemble norm pm).2
      = fun r c => if r = c ∧ r < 3 * pm.n then pm.m else 0 := by
    rw [assemble_snd norm pm hH, hM]
    funext r c
    simp
  rw [hA]
  exact diagSolve_solves (3 * pm.n) pm.m hm
theorem sqrt_norm_spec (v : Vec3 ℝ) :
    0 ≤ Real.sqrt (dot v v) ∧ Real.sqrt (dot v v) * Real.sqrt (dot v v) = dot v v := by
  have h0 : 0 ≤ dot v v := by
    unfold dot
    nlinarith [mul_self_nonneg (v 0), mul_self_nonneg (v 1), mul_self_nonneg (v 2)]
  exact ⟨Real.sqrt_nonneg _, Real.mul_self_sqrt h0⟩

/-- Witness of C2: in the two triangles `(0,1,2)`, `(2,1,3)` the shared edge of the vertices 1
and 2 is stored exactly once. -/
theorem buildEdges_unique_witness :
    (buildEdges (fun v : Vec3 ℝ => Real.sqrt (dot v v)) quadMesh).countP (sameEdge 1 2) = 1 :=
  (buildEdges_unique (fun v : Vec3 ℝ => Real.sqrt (dot v v)) quadMesh).2.1 1 2 (by decide)
    ⟨1, by simp [quadMesh], 1, 0, by decide, by decide, by simp [quadMesh],
      by simp [quadMesh]⟩

/-- Witness of C3: the triangle with legs 3 and 4 under the Euclidean norm of `ℝ³`. -/
theorem rest_length_spec_witness :
    (∀ v : Vec3 ℝ,
      0 ≤ Real.sqrt (dot v v) ∧ Real.sqrt (dot v v) * Real.sqrt (dot v v) = dot v v) ∧
    ∀ e ∈ (PhysicalMesh.init (fun v : Vec3 ℝ => Real.sqrt (dot v v)) triangleMesh
        1 1 0 []).edges,
      0 ≤ e.2.2 ∧
      e.2.2 * e.2.2 = dot
        ((triangleMesh : Mesh ℝ).positions.getD e.2.1 0
          - (triangleMesh : Mesh ℝ).positions.getD e.1 0)
        ((triangleMesh : Mesh ℝ).positions.getD e.2.1 0
          - (triangleMesh : Mesh ℝ).positions.getD e.1 0) :=
  ⟨sqrt_norm_spec, fun e he =>
    ((rest_length_spec (fun v : Vec3 ℝ => Real.sqrt (dot v v)) diagSolve triangleMesh
      1 1 0 [] sqrt_norm_spec).1 e he).2⟩

theorem triangleMesh_wf : ∀ x ∈ (triangleMesh : Mesh ℝ).indices,
    x < (triangleMesh : Mesh ℝ).positions.length := by
  intro x hx
  simp [triangleMesh] at hx ⊢
  omega

/-- Witness of C6: three steps of the triangle with legs 3 and 4, unit mass, no gravity. -/
theorem rest_state_invariance_witness :
    ((fun pm => simulationStep (fun v : Vec3 ℝ => Real.sqrt (dot v v)) diagSolve pm (1 / 10))^[3]
        (PhysicalMesh.init (fun v : Vec3 ℝ => Real.sqrt (dot v v)) triangleMesh 1 1 0 [0])).q 3
      = (PhysicalMesh.init (fun v : Vec3 ℝ => Real.sqrt (dot v v)) triangleMesh 1 1 0 [0]).q 3 ∧
    ((fun pm => simulationStep (fun v : Vec3 ℝ => Real.sqrt (dot v v)) diagSolve pm (1 / 10))^[3]
        (PhysicalMesh.init (fun v : Vec3 ℝ => Real.sqrt (dot v v)) triangleMesh 1 1 0 [0])).q_dot 3
      = (PhysicalMesh.init (fun v : Vec3 ℝ => Real.sqrt (dot v v)) triangleMesh 1 1 0
          [0]).q_dot 3 :=
  ⟨(rest_state_invariance (fun v : Vec3 ℝ => Real.sqrt (dot v v)) diagSolve triangleMesh
      1 1 (1 / 10) [0] sqrt_norm_spec one_pos triangleMesh_wf
      (diagSolve_solves _ 1 one_ne_zero) 3 3 (by simp [triangleMesh])).1,
   (rest_state_invariance (fun v : Vec3 ℝ => Real.sqrt (dot v v)) diagSolve triangleMesh
      1 1 (1 / 10) [0] sqrt_norm_spec one_pos triangleMesh_wf
      (diagSolve_solves _ 1 one_ne_zero) 3 3 (by simp [triangleMesh])).2.1⟩

/-- C7 (counterexample): with the fixed-point list `[0, 0]` and `D = (1, 0, 0)`, vertex 0 is
fixed but its new position is not its previous position plus `D`: `D` is added twice. -/
theorem moveFixedPoints_duplicate :
    0 ∈ (PhysicalMesh.init (fun v : Vec3 ℝ => Real.sqrt (dot v v)) triangleMesh
        1 1 0 [0, 0]).fixed_points ∧
    segment (moveFixedPoints (PhysicalMesh.init (fun v : Vec3 ℝ => Real.sqrt (dot v v))
        triangleMesh 1 1 0 [0, 0]) ![1, 0, 0]).q 0
      ≠ segment (PhysicalMesh.init (fun v : Vec3 ℝ => Real.sqrt (dot v v))
        triangleMesh 1 1 0 [0, 0]).q 0 + ![1, 0, 0] := by
  constructor
  · simp [PhysicalMesh.init]
  · intro hEq
    have h0 := congrFun hEq 0
    simp [segment, moveFixedPoints, addSegment, PhysicalMesh.init, Vec3.comp, triangleMesh]
      at h0

/-- Witness of C7: with the duplicate-free list `[0]`, vertex 0 moves by `D` and vertex 1 stays. -/
theorem moveFixedPoints_spec_witness :
    segment (moveFixedPoints (PhysicalMesh.init (fun v : Vec3 ℝ => Real.sqrt (dot v v))
        triangleMesh 1 1 0 [0]) ![1, 0, 0]).q 0
      = segment (PhysicalMesh.init (fun v : Vec3 ℝ => Real.sqrt (dot v v))
        triangleMesh 1 1 0 [0]).q 0 + ![1, 0, 0] ∧
    segment (moveFixedPoints (PhysicalMesh.init (fun v : Vec3 ℝ => Real.sqrt (dot v v))
        triangleMesh 1 1 0 [0]) ![1, 0, 0]).q 1
      = segment (PhysicalMesh.init (fun v : Vec3 ℝ => Real.sqrt (dot v v))
        triangleMesh 1 1 0 [0]).q 1 :=
  ⟨(moveFixedPoints_spec (PhysicalMesh.init (fun v : Vec3 ℝ => Real.sqrt (dot v v))
      triangleMesh 1 1 0 [0]) ![1, 0, 0]).2.1 (List.nodup_singleton 0) 0
      (List.mem_singleton_self 0),
   (moveFixedPoints_spec (PhysicalMesh.init (fun v : Vec3 ℝ => Real.sqrt (dot v v))
      triangleMesh 1 1 0 [0]) ![1, 0, 0]).2.2.1 1 (by simp [PhysicalMesh.init])⟩

/-- Witness of C8: vertex 0 of the fixed-point list `[0]`, under gravity 10. -/
theorem simulationStep_fixed_witness :
    segment (simulationStep (fun v : Vec3 ℝ => Real.sqrt (dot v v)) diagSolve
        (PhysicalMesh.init (fun v : Vec3 ℝ => Real.sqrt (dot v v)) triangleMesh 1 1 10 [0])
        (1 / 10)).q_dot 0 = 0 ∧
    segment (simulationStep (fun v : Vec3 ℝ => Real.sqrt (dot v v)) diagSolve
        (PhysicalMesh.init (fun v : Vec3 ℝ => Real.sqrt (dot v v)) triangleMesh 1 1 10 [0])
        (1 / 10)).q 0
      = segment (PhysicalMesh.init (fun v : Vec3 ℝ => Real.sqrt (dot v v))
          triangleMesh 1 1 10 [0]).q 0 :=
  simulationStep_fixed (fun v : Vec3 ℝ => Real.sqrt (dot v v)) diagSolve
    (PhysicalMesh.init (fun v : Vec3 ℝ => Real.sqrt (dot v v)) triangleMesh 1 1 10 [0])
    (1 / 10) 0 (List.mem_singleton_self 0)

/-- Witness of C10: the free vertex 1 of the triangle, under gravity 10. -/
theorem simulationStep_semi_implicit_witness :
    segment (simulationStep (fun v : Vec3 ℝ => Real.sqrt (dot v v)) diagSolve
        (PhysicalMesh.init (fun v : Vec3 ℝ => Real.sqrt (dot v v)) triangleMesh 1 1 10 [0])
        (1 / 10)).q_dot 1
      = segment (PhysicalMesh.init (fun v : Vec3 ℝ => Real.sqrt (dot v v))
          triangleMesh 1 1 10 [0]).q_dot 1
        + ((1 / 10 : ℝ) / 1) • segment (assemble (fun v : Vec3 ℝ => Real.sqrt (dot v v))
            (PhysicalMesh.init (fun v : Vec3 ℝ => Real.sqrt (dot v v))
              triangleMesh 1 1 10 [0])).1 1 :=
  (simulationStep_semi_implicit (fun v : Vec3 ℝ => Real.sqrt (dot v v)) diagSolve
    (PhysicalMesh.init (fun v : Vec3 ℝ => Real.sqrt (dot v v)) triangleMesh 1 1 10 [0])
    (1 / 10) one_ne_zero rfl rfl
    (diagSolve_solves_step _ _ _ one_ne_zero rfl rfl) 1 (by simp [PhysicalMesh.init, triangleMesh])
    (by simp [PhysicalMesh.init])).2.1

theorem triangle_edge01_norm :
    Real.sqrt (dot
      (segment (PhysicalMesh.init (fun v : Vec3 ℝ => Real.sqrt (dot v v))
          triangleMesh 1 1 0 []).q 0
        - segment (PhysicalMesh.init (fun v : Vec3 ℝ => Real.sqrt (dot v v))
          triangleMesh 1 1 0 []).q 1)
      (segment (PhysicalMesh.init (fun v : Vec3 ℝ => Real.sqrt (dot v v))
          triangleMesh 1 1 0 []).q 0
        - segment (PhysicalMesh.init (fun v : Vec3 ℝ => Real.sqrt (dot v v))
          triangleMesh 1 1 0 []).q 1)) = 3 := by
  have hd : dot
      (segment (PhysicalMesh.init (fun v : Vec3 ℝ => Real.sqrt (dot v v))
          triangleMesh 1 1 0 []).q 0
        - segment (PhysicalMesh.init (fun v : Vec3 ℝ => Real.sqrt (dot v v))
          triangleMesh 1 1 0 []).q 1)
      (segment (PhysicalMesh.init (fun v : Vec3 ℝ => Real.sqrt (dot v v))
          triangleMesh 1 1 0 []).q 0
        - segment (PhysicalMesh.init (fun v : Vec3 ℝ => Real.sqrt (dot v v))
          triangleMesh 1 1 0 []).q 1) = 3 * 3 := by
    simp [dot, segment, PhysicalMesh.init, triangleMesh, Vec3.comp]
  rw [hd]
  exact Real.sqrt_mul_self (by norm_num)

/-- Witness of C9: the edge `(0, 1)` of the triangle has length `3`; with rest length `3` it
adds nothing to the forces, and its divisor is not zero. -/
theorem spring_force_law_witness :
    (edgeStep (fun v : Vec3 ℝ => Real.sqrt (dot v v))
        (PhysicalMesh.init (fun v : Vec3 ℝ => Real.sqrt (dot v v)) triangleMesh 1 1 0 [])
        (fun _ => 0, fun _ _ => 0) (0, 1, 3)).1 = fun _ => 0 :=
  ((spring_force_law (fun v : Vec3 ℝ => Real.sqrt (dot v v))
      (PhysicalMesh.init (fun v : Vec3 ℝ => Real.sqrt (dot v v)) triangleMesh 1 1 0 [])
      (fun _ => 0, fun _ _ => 0) 0 1 3).1
    (by rw [triangle_edge01_norm]; norm_num)).1
    (by rw [triangle_edge01_norm]; norm_num)

theorem sum_addSegment (N : ℕ) (f : VecX α) (i : ℕ) (v : Vec3 α) (c : ℕ) (hc : c < 3)
    (hi : i < N) :
    ∑ a in Finset.range N, addSegment f i v (3 * a + c)
      = ∑ a in Finset.range N, f (3 * a + c) + v.comp c := by
  have hterm : ∀ a ∈ Finset.range N,
      addSegment f i v (3 * a + c) = f (3 * a + c) + (if a = i then v.comp c else 0) := by
    intro a _
    have hdiv : (3 * a + c) / 3 = a := by omega
    have hmod : (3 * a + c) % 3 = c % 3 := by omega
    unfold addSegment
    rw [hdiv]
    split_ifs
    · simp only [Vec3.comp, hmod]
    · rw [add_zero]
  rw [Finset.sum_congr rfl hterm, Finset.sum_add_distrib, Finset.sum_ite_eq',
    if_pos (Finset.mem_range.mpr hi)]

theorem sum_edgeStep (norm : Vec3 α → α) (pm : PhysicalMesh α) (acc : VecX α × Mat α)
    (e : Edge α) (N : ℕ) (he : e.1 < N ∧ e.2.1 < N) (c : ℕ) (hc : c < 3) :
    ∑ a in Finset.range N, (edgeStep norm pm acc e).1 (3 * a + c)
      = ∑ a in Finset.range N, acc.1 (3 * a + c) := by
  simp only [edgeStep]
  rw [sum_addSegment N _ _ _ c hc he.2, sum_addSegment N _ _ _ c hc he.1]
  simp [Vec3.comp]

theorem sum_foldl_edgeStep (norm : Vec3 α → α) (pm : PhysicalMesh α) (N : ℕ) (c : ℕ)
    (hc : c < 3) (es : List (Edge α)) (hes : ∀ e ∈ es, e.1 < N ∧ e.2.1 < N)
    (acc : VecX α × Mat α) :
    ∑ a in Finset.range N, (es.foldl (edgeStep norm pm) acc).1 (3 * a + c)
      = ∑ a in Finset.range N, acc.1 (3 * a + c) := by
  induction es generalizing acc with
  | nil => rfl
  | cons e t ih =>
    rw [List.foldl_cons, ih (fun x hx => hes x (List.mem_cons_of_mem _ hx)),
      sum_edgeStep norm pm acc e N (hes e (List.mem_cons_self _ _)) c hc]

theorem sum_addGravity (pm : PhysicalMesh α) (f : VecX α) (c : ℕ) (hc : c < 3) :
    ∑ a in Finset.range pm.n, addGravity pm f (3 * a + c)
      = ∑ a in Finset.range pm.n, f (3 * a + c)
        + (if c = 1 then -((pm.n : α) * pm.m * pm.g) else 0) := by
  have hterm : ∀ a ∈ Finset.range pm.n,
      addGravity pm f (3 * a + c) = f (3 * a + c) + (if c = 1 then -pm.m * pm.g else 0) := by
    intro a ha
    have hdiv : (3 * a + c) / 3 = a := by omega
    have hmod : (3 * a + c) % 3 = c := by omega
    unfold addGravity
    rw [hdiv, hmod]
    by_cases h1 : c = 1
    · rw [if_pos ⟨h1, Finset.mem_range.mp ha⟩, if_pos h1]
    · rw [if_neg (fun h => h1 h.1), if_neg h1, add_zero]
  rw [Finset.sum_congr rfl hterm, Finset.sum_add_distrib, Finset.sum_const, Finset.card_range]
  split_ifs
  · simp only [nsmul_eq_mul]
    ring
  · simp

/-- C27: when every edge joins two vertices of the system, the spring contributions
accumulated into `f_tmp` sum to the zero vector over all vertices, so the assembled forces sum
to `(0, -n m g, 0)`; with the stiffness matrix disabled, `M = m I`, `m ≠ 0`, no fixed points
and a solver that solves the system, one `simulationStep(h)` changes the sum of all vertex
velocities by exactly `(0, -n h g, 0)`, and leaves it unchanged when `g = 0`. -/
theorem momentum_balance (norm : Vec3 α → α) (solve : Mat α → VecX α → VecX α)
    (pm : PhysicalMesh α) (h : α)
    (hidx : ∀ e ∈ pm.edges, e.1 < pm.n ∧ e.2.1 < pm.n) :
    (∀ c, c < 3 →
      ∑ a in Finset.range pm.n,
        (pm.edges.foldl (edgeStep norm pm) (fun _ => 0, fun _ _ => 0)).1 (3 * a + c) = 0) ∧
    (∀ c, c < 3 →
      ∑ a in Finset.range pm.n, (assemble norm pm).1 (3 * a + c)
        = if c = 1 then -((pm.n : α) * pm.m * pm.g) else 0) ∧
    (pm.enableHessian = false → pm.m ≠ 0 → pm.fixed_points = [] →
      pm.M = (fun r c => if r = c ∧ r < 3 * pm.n then pm.m else 0) →
      Solves (3 * pm.n) solve (pm.M + (h * h) • (assemble norm pm).2) →
      (∀ c, c < 3 →
        ∑ a in Finset.range pm.n, (simulationStep norm solve pm h).q_dot (3 * a + c)
          = ∑ a in Finset.range pm.n, pm.q_dot (3 * a + c)
            + (if c = 1 then -((pm.n : α) * h * pm.g) else 0)) ∧
      (pm.g = 0 → ∀ c, c < 3 →
        ∑ a in Finset.range pm.n, (simulationStep norm solve pm h).q_dot (3 * a + c)
          = ∑ a in Finset.range pm.n, pm.q_dot (3 * a + c))) := by
  have hspring : ∀ c, c < 3 →
      ∑ a in Finset.range pm.n,
        (pm.edges.foldl (edgeStep norm pm) (fun _ => 0, fun _ _ => 0)).1 (3 * a + c) = 0 := by
    intro c hc
    rw [sum_foldl_edgeStep norm pm pm.n c hc pm.edges hidx]
    simp
  have htotal : ∀ c, c < 3 →
      ∑ a in Finset.range pm.n, (assemble norm pm).1 (3 * a + c)
        = if c = 1 then -((pm.n : α) * pm.m * pm.g) else 0 := by
    intro c hc
    simp only [assemble]
    rw [sum_addGravity pm _ c hc, hspring c hc, zero_add]
  have hvel : pm.enableHessian = false → pm.m ≠ 0 → pm.fixed_points = [] →
      pm.M = (fun r c => if r = c ∧ r < 3 * pm.n then pm.m else 0) →
      Solves (3 * pm.n) solve (pm.M + (h * h) • (assemble norm pm).2) →
      ∀ c, c < 3 →
        ∑ a in Finset.range pm.n, (simulationStep norm solve pm h).q_dot (3 * a + c)
          = ∑ a in Finset.range pm.n, pm.q_dot (3 * a + c)
            + (if c = 1 then -((pm.n : α) * h * pm.g) else 0) := by
    intro hH hm hfix hM hsolve c hc
    have hterm : ∀ a ∈ Finset.range pm.n,
        (simulationStep norm solve pm h).q_dot (3 * a + c)
          = pm.q_dot (3 * a + c) + h / pm.m * (assemble norm pm).1 (3 * a + c) := by
      intro a ha
      have hd : 3 * a + c < 3 * pm.n := by
        have := Finset.mem_range.mp ha
        omega
      have hs := solve_diag norm solve pm h hm hH hM hsolve (3 * a + c) hd
      simp only [simulationStep, backwardEulerStep, new_q_dot, hfix, List.foldl_nil]
      exact hs
    rw [Finset.sum_congr rfl hterm, Finset.sum_add_distrib, ← Finset.mul_sum, htotal c hc]
    congr 1
    split_ifs
    · field_simp
      ring
    · rw [mul_zero]
  refine ⟨hspring, htotal, fun hH hm hfix hM hsolve => ⟨hvel hH hm hfix hM hsolve, ?_⟩⟩
  intro hg c hc
  rw [hvel hH hm hfix hM hsolve c hc, hg]
  simp


theorem triangle_edges_lt (m k g : ℝ) (fp : List ℕ) :
    ∀ e ∈ (PhysicalMesh.init (fun v : Vec3 ℝ => Real.sqrt (dot v v))
        triangleMesh m k g fp).edges,
      e.1 < (PhysicalMesh.init (fun v : Vec3 ℝ => Real.sqrt (dot v v)) triangleMesh m k g fp).n
        ∧ e.2.1
          < (PhysicalMesh.init (fun v : Vec3 ℝ => Real.sqrt (dot v v)) triangleMesh m k g fp).n :=
  fun e he => buildEdges_index_lt _ triangleMesh triangleMesh_wf e he

/-- Witness of C27: one step of the free triangle under gravity 10 with `h = 1/10`, the sum of
the vertical velocities. -/
theorem momentum_balance_witness :
    ∑ a in Finset.range (PhysicalMesh.init (fun v : Vec3 ℝ => Real.sqrt (dot v v))
        triangleMesh 1 1 10 []).n,
      (simulationStep (fun v : Vec3 ℝ => Real.sqrt (dot v v)) diagSolve
        (PhysicalMesh.init (fun v : Vec3 ℝ => Real.sqrt (dot v v)) triangleMesh 1 1 10 [])
        (1 / 10)).q_dot (3 * a + 1)
      = ∑ a in Finset.range (PhysicalMesh.init (fun v : Vec3 ℝ => Real.sqrt (dot v v))
          triangleMesh 1 1 10 []).n,
          (PhysicalMesh.init (fun v : Vec3 ℝ => Real.sqrt (dot v v))
            triangleMesh 1 1 10 []).q_dot (3 * a + 1)
        + -(((PhysicalMesh.init (fun v : Vec3 ℝ => Real.sqrt (dot v v))
                triangleMesh 1 1 10 []).n : ℝ) * (1 / 10)
              * (PhysicalMesh.init (fun v : Vec3 ℝ => Real.sqrt (dot v v))
                triangleMesh 1 1 10 []).g) :=
  ((momentum_balance (fun v : Vec3 ℝ => Real.sqrt (dot v v)) diagSolve
    (PhysicalMesh.init (fun v : Vec3 ℝ => Real.sqrt (dot v v)) triangleMesh 1 1 10 [])
    (1 / 10) (triangle_edges_lt 1 1 10 [])).2.2 rfl one_ne_zero rfl rfl
    (diagSolve_solves_step _ _ _ one_ne_zero rfl rfl)).1 1 (by norm_num)

theorem segmentMesh_edges (norm : Vec3 α → α) (a b : Vec3 α) :
    buildEdges norm (segmentMesh a b) = [(0, 1, norm (b - a))] := by
  have hr : List.range 1 = [0] := rfl
  simp [buildEdges, hr, addTriangle_eq, addEdge, segmentMesh, sameEdge]

/-- The closed form of the block entry computed by `simulationStep`: on the diagonal the term
`1 - l0/|r|` is not multiplied by `k`, and off the diagonal the coefficient of `r_p r_o` is
`k (1/|r|² - (|r| - l0)/|r|)`. -/
theorem k_i_closed_form (norm : Vec3 α → α) (k : α) (r : Vec3 α) (l0 : α) (p o : Fin 3) :
    k_i norm k r l0 p o
      = if p = o then
          k * (l0 / (r_i norm r * r_i norm r * r_i norm r)) * r p * r o
            + (1 - l0 / r_i norm r)
        else
          k * (1 / (r_i norm r * r_i norm r) - (r_i norm r - l0) / r_i norm r) * r p * r o := by
  have hne := r_i_ne_zero norm r
  unfold k_i
  split_ifs with hpo
  · simp only
    field_simp
    ring
  · simp only [add_zero]

theorem finRange_three : List.finRange 3 = [0, 1, 2] := rfl

theorem edgeTriplets_entries (norm : Vec3 α → α) (k : α) (r : Vec3 α) (l0 : α) :
    setFromTriplets (edgeTriplets norm k r l0 0 1) 0 0 = k_i norm k r l0 0 0 ∧
    setFromTriplets (edgeTriplets norm k r l0 0 1) 0 4 = -k_i norm k r l0 0 1 := by
  constructor <;>
    simp [setFromTriplets, edgeTriplets, finRange_three]

theorem assemble_single_edge (norm : Vec3 α → α) (pm : PhysicalMesh α) (e : Edge α)
    (hE : pm.edges = [e]) (hH : pm.enableHessian = true) :
    (assemble norm pm).2
      = setFromTriplets (edgeTriplets norm pm.k (segment pm.q e.1 - segment pm.q e.2.1)
          e.2.2 e.1 e.2.1) := by
  funext r c
  simp [assemble, hE, edgeStep, hH]

theorem single_edge_K (norm : Vec3 α → α) (pm : PhysicalMesh α) (l0 : α)
    (hE : pm.edges = [(0, 1, l0)]) (hH : pm.enableHessian = true) (r : Vec3 α)
    (hr : segment pm.q 0 - segment pm.q 1 = r) :
    (assemble norm pm).2 0 0 = k_i norm pm.k r l0 0 0 ∧
    (assemble norm pm).2 0 4 = -k_i norm pm.k r l0 0 1 := by
  rw [assemble_single_edge norm pm _ hE hH]
  simp only
  rw [hr]
  exact edgeTriplets_entries norm pm.k r l0


theorem stretched_segment_r :
    segment (moveFixedPoints (PhysicalMesh.init (fun v : Vec3 ℝ => Real.sqrt (dot v v))
        (segmentMesh 0 ![3, 0, 0]) 1 2 0 [0]) ![0, 4, 0]).q 0
      - segment (moveFixedPoints (PhysicalMesh.init (fun v : Vec3 ℝ => Real.sqrt (dot v v))
        (segmentMesh 0 ![3, 0, 0]) 1 2 0 [0]) ![0, 4, 0]).q 1 = ![-3, 4, 0] := by
  funext c
  fin_cases c <;>
    simp [moveFixedPoints, PhysicalMesh.init, segmentMesh, segment, addSegment, Vec3.comp]

theorem stretched_segment_r_i :
    r_i (fun v : Vec3 ℝ => Real.sqrt (dot v v)) ![-3, 4, 0] = 5 := by
  have hd : dot (![-3, 4, 0] : Vec3 ℝ) ![-3, 4, 0] = 5 * 5 := by
    simp [dot]
    norm_num
  have hn : Real.sqrt (dot (![-3, 4, 0] : Vec3 ℝ) ![-3, 4, 0]) = 5 := by
    rw [hd]
    exact Real.sqrt_mul_self (by norm_num)
  rw [r_i_of_le _ _ (by rw [hn]; norm_num), hn]

/-- C23 (code bug): the segment from `(0,0,0)` to `(3,0,0)` (rest length 3, `k = 2`), vertex 0
moved by `(0,4,0)`, so that `r = q_0 - q_1 = (-3,4,0)`, `|r| = 5`. With `enableHessian` set,
the assembled `K_tmp` has the entry `104/125` at `(0,0)` and `-216/25` at `(0,4)`, where the
Hessian `k ((1 - l0/|r|) I + (l0/|r|³) r rᵀ)` of the spring energy has `154/125` in the
`(i,i)` block and `72/125` (minus the block entry `-72/125`) in the `(i,j)` block. -/
theorem stiffness_block_mismatch :
    (moveFixedPoints (PhysicalMesh.init (fun v : Vec3 ℝ => Real.sqrt (dot v v))
        (segmentMesh 0 ![3, 0, 0]) 1 2 0 [0]) ![0, 4, 0]).edges = [(0, 1, 3)] ∧
    (assemble (fun v : Vec3 ℝ => Real.sqrt (dot v v))
      { moveFixedPoints (PhysicalMesh.init (fun v : Vec3 ℝ => Real.sqrt (dot v v))
          (segmentMesh 0 ![3, 0, 0]) 1 2 0 [0]) ![0, 4, 0] with enableHessian := true }).2 0 0
      = 104 / 125 ∧
    (assemble (fun v : Vec3 ℝ => Real.sqrt (dot v v))
      { moveFixedPoints (PhysicalMesh.init (fun v : Vec3 ℝ => Real.sqrt (dot v v))
          (segmentMesh 0 ![3, 0, 0]) 1 2 0 [0]) ![0, 4, 0] with enableHessian := true }).2 0 4
      = -216 / 25 ∧
    (2 : ℝ) * ((1 - 3 / 5) * 1 + 3 / (5 * 5 * 5) * (-3 * -3)) = 154 / 125 ∧
    -((2 : ℝ) * ((1 - 3 / 5) * 0 + 3 / (5 * 5 * 5) * (-3 * 4))) = 72 / 125 := by
  have hl0 : Real.sqrt (dot ((![3, 0, 0] : Vec3 ℝ) - 0) (![3, 0, 0] - 0)) = 3 := by
    have hd : dot ((![3, 0, 0] : Vec3 ℝ) - 0) (![3, 0, 0] - 0) = 3 * 3 := by
      simp [dot]
    rw [hd]
    exact Real.sqrt_mul_self (by norm_num)
  have hE : (moveFixedPoints (PhysicalMesh.init (fun v : Vec3 ℝ => Real.sqrt (dot v v))
      (segmentMesh 0 ![3, 0, 0]) 1 2 0 [0]) ![0, 4, 0]).edges = [(0, 1, 3)] := by
    show buildEdges (fun v : Vec3 ℝ => Real.sqrt (dot v v)) (segmentMesh 0 ![3, 0, 0])
      = [(0, 1, 3)]
    rw [segmentMesh_edges, hl0]
  have hK := single_edge_K (fun v : Vec3 ℝ => Real.sqrt (dot v v))
    { moveFixedPoints (PhysicalMesh.init (fun v : Vec3 ℝ => Real.sqrt (dot v v))
        (segmentMesh 0 ![3, 0, 0]) 1 2 0 [0]) ![0, 4, 0] with enableHessian := true }
    3 hE rfl ![-3, 4, 0] stretched_segment_r
  refine ⟨hE, ?_, ?_, by norm_num, by norm_num⟩
  · rw [hK.1]
    show k_i (fun v : Vec3 ℝ => Real.sqrt (dot v v)) 2 ![-3, 4, 0] 3 0 0 = 104 / 125
    rw [k_i_closed_form, stretched_segment_r_i]
    simp
    norm_num
  · rw [hK.2]
    show -k_i (fun v : Vec3 ℝ => Real.sqrt (dot v v)) 2 ![-3, 4, 0] 3 0 1 = -216 / 25
    rw [k_i_closed_form, stretched_segment_r_i]
    simp
    norm_num

theorem simulationStep_stillAt (norm : Vec3 α → α) (solve : Mat α → VecX α → VecX α)
    (ref pm : PhysicalMesh α) (h : α) (hm : ref.m ≠ 0) (hg : ref.g = 0)
    (hH : ref.enableHessian = false)
    (hM : ref.M = fun r c => if r = c ∧ r < 3 * ref.n then ref.m else 0)
    (hidx : ∀ e ∈ ref.edges, e.1 < ref.n ∧ e.2.1 < ref.n)
    (hzero : ∀ e ∈ ref.edges,
      f_i norm ref.k (segment ref.q e.1 - segment ref.q e.2.1) e.2.2 = 0)
    (hsolve : Solves (3 * ref.n) solve ref.M)
    (hs : StillAt ref pm) : StillAt ref (simulationStep norm solve pm h) := by
  obtain ⟨hE, hn, hMM, hmm, hk, hfp, hgg, hHH, hq⟩ := hs
  have hseg : ∀ a, a < ref.n → segment pm.q a = segment ref.q a := by
    intro a ha
    funext c
    have hc := c.isLt
    exact (hq (3 * a + c.val) (by omega)).1
  have hF : (assemble norm pm).1 = fun _ => 0 := by
    have hfold : (pm.edges.foldl (edgeStep norm pm) (fun _ => 0, fun _ _ => 0)).1
        = fun _ => 0 := by
      rw [foldl_edgeStep_fst_of_zero]
      intro e he
      rw [hE] at he
      have hlt := hidx e he
      rw [hseg _ hlt.1, hseg _ hlt.2, hk, hzero e he, zero_smul]
    funext d
    simp only [assemble, addGravity, hfold, hgg, hg, mul_zero, add_zero, ite_self]
  have hM2 : pm.M = fun r c => if r = c ∧ r < 3 * pm.n then pm.m else 0 := by
    rw [hMM, hn, hmm, hM]
  have hA : pm.M + (h * h) • (assemble norm pm).2 = ref.M := by
    rw [assemble_snd norm pm (by rw [hHH, hH]), hMM]
    funext r c
    simp
  have hs2 : Solves (3 * pm.n) solve (pm.M + (h * h) • (assemble norm pm).2) := by
    rw [hA, hn]
    exact hsolve
  have hv : ∀ d, d < 3 * ref.n → (simulationStep norm solve pm h).q_dot d = 0 := by
    intro d hd
    have hsd := solve_diag norm solve pm h (by rw [hmm]; exact hm) (by rw [hHH, hH]) hM2 hs2 d
      (by rw [hn]; exact hd)
    simp only [simulationStep, backwardEulerStep, new_q_dot, foldl_scaleSegment_zero]
    split_ifs
    · rfl
    · rw [hsd, hF, (hq d hd).2]
      simp
  refine ⟨hE, hn, hMM, hmm, hk, hfp, hgg, hHH, fun d hd => ⟨?_, hv d hd⟩⟩
  have h2 := hv d hd
  simp only [simulationStep, backwardEulerStep] at h2
  simp only [simulationStep, backwardEulerStep, Pi.add_apply, Pi.smul_apply, smul_eq_mul, h2,
    mul_zero, add_zero]
  exact (hq d hd).1

theorem iterate_stillAt (norm : Vec3 α → α) (solve : Mat α → VecX α → VecX α)
    (ref : PhysicalMesh α) (h : α) (hm : ref.m ≠ 0) (hg : ref.g = 0)
    (hH : ref.enableHessian = false)
    (hM : ref.M = fun r c => if r = c ∧ r < 3 * ref.n then ref.m else 0)
    (hidx : ∀ e ∈ ref.edges, e.1 < ref.n ∧ e.2.1 < ref.n)
    (hzero : ∀ e ∈ ref.edges,
      f_i norm ref.k (segment ref.q e.1 - segment ref.q e.2.1) e.2.2 = 0)
    (hsolve : Solves (3 * ref.n) solve ref.M)
    (pm : PhysicalMesh α) (hs : StillAt ref pm) (N : ℕ) :
    StillAt ref ((fun pm => simulationStep norm solve pm h)^[N] pm) := by
  induction N with
  | zero => exact hs
  | succ N ih =>
    rw [Function.iterate_succ_apply']
    exact simulationStep_stillAt norm solve ref _ h hm hg hH hM hidx hzero hsolve ih

theorem axis_norm (norm : Vec3 α → α)
    (hnorm : ∀ v, 0 ≤ norm v ∧ norm v * norm v = dot v v) (r : Vec3 α) (d : α) (hd : 0 ≤ d)
    (h0 : r 0 = -d) (h1 : r 1 = 0) (h2 : r 2 = 0) : norm r = d := by
  have hn := hnorm r
  have hdot : dot r r = d * d := by
    simp only [dot, h0, h1, h2]
    ring
  rw [hdot] at hn
  exact (mul_self_inj hn.1 hd).mp hn.2

theorem assemble_onAxis (norm : Vec3 α → α)
    (hnorm : ∀ v, 0 ≤ norm v ∧ norm v * norm v = dot v v) (l0 m k x0 x v : α)
    (pm : PhysicalMesh α) (hs : OnAxis l0 m k x0 pm x v) (hfar : 1 / 1000 ≤ x - x0)
    (htol : 1 / 100 ≤ |x - x0 - l0|) :
    (assemble norm pm).1 3 = -(k * (x - x0 - l0)) ∧ (assemble norm pm).1 4 = 0 ∧
    (assemble norm pm).1 5 = 0 := by
  obtain ⟨hE, hn, hM, hmm, hk, hfp, hg, hH, q0, q1, q2, q3, q4, q5, v3, v4, v5⟩ := hs
  have hpos : 0 < x - x0 := lt_of_lt_of_le (by norm_num) hfar
  have hr0 : (segment pm.q 0 - segment pm.q 1) 0 = -(x - x0) := by
    simp [segment, q0, q3]
  have hr1 : (segment pm.q 0 - segment pm.q 1) 1 = 0 := by
    simp [segment, q1, q4]
  have hr2 : (segment pm.q 0 - segment pm.q 1) 2 = 0 := by
    simp [segment, q2, q5]
  have hnr : norm (segment pm.q 0 - segment pm.q 1) = x - x0 :=
    axis_norm norm hnorm _ _ hpos.le hr0 hr1 hr2
  have hri : r_i norm (segment pm.q 0 - segment pm.q 1) = x - x0 := by
    rw [r_i_of_le _ _ (by rw [hnr]; exact hfar), hnr]
  have hf : f_i norm pm.k (segment pm.q 0 - segment pm.q 1) l0
      = -k * (1 - l0 / (x - x0)) := by
    unfold f_i
    rw [hri, if_neg (not_lt.mpr htol), hk]
  have hne : x - x0 ≠ 0 := ne_of_gt hpos
  refine ⟨?_, ?_, ?_⟩
  · simp only [assemble, hE, List.foldl_cons, List.foldl_nil, edgeStep, addGravity, addSegment,
      hf, hg, Vec3.comp]
    simp [hr0]
    field_simp
    ring
  · simp only [assemble, hE, List.foldl_cons, List.foldl_nil, edgeStep, addGravity, addSegment,
      hf, hg, Vec3.comp]
    simp [hr1]
  · simp only [assemble, hE, List.foldl_cons, List.foldl_nil, edgeStep, addGravity, addSegment,
      hf, hg, Vec3.comp]
    simp [hr2]

theorem simulationStep_onAxis (norm : Vec3 α → α)
    (hnorm : ∀ v, 0 ≤ norm v ∧ norm v * norm v = dot v v)
    (solve : Mat α → VecX α → VecX α) (l0 m k x0 h x v : α) (pm : PhysicalMesh α)
    (hm : m ≠ 0)
    (hsolve : Solves (3 * 2) solve (fun r c => if r = c ∧ r < 3 * 2 then m else 0))
    (hs : OnAxis l0 m k x0 pm x v) (hfar : 1 / 1000 ≤ x - x0)
    (htol : 1 / 100 ≤ |x - x0 - l0|) :
    OnAxis l0 m k x0 (simulationStep norm solve pm h)
      (x + h * (v - h / m * (k * (x - x0 - l0)))) (v - h / m * (k * (x - x0 - l0))) := by
  have hF := assemble_onAxis norm hnorm l0 m k x0 x v pm hs hfar htol
  obtain ⟨hE, hn, hM, hmm, hk, hfp, hg, hH, q0, q1, q2, q3, q4, q5, v3, v4, v5⟩ := hs
  have hM2 : pm.M = fun r c => if r = c ∧ r < 3 * pm.n then pm.m else 0 := by
    rw [hM, hn, hmm]
  have hA : pm.M + (h * h) • (assemble norm pm).2
      = fun r c => if r = c ∧ r < 3 * 2 then m else 0 := by
    rw [assemble_snd norm pm hH, hM]
    funext r c
    simp
  have hs2 : Solves (3 * pm.n) solve (pm.M + (h * h) • (assemble norm pm).2) := by
    rw [hA, hn]
    exact hsolve
  have hv : ∀ d, d < 6 → (simulationStep norm solve pm h).q_dot d
      = if d / 3 = 0 then 0 else pm.q_dot d + h / m * (assemble norm pm).1 d := by
    intro d hd
    have hsd := solve_diag norm solve pm h (by rw [hmm]; exact hm) hH hM2 hs2 d
      (by rw [hn]; exact hd)
    simp only [simulationStep, backwardEulerStep, new_q_dot, foldl_scaleSegment_zero, hfp,
      List.mem_singleton]
    split_ifs
    · rfl
    · rw [hsd, hmm]
  have hq : ∀ d, (simulationStep norm solve pm h).q d
      = pm.q d + h * (simulationStep norm solve pm h).q_dot d := by
    intro d
    simp only [simulationStep, backwardEulerStep, Pi.add_apply, Pi.smul_apply, smul_eq_mul]
  refine ⟨hE, hn, hM, hmm, hk, hfp, hg, hH, ?_, ?_, ?_, ?_, ?_, ?_, ?_, ?_, ?_⟩
  · rw [hq, hv 0 (by norm_num), q0, if_pos (by norm_num), mul_zero, add_zero]
  · rw [hq, hv 1 (by norm_num), q1, if_pos (by norm_num), mul_zero, add_zero]
  · rw [hq, hv 2 (by norm_num), q2, if_pos (by norm_num), mul_zero, add_zero]
  · rw [hq, hv 3 (by norm_num), q3, v3, hF.1, if_neg (by norm_num)]
    ring
  · rw [hq, hv 4 (by norm_num), q4, v4, hF.2.1, if_neg (by norm_num)]
    ring
  · rw [hq, hv 5 (by norm_num), q5, v5, hF.2.2, if_neg (by norm_num)]
    ring
  · rw [hv 3 (by norm_num), v3, hF.1, if_neg (by norm_num)]
    ring
  · rw [hv 4 (by norm_num), v4, hF.2.1, if_neg (by norm_num)]
    ring
  · rw [hv 5 (by norm_num), v5, hF.2.2, if_neg (by norm_num)]
    ring

theorem onAxis_dist (norm : Vec3 α → α)
    (hnorm : ∀ v, 0 ≤ norm v ∧ norm v * norm v = dot v v) (l0 m k x0 x v : α)
    (pm : PhysicalMesh α) (hs : OnAxis l0 m k x0 pm x v) (hx : x0 ≤ x) :
    norm (segment pm.q 0 - segment pm.q 1) = x - x0 := by
  obtain ⟨-, -, -, -, -, -, -, -, q0, q1, q2, q3, q4, q5, -, -, -⟩ := hs
  refine axis_norm norm hnorm _ _ (sub_nonneg.mpr hx) ?_ ?_ ?_
  · simp [segment, q0, q3]
  · simp [segment, q1, q4]
  · simp [segment, q2, q5]

/-- C21 (as amended): two vertices joined by one edge of rest length `l0 = |b - a|`, vertex 0
fixed, `g = 0`, `m > 0`, stiffness matrix disabled, the solver solving the system. If right
after `moveFixedPoints(D)` the distance of the vertices is at least `0.001` and within `0.01`
of `l0`, then every number of `simulationStep(h)` calls leaves both vertices where they are,
so the distance stays within `0.01` of `l0` (from step `0` on). -/
theorem spring_tolerance_stationary (norm : Vec3 α → α) (solve : Mat α → VecX α → VecX α)
    (a b D : Vec3 α) (m k h : α) (hm : 0 < m)
    (hsolve : Solves (3 * 2) solve (fun r c => if r = c ∧ r < 3 * 2 then m else 0))
    (hfar : 1 / 1000 ≤ norm
      (segment (moveFixedPoints (PhysicalMesh.init norm (segmentMesh a b) m k 0 [0]) D).q 0
        - segment (moveFixedPoints (PhysicalMesh.init norm (segmentMesh a b) m k 0 [0]) D).q 1))
    (htol : |norm
      (segment (moveFixedPoints (PhysicalMesh.init norm (segmentMesh a b) m k 0 [0]) D).q 0
        - segment (moveFixedPoints (PhysicalMesh.init norm (segmentMesh a b) m k 0 [0]) D).q 1)
      - norm (b - a)| < 1 / 100)
    (n : ℕ) :
    (moveFixedPoints (PhysicalMesh.init norm (segmentMesh a b) m k 0 [0]) D).edges
      = [(0, 1, norm (b - a))] ∧
    segment ((fun pm => simulationStep norm solve pm h)^[n]
        (moveFixedPoints (PhysicalMesh.init norm (segmentMesh a b) m k 0 [0]) D)).q 0
      = segment (moveFixedPoints (PhysicalMesh.init norm (segmentMesh a b) m k 0 [0]) D).q 0 ∧
    segment ((fun pm => simulationStep norm solve pm h)^[n]
        (moveFixedPoints (PhysicalMesh.init norm (segmentMesh a b) m k 0 [0]) D)).q 1
      = segment (moveFixedPoints (PhysicalMesh.init norm (segmentMesh a b) m k 0 [0]) D).q 1 ∧
    |norm
      (segment ((fun pm => simulationStep norm solve pm h)^[n]
          (moveFixedPoints (PhysicalMesh.init norm (segmentMesh a b) m k 0 [0]) D)).q 0
        - segment ((fun pm => simulationStep norm solve pm h)^[n]
          (moveFixedPoints (PhysicalMesh.init norm (segmentMesh a b) m k 0 [0]) D)).q 1)
      - norm (b - a)| < 1 / 100 := by
  have hE : (moveFixedPoints (PhysicalMesh.init norm (segmentMesh a b) m k 0 [0]) D).edges
      = [(0, 1, norm (b - a))] := segmentMesh_edges norm a b
  have hst := iterate_stillAt norm solve
    (moveFixedPoints (PhysicalMesh.init norm (segmentMesh a b) m k 0 [0]) D) h
    (ne_of_gt hm) rfl rfl rfl
    (fun e he => by
      rw [hE, List.mem_singleton] at he
      subst he
      exact ⟨(by norm_num : (0 : ℕ) < 2), (by norm_num : (1 : ℕ) < 2)⟩)
    (fun e he => by
      rw [hE, List.mem_singleton] at he
      subst he
      unfold f_i
      rw [r_i_of_le _ _ hfar, if_pos htol])
    hsolve
    (moveFixedPoints (PhysicalMesh.init norm (segmentMesh a b) m k 0 [0]) D)
    ⟨rfl, rfl, rfl, rfl, rfl, rfl, rfl, rfl, fun d hd => ⟨rfl, rfl⟩⟩ n
  have hq := hst.2.2.2.2.2.2.2.2
  have h0 : segment ((fun pm => simulationStep norm solve pm h)^[n]
        (moveFixedPoints (PhysicalMesh.init norm (segmentMesh a b) m k 0 [0]) D)).q 0
      = segment (moveFixedPoints (PhysicalMesh.init norm (segmentMesh a b) m k 0 [0]) D).q 0 := by
    funext c
    have hc := c.isLt
    exact (hq (3 * 0 + c.val) (by
      show 3 * 0 + c.val < 3 * 2
      omega)).1
  have h1 : segment ((fun pm => simulationStep norm solve pm h)^[n]
        (moveFixedPoints (PhysicalMesh.init norm (segmentMesh a b) m k 0 [0]) D)).q 1
      = segment (moveFixedPoints (PhysicalMesh.init norm (segmentMesh a b) m k 0 [0]) D).q 1 := by
    funext c
    have hc := c.isLt
    exact (hq (3 * 1 + c.val) (by
      show 3 * 1 + c.val < 3 * 2
      omega)).1
  refine ⟨hE, h0, h1, ?_⟩
  rw [h0, h1]
  exact htol


theorem nudged_segment_dist :
    Real.sqrt (dot
      (segment (moveFixedPoints (PhysicalMesh.init (fun v : Vec3 ℝ => Real.sqrt (dot v v))
          (segmentMesh 0 ![1, 0, 0]) 1 2 0 [0]) ![-1 / 200, 0, 0]).q 0
        - segment (moveFixedPoints (PhysicalMesh.init (fun v : Vec3 ℝ => Real.sqrt (dot v v))
          (segmentMesh 0 ![1, 0, 0]) 1 2 0 [0]) ![-1 / 200, 0, 0]).q 1)
      (segment (moveFixedPoints (PhysicalMesh.init (fun v : Vec3 ℝ => Real.sqrt (dot v v))
          (segmentMesh 0 ![1, 0, 0]) 1 2 0 [0]) ![-1 / 200, 0, 0]).q 0
        - segment (moveFixedPoints (PhysicalMesh.init (fun v : Vec3 ℝ => Real.sqrt (dot v v))
          (segmentMesh 0 ![1, 0, 0]) 1 2 0 [0]) ![-1 / 200, 0, 0]).q 1)) = 201 / 200 := by
  refine axis_norm (fun v : Vec3 ℝ => Real.sqrt (dot v v)) sqrt_norm_spec _ (201 / 200)
    (by norm_num) ?_ ?_ ?_
  · simp [moveFixedPoints, PhysicalMesh.init, segmentMesh, segment, addSegment, Vec3.comp]
    norm_num
  · simp [moveFixedPoints, PhysicalMesh.init, segmentMesh, segment, addSegment, Vec3.comp]
  · simp [moveFixedPoints, PhysicalMesh.init, segmentMesh, segment, addSegment, Vec3.comp]

theorem unit_segment_l0 :
    Real.sqrt (dot ((![1, 0, 0] : Vec3 ℝ) - 0) (![1, 0, 0] - 0)) = 1 := by
  have hd : dot ((![1, 0, 0] : Vec3 ℝ) - 0) (![1, 0, 0] - 0) = 1 * 1 := by
    simp [dot]
  rw [hd]
  exact Real.sqrt_mul_self (by norm_num)

/-- Witness of C21 (as amended): the unit segment with vertex 0 moved by `(-1/200, 0, 0)`;
the distance `201/200` is within tolerance and stays so after five steps. -/
theorem spring_tolerance_stationary_witness :
    |Real.sqrt (dot
      (segment ((fun pm => simulationStep (fun v : Vec3 ℝ => Real.sqrt (dot v v)) diagSolve
            pm 1)^[5]
          (moveFixedPoints (PhysicalMesh.init (fun v : Vec3 ℝ => Real.sqrt (dot v v))
            (segmentMesh 0 ![1, 0, 0]) 1 2 0 [0]) ![-1 / 200, 0, 0])).q 0
        - segment ((fun pm => simulationStep (fun v : Vec3 ℝ => Real.sqrt (dot v v)) diagSolve
            pm 1)^[5]
          (moveFixedPoints (PhysicalMesh.init (fun v : Vec3 ℝ => Real.sqrt (dot v v))
            (segmentMesh 0 ![1, 0, 0]) 1 2 0 [0]) ![-1 / 200, 0, 0])).q 1)
      (segment ((fun pm => simulationStep (fun v : Vec3 ℝ => Real.sqrt (dot v v)) diagSolve
            pm 1)^[5]
          (moveFixedPoints (PhysicalMesh.init (fun v : Vec3 ℝ => Real.sqrt (dot v v))
            (segmentMesh 0 ![1, 0, 0]) 1 2 0 [0]) ![-1 / 200, 0, 0])).q 0
        - segment ((fun pm => simulationStep (fun v : Vec3 ℝ => Real.sqrt (dot v v)) diagSolve
            pm 1)^[5]
          (moveFixedPoints (PhysicalMesh.init (fun v : Vec3 ℝ => Real.sqrt (dot v v))
            (segmentMesh 0 ![1, 0, 0]) 1 2 0 [0]) ![-1 / 200, 0, 0])).q 1))
      - Real.sqrt (dot ((![1, 0, 0] : Vec3 ℝ) - 0) (![1, 0, 0] - 0))| < 1 / 100 :=
  (spring_tolerance_stationary (fun v : Vec3 ℝ => Real.sqrt (dot v v)) diagSolve
    0 ![1, 0, 0] ![-1 / 200, 0, 0] 1 2 1 one_pos (diagSolve_solves (3 * 2) 1 one_ne_zero)
    (by
      show (1 : ℝ) / 1000 ≤ Real.sqrt _
      rw [nudged_segment_dist]
      norm_num)
    (by
      show |Real.sqrt _ - Real.sqrt _| < (1 : ℝ) / 100
      rw [nudged_segment_dist, unit_segment_l0]
      rw [abs_of_pos (by norm_num)]
      norm_num)
    5).2.2.2

theorem oscillating_start :
    OnAxis (1 : ℝ) 1 2 (-1 / 2)
      (moveFixedPoints (PhysicalMesh.init (fun v : Vec3 ℝ => Real.sqrt (dot v v))
        (segmentMesh 0 ![1, 0, 0]) 1 2 0 [0]) ![-1 / 2, 0, 0]) 1 0 := by
  refine ⟨?_, rfl, rfl, rfl, rfl, rfl, rfl, rfl, ?_, ?_, ?_, ?_, ?_, ?_, rfl, rfl, rfl⟩
  · show buildEdges (fun v : Vec3 ℝ => Real.sqrt (dot v v)) (segmentMesh 0 ![1, 0, 0])
      = [(0, 1, 1)]
    rw [segmentMesh_edges, unit_segment_l0]
  all_goals
    simp [moveFixedPoints, PhysicalMesh.init, segmentMesh, addSegment, Vec3.comp]

theorem oscillating_states (n : ℕ) :
    OnAxis (1 : ℝ) 1 2 (-1 / 2)
      ((fun pm => simulationStep (fun v : Vec3 ℝ => Real.sqrt (dot v v)) diagSolve pm 1)^[n]
        (moveFixedPoints (PhysicalMesh.init (fun v : Vec3 ℝ => Real.sqrt (dot v v))
          (segmentMesh 0 ![1, 0, 0]) 1 2 0 [0]) ![-1 / 2, 0, 0])) 1 0 ∨
    OnAxis (1 : ℝ) 1 2 (-1 / 2)
      ((fun pm => simulationStep (fun v : Vec3 ℝ => Real.sqrt (dot v v)) diagSolve pm 1)^[n]
        (moveFixedPoints (PhysicalMesh.init (fun v : Vec3 ℝ => Real.sqrt (dot v v))
          (segmentMesh 0 ![1, 0, 0]) 1 2 0 [0]) ![-1 / 2, 0, 0])) 0 (-1) ∨
    OnAxis (1 : ℝ) 1 2 (-1 / 2)
      ((fun pm => simulationStep (fun v : Vec3 ℝ => Real.sqrt (dot v v)) diagSolve pm 1)^[n]
        (moveFixedPoints (PhysicalMesh.init (fun v : Vec3 ℝ => Real.sqrt (dot v v))
          (segmentMesh 0 ![1, 0, 0]) 1 2 0 [0]) ![-1 / 2, 0, 0])) 0 0 ∨
    OnAxis (1 : ℝ) 1 2 (-1 / 2)
      ((fun pm => simulationStep (fun v : Vec3 ℝ => Real.sqrt (dot v v)) diagSolve pm 1)^[n]
        (moveFixedPoints (PhysicalMesh.init (fun v : Vec3 ℝ => Real.sqrt (dot v v))
          (segmentMesh 0 ![1, 0, 0]) 1 2 0 [0]) ![-1 / 2, 0, 0])) 1 1 := by
  induction n with
  | zero => exact Or.inl oscillating_start
  | succ n ih =>
    rw [Function.iterate_succ_apply']
    have hstep := fun (x v : ℝ) hs hfar htol =>
      simulationStep_onAxis (fun v : Vec3 ℝ => Real.sqrt (dot v v)) sqrt_norm_spec diagSolve
        1 1 2 (-1 / 2) 1 x v
        ((fun pm => simulationStep (fun v : Vec3 ℝ => Real.sqrt (dot v v)) diagSolve pm 1)^[n]
          (moveFixedPoints (PhysicalMesh.init (fun v : Vec3 ℝ => Real.sqrt (dot v v))
            (segmentMesh 0 ![1, 0, 0]) 1 2 0 [0]) ![-1 / 2, 0, 0]))
        one_ne_zero (diagSolve_solves (3 * 2) 1 one_ne_zero) hs hfar htol
    rcases ih with hs | hs | hs | hs
    · have h2 := hstep 1 0 hs (by norm_num)
        (le_trans (by norm_num) (le_abs_self _))
      refine Or.inr (Or.inl ?_)
      convert h2 using 1 <;> norm_num
    · have h2 := hstep 0 (-1) hs (by norm_num)
        (le_trans (by norm_num) (neg_le_abs _))
      refine Or.inr (Or.inr (Or.inl ?_))
      convert h2 using 1 <;> norm_num
    · have h2 := hstep 0 0 hs (by norm_num)
        (le_trans (by norm_num) (neg_le_abs _))
      refine Or.inr (Or.inr (Or.inr ?_))
      convert h2 using 1 <;> norm_num
    · have h2 := hstep 1 1 hs (by norm_num)
        (le_trans (by norm_num) (le_abs_self _))
      refine Or.inl ?_
      convert h2 using 1 <;> norm_num

/-- C21 (counterexample): the unit segment (`l0 = 1`), vertex 0 fixed, `g = 0`, `m = 1`,
`k = 2`, stiffness matrix disabled, vertex 0 moved by `(-1/2, 0, 0)`, time step `h = 1`, with
an exact solver. The free vertex returns to its position every four steps: after every number
of steps the distance of the two vertices is `3/2` or `1/2`, never within `0.01` of `l0`. -/
theorem spring_no_convergence :
    (moveFixedPoints (PhysicalMesh.init (fun v : Vec3 ℝ => Real.sqrt (dot v v))
      (segmentMesh 0 ![1, 0, 0]) 1 2 0 [0]) ![-1 / 2, 0, 0]).edges = [(0, 1, 1)] ∧
    (∀ n : ℕ,
      Solves
        (3 * ((fun pm => simulationStep (fun v : Vec3 ℝ => Real.sqrt (dot v v)) diagSolve
            pm 1)^[n]
          (moveFixedPoints (PhysicalMesh.init (fun v : Vec3 ℝ => Real.sqrt (dot v v))
            (segmentMesh 0 ![1, 0, 0]) 1 2 0 [0]) ![-1 / 2, 0, 0])).n)
        diagSolve
        (((fun pm => simulationStep (fun v : Vec3 ℝ => Real.sqrt (dot v v)) diagSolve
            pm 1)^[n]
          (moveFixedPoints (PhysicalMesh.init (fun v : Vec3 ℝ => Real.sqrt (dot v v))
            (segmentMesh 0 ![1, 0, 0]) 1 2 0 [0]) ![-1 / 2, 0, 0])).M
          + ((1 : ℝ) * 1) • (assemble (fun v : Vec3 ℝ => Real.sqrt (dot v v))
            ((fun pm => simulationStep (fun v : Vec3 ℝ => Real.sqrt (dot v v)) diagSolve
              pm 1)^[n]
            (moveFixedPoints (PhysicalMesh.init (fun v : Vec3 ℝ => Real.sqrt (dot v v))
              (segmentMesh 0 ![1, 0, 0]) 1 2 0 [0]) ![-1 / 2, 0, 0]))).2)) ∧
    ¬ ∃ N : ℕ, ∀ n, N ≤ n →
      |Real.sqrt (dot
        (segment ((fun pm => simulationStep (fun v : Vec3 ℝ => Real.sqrt (dot v v)) diagSolve
              pm 1)^[n]
            (moveFixedPoints (PhysicalMesh.init (fun v : Vec3 ℝ => Real.sqrt (dot v v))
              (segmentMesh 0 ![1, 0, 0]) 1 2 0 [0]) ![-1 / 2, 0, 0])).q 0
          - segment ((fun pm => simulationStep (fun v : Vec3 ℝ => Real.sqrt (dot v v)) diagSolve
              pm 1)^[n]
            (moveFixedPoints (PhysicalMesh.init (fun v : Vec3 ℝ => Real.sqrt (dot v v))
              (segmentMesh 0 ![1, 0, 0]) 1 2 0 [0]) ![-1 / 2, 0, 0])).q 1)
        (segment ((fun pm => simulationStep (fun v : Vec3 ℝ => Real.sqrt (dot v v)) diagSolve
              pm 1)^[n]
            (moveFixedPoints (PhysicalMesh.init (fun v : Vec3 ℝ => Real.sqrt (dot v v))
              (segmentMesh 0 ![1, 0, 0]) 1 2 0 [0]) ![-1 / 2, 0, 0])).q 0
          - segment ((fun pm => simulationStep (fun v : Vec3 ℝ => Real.sqrt (dot v v)) diagSolve
              pm 1)^[n]
            (moveFixedPoints (PhysicalMesh.init (fun v : Vec3 ℝ => Real.sqrt (dot v v))
              (segmentMesh 0 ![1, 0, 0]) 1 2 0 [0]) ![-1 / 2, 0, 0])).q 1)) - 1| < 1 / 100 := by
  refine ⟨oscillating_start.1, ?_, ?_⟩
  · intro n
    have hfields : ∀ (x v : ℝ) (pm : PhysicalMesh ℝ), OnAxis (1 : ℝ) 1 2 (-1 / 2) pm x v →
        Solves (3 * pm.n) diagSolve
          (pm.M + ((1 : ℝ) * 1) • (assemble (fun v : Vec3 ℝ => Real.sqrt (dot v v)) pm).2) := by
      intro x v pm hs
      obtain ⟨-, hn, hM, hmm, -, -, -, hH, -⟩ := hs
      exact diagSolve_solves_step _ pm _ (by rw [hmm]; exact one_ne_zero) hH
        (by rw [hM, hn, hmm])
    rcases oscillating_states n with hs | hs | hs | hs
    · exact hfields _ _ _ hs
    · exact hfields _ _ _ hs
    · exact hfields _ _ _ hs
    · exact hfields _ _ _ hs
  · rintro ⟨N, hN⟩
    have hlt := hN N le_rfl
    have hdist : ∀ (x v : ℝ) (pm : PhysicalMesh ℝ), OnAxis (1 : ℝ) 1 2 (-1 / 2) pm x v →
        -1 / 2 ≤ x →
        Real.sqrt (dot (segment pm.q 0 - segment pm.q 1) (segment pm.q 0 - segment pm.q 1))
          = x - -1 / 2 :=
      fun x v pm hs hx =>
        onAxis_dist (fun v : Vec3 ℝ => Real.sqrt (dot v v)) sqrt_norm_spec 1 1 2 (-1 / 2) x v
          pm hs hx
    rcases oscillating_states N with hs | hs | hs | hs
    · rw [hdist _ _ _ hs (by norm_num), abs_lt] at hlt
      norm_num at hlt
    · rw [hdist _ _ _ hs (by norm_num), abs_lt] at hlt
      norm_num at hlt
    · rw [hdist _ _ _ hs (by norm_num), abs_lt] at hlt
      norm_num at hlt
    · rw [hdist _ _ _ hs (by norm_num), abs_lt] at hlt
      norm_num at hlt

end Theorems

end MassSpring

/-! ## Theorems: FEM solver -/

namespace Fem

section Theorems

set_option linter.unusedSectionVars false

variable {α : Type} [LinearOrderedField α]

theorem foldl_floor (q v : VecX α) (N d : ℕ) :
    (List.range N).foldl
        (fun w i => if (q + (h : α) • w) (3 * i + 1) ≤ -3 then Function.update w (3 * i + 1) 0
          else w) v d
      = if d % 3 = 1 ∧ d / 3 < N ∧ q d + h * v d ≤ -3 then 0 else v d := by
  induction N generalizing d with
  | zero => simp
  | succ N ih =>
    rw [List.range_succ, List.foldl_append, List.foldl_cons, List.foldl_nil]
    generalize (List.range N).foldl
        (fun w i => if (q + (h : α) • w) (3 * i + 1) ≤ -3 then Function.update w (3 * i + 1) 0
          else w) v = W at ih
    have hw : W (3 * N + 1) = v (3 * N + 1) := by
      rw [ih]
      have : ¬ (3 * N + 1) / 3 < N := by omega
      simp [this]
    have hcond : (q + (h : α) • W) (3 * N + 1) = q (3 * N + 1) + h * v (3 * N + 1) := by
      simp [hw]
    rw [hcond]
    by_cases hd : d = 3 * N + 1
    · subst hd
      have h1 : (3 * N + 1) % 3 = 1 := by omega
      have h2 : (3 * N + 1) / 3 < N + 1 := by omega
      by_cases hc : q (3 * N + 1) + h * v (3 * N + 1) ≤ -3
      · simp [hc, h1, h2]
      · simp [hc, hw]
    · have hiff : (d % 3 = 1 ∧ d / 3 < N + 1 ∧ q d + h * v d ≤ -3)
          ↔ (d % 3 = 1 ∧ d / 3 < N ∧ q d + h * v d ≤ -3) := by
        constructor
        · rintro ⟨a, b, c⟩
          exact ⟨a, by omega, c⟩
        · rintro ⟨a, b, c⟩
          exact ⟨a, by omega, c⟩
      by_cases hc : q (3 * N + 1) + h * v (3 * N + 1) ≤ -3
      · rw [if_pos hc, Function.update_noteq hd, ih]
        simp only [hiff]
      · rw [if_neg hc, ih]
        simp only [hiff]

theorem floorClamp_apply (pm : PhysicalMesh α) (v : VecX α) (d : ℕ) :
    floorClamp pm v d
      = if d % 3 = 1 ∧ d / 3 < pm.n ∧ pm.q d + h * v d ≤ -3 then 0 else v d :=
  foldl_floor pm.q v pm.n d

theorem integrate_height (pm : PhysicalMesh α) (v : VecX α) (i : ℕ) (hi : i < pm.n) :
    (pm.q (3 * i + 1) + h * v (3 * i + 1) ≤ -3 →
      (integrate pm v).q_dot (3 * i + 1) = 0 ∧
      (integrate pm v).q (3 * i + 1) = pm.q (3 * i + 1)) ∧
    (¬ pm.q (3 * i + 1) + h * v (3 * i + 1) ≤ -3 →
      (integrate pm v).q_dot (3 * i + 1) = v (3 * i + 1) ∧
      -3 < (integrate pm v).q (3 * i + 1)) := by
  have h1 : (3 * i + 1) % 3 = 1 := by omega
  have h2 : (3 * i + 1) / 3 < pm.n := by omega
  constructor
  · intro hc
    simp [integrate, floorClamp_apply, h1, h2, hc]
  · intro hc
    have hc2 := lt_of_not_le hc
    simp [integrate, floorClamp_apply, h1, h2, hc]
    exact hc2

theorem integrate_above (pm : PhysicalMesh α) (v : VecX α) (i : ℕ) (hi : i < pm.n)
    (h0 : -3 ≤ pm.q (3 * i + 1)) : -3 ≤ (integrate pm v).q (3 * i + 1) := by
  by_cases hc : pm.q (3 * i + 1) + h * v (3 * i + 1) ≤ -3
  · rw [((integrate_height pm v i hi).1 hc).2]
    exact h0
  · exact le_of_lt ((integrate_height pm v i hi).2 hc).2

theorem iterate_simulationStep_above (solve : Mat α → VecX α → VecX α)
    (gradPsi : α → α → VecX α → VecX α) (s : PhysicalMesh α × Globals α)
    (h0 : ∀ i, i < s.1.n → -3 ≤ s.1.q (3 * i + 1)) (N : ℕ) :
    ((simulationStep solve gradPsi)^[N] s).1.n = s.1.n ∧
    ∀ i, i < s.1.n → -3 ≤ ((simulationStep solve gradPsi)^[N] s).1.q (3 * i + 1) := by
  induction N with
  | zero => exact ⟨rfl, h0⟩
  | succ N ih =>
    rw [Function.iterate_succ_apply']
    refine ⟨ih.1, fun i hi => ?_⟩
    exact integrate_above _ _ i (by rw [ih.1]; exact hi) (ih.2 i hi)

/-- C5: the floor clamp of the FEM `simulationStep`. For every state, every velocity `v`
returned by the integrator and every vertex `i < n`: if `q[3i+1] + h v[3i+1] ≤ -3` the vertical
velocity of the vertex is set to `0` and its height is unchanged by the step, otherwise its new
height is `> -3`. So a vertex at height `≥ -3` before a step is at height `≥ -3` after it, and
from a state with all vertices at or above the floor no vertex is below `-3` after any number
of `simulationStep()` calls. -/
theorem floor_clamp_spec (solve : Mat α → VecX α → VecX α)
    (gradPsi : α → α → VecX α → VecX α) (pm : PhysicalMesh α) (gl : Globals α) :
    (∀ (v : VecX α) (i : ℕ), i < pm.n →
      (pm.q (3 * i + 1) + h * v (3 * i + 1) ≤ -3 →
        (integrate pm v).q_dot (3 * i + 1) = 0 ∧
        (integrate pm v).q (3 * i + 1) = pm.q (3 * i + 1)) ∧
      (¬ pm.q (3 * i + 1) + h * v (3 * i + 1) ≤ -3 →
        -3 < (integrate pm v).q (3 * i + 1)) ∧
      (-3 ≤ pm.q (3 * i + 1) → -3 ≤ (integrate pm v).q (3 * i + 1))) ∧
    (∀ i, i < pm.n → -3 ≤ pm.q (3 * i + 1) →
      -3 ≤ (simulationStep solve gradPsi (pm, gl)).1.q (3 * i + 1)) ∧
    ((∀ i, i < pm.n → -3 ≤ pm.q (3 * i + 1)) →
      ∀ (N i : ℕ), i < pm.n →
        -3 ≤ ((simulationStep solve gradPsi)^[N] (pm, gl)).1.q (3 * i + 1)) := by
  refine ⟨fun v i hi => ⟨(integrate_height pm v i hi).1,
    fun hc => ((integrate_height pm v i hi).2 hc).2, integrate_above pm v i hi⟩, ?_, ?_⟩
  · intro i hi h0
    exact integrate_above pm _ i hi h0
  · intro h0 N i hi
    exact (iterate_simulationStep_above solve gradPsi (pm, gl) h0 N).2 i hi

theorem coeffRefAdd_eq (ts : List (Triplet α)) (M : Mat α) (r c : ℕ) :
    coeffRefAdd M ts r c = M r c + setFromTriplets ts r c := by
  unfold coeffRefAdd
  induction ts generalizing M with
  | nil => simp [setFromTriplets]
  | cons t ts ih =>
    rw [List.foldl_cons, ih]
    obtain ⟨a, b, x⟩ := t
    by_cases ht : a = r ∧ b = c
    · obtain ⟨rfl, rfl⟩ := ht
      simp [setFromTriplets, add_assoc]
    · have ht2 : ¬ (r = a ∧ c = b) := fun hh => ht ⟨hh.1.symm, hh.2.symm⟩
      simp [setFromTriplets, ht, ht2]

theorem setFromTriplets_append (l1 l2 : List (Triplet α)) (r c : ℕ) :
    setFromTriplets (l1 ++ l2) r c = setFromTriplets l1 r c + setFromTriplets l2 r c := by
  simp [setFromTriplets, List.filter_append]

theorem setFromTriplets_map_range (f : ℕ → Triplet α) (N r c : ℕ) :
    setFromTriplets ((List.range N).map f) r c
      = ∑ k in Finset.range N, if (f k).1 = r ∧ (f k).2.1 = c then (f k).2.2 else 0 := by
  induction N with
  | zero => simp [setFromTriplets]
  | succ N ih =>
    rw [List.range_succ, List.map_append, setFromTriplets_append, ih, Finset.sum_range_succ]
    congr 1
    by_cases hk : (f N).1 = r ∧ (f N).2.1 = c
    · simp [setFromTriplets, hk]
    · simp [setFromTriplets, hk]

theorem setFromTriplets_flatMap_range (f : ℕ → List (Triplet α)) (N r c : ℕ) :
    setFromTriplets ((List.range N).flatMap f) r c
      = ∑ j in Finset.range N, setFromTriplets (f j) r c := by
  induction N with
  | zero => simp [setFromTriplets]
  | succ N ih =>
    rw [List.range_succ, List.flatMap_append, setFromTriplets_append, ih,
      Finset.sum_range_succ]
    simp

/-- The matrix set from the 144 local triplets, entry by entry. -/
theorem setFromTriplets_local (idx : List ℕ) (A : Mat α) (r c : ℕ) :
    setFromTriplets (localTriplets idx A) r c
      = ∑ j in Finset.range 12, ∑ k in Finset.range 12,
          if 3 * idx.getD (j / 3) 0 + j % 3 = r ∧ 3 * idx.getD (k / 3) 0 + k % 3 = c
          then A j k else 0 := by
  unfold localTriplets
  rw [setFromTriplets_flatMap_range]
  apply Finset.sum_congr rfl
  intro j _
  rw [setFromTriplets_map_range]

theorem shift_apply (v : VecX α) (d : ℕ) :
    shift v d = if d = 0 then v 11 else if d < 12 then v (d - 1) else 0 := rfl

theorem iterate_shift_v0 (t d : ℕ) :
    (shift^[t] (v0 : VecX α)) d = if d < 12 ∧ (d + 2 * t) % 3 = 2 then 1 else 0 := by
  induction t generalizing d with
  | zero =>
    simp only [Function.iterate_zero, id_eq, v0]
    have : (d = 2 ∨ d = 5 ∨ d = 8 ∨ d = 11) ↔ (d < 12 ∧ (d + 2 * 0) % 3 = 2) := by omega
    simp only [this]
  | succ t ih =>
    rw [Function.iterate_succ_apply', shift_apply]
    by_cases h0 : d = 0
    · subst h0
      rw [if_pos rfl, ih]
      have : (11 < 12 ∧ (11 + 2 * t) % 3 = 2) ↔ (0 < 12 ∧ (0 + 2 * (t + 1)) % 3 = 2) := by omega
      simp only [this]
    · rw [if_neg h0]
      by_cases h12 : d < 12
      · rw [if_pos h12, ih]
        have : (d - 1 < 12 ∧ (d - 1 + 2 * t) % 3 = 2) ↔ (d < 12 ∧ (d + 2 * (t + 1)) % 3 = 2) := by
          omega
        simp only [this]
      · rw [if_neg h12]
        have : ¬ (d < 12 ∧ (d + 2 * (t + 1)) % 3 = 2) := fun hh => h12 hh.1
        rw [if_neg this]

/-- The template in closed form: `2` on the diagonal, `1` where `j ≠ k` and `j ≡ k (mod 3)`,
`0` elsewhere. -/
theorem M_i_eq (j k : ℕ) (hj : j < 12) (hk : k < 12) :
    (M_i : Mat α) j k = (if j = k then 1 else 0) + (if j % 3 = k % 3 then 1 else 0) := by
  unfold M_i
  rw [if_pos ⟨hj, hk⟩, iterate_shift_v0]
  have : (k < 12 ∧ (k + 2 * (j + 1)) % 3 = 2) ↔ j % 3 = k % 3 := by omega
  simp only [this]

theorem M_i_symm (j k : ℕ) : (M_i : Mat α) j k = M_i k j := by
  by_cases hj : j < 12
  · by_cases hk : k < 12
    · rw [M_i_eq j k hj hk, M_i_eq k j hk hj]
      have h1 : (j = k) ↔ (k = j) := eq_comm
      have h2 : (j % 3 = k % 3) ↔ (k % 3 = j % 3) := eq_comm
      simp only [h1, h2]
    · simp [M_i, hk]
  · simp [M_i, hj]

theorem M_i_nonneg (j k : ℕ) : (0 : α) ≤ M_i j k := by
  by_cases hj : j < 12
  · by_cases hk : k < 12
    · rw [M_i_eq j k hj hk]
      split_ifs <;> norm_num
    · simp [M_i, hk]
  · simp [M_i, hj]

theorem M_i_diag (j : ℕ) (hj : j < 12) : (M_i : Mat α) j j = 2 := by
  rw [M_i_eq j j hj hj]
  norm_num

theorem getD_concat_length {β : Type} (l : List β) (x d : β) :
    (l ++ [x]).getD l.length d = x := by
  simp [List.getD_eq_getElem?_getD]

theorem getQTet_concat (l : List (List ℕ)) (x : List ℕ) (t : ℕ) (hlen : l.length = t)
    (qq : VecX α) : getQTet (l ++ [x]) t qq = qTetOf x qq := by
  subst hlen
  unfold getQTet
  rw [getD_concat_length]

/-- The members after the constructor loop has handled the first `t` tetrahedra. -/
theorem foldl_tetStep (mesh : TetrahedralMesh α) (pm0 : PhysicalMesh α)
    (h0 : pm0.tetIndices = []) (hv : pm0.volumes = []) (hT : pm0.Ts = [])
    (hD : pm0.Ds = []) (hB : pm0.Bs = []) (t : ℕ) :
    ((List.range t).foldl (tetStep mesh) pm0).q = pm0.q ∧
    ((List.range t).foldl (tetStep mesh) pm0).q_dot = pm0.q_dot ∧
    ((List.range t).foldl (tetStep mesh) pm0).n = pm0.n ∧
    ((List.range t).foldl (tetStep mesh) pm0).n_tet = pm0.n_tet ∧
    ((List.range t).foldl (tetStep mesh) pm0).tetIndices
      = (List.range t).map (tetIndexAt mesh) ∧
    ((List.range t).foldl (tetStep mesh) pm0).volumes
      = (List.range t).map (fun i => vol (qTetOf (tetIndexAt mesh i) pm0.q)) ∧
    ((List.range t).foldl (tetStep mesh) pm0).Ts
      = (List.range t).map (fun i => T_i (qTetOf (tetIndexAt mesh i) pm0.q)) ∧
    ((List.range t).foldl (tetStep mesh) pm0).Ds
      = (List.range t).map
          (fun i => D_i (inverse3 (T_i (qTetOf (tetIndexAt mesh i) pm0.q)))) ∧
    ((List.range t).foldl (tetStep mesh) pm0).Bs
      = (List.range t).map
          (fun i => B_i (D_i (inverse3 (T_i (qTetOf (tetIndexAt mesh i) pm0.q))))) ∧
    ∀ r c, ((List.range t).foldl (tetStep mesh) pm0).M r c
      = pm0.M r c + ∑ i in Finset.range t,
          setFromTriplets (localTriplets (tetIndexAt mesh i)
            (fun j k => vol (qTetOf (tetIndexAt mesh i) pm0.q) * M_i j k / 20)) r c := by
  induction t with
  | zero => simp [h0, hv, hT, hD, hB]
  | succ t ih =>
    obtain ⟨iq, iqd, i_n, i_nt, iI, iV, iT, iD, iB, iM⟩ := ih
    rw [List.range_succ, List.foldl_append, List.foldl_cons, List.foldl_nil]
    have hq : getQTet (((List.range t).foldl (tetStep mesh) pm0).tetIndices
        ++ [tetIndexAt mesh t]) t ((List.range t).foldl (tetStep mesh) pm0).q
        = qTetOf (tetIndexAt mesh t) pm0.q := by
      have hlen : ((List.range t).foldl (tetStep mesh) pm0).tetIndices.length = t := by
        rw [iI]
        simp
      rw [getQTet_concat _ _ _ hlen, iq]
    refine ⟨iq, iqd, i_n, i_nt, ?_, ?_, ?_, ?_, ?_, ?_⟩
    · simp only [tetStep, iI, List.map_append, List.map_cons, List.map_nil]
    · simp only [tetStep, hq, iV, List.map_append, List.map_cons, List.map_nil]
    · simp only [tetStep, hq, iT, List.map_append, List.map_cons, List.map_nil]
    · simp only [tetStep, hq, iD, List.map_append, List.map_cons, List.map_nil]
    · simp only [tetStep, hq, iB, List.map_append, List.map_cons, List.map_nil]
    · intro r c
      simp only [tetStep, hq, coeffRefAdd_eq, iM, Finset.sum_range_succ]
      ring

/-- The mass matrix assembled by the constructor, entry by entry. -/
theorem init_M (mesh : TetrahedralMesh α) (skinMesh : Mesh α) (r c : ℕ) :
    (PhysicalMesh.init mesh skinMesh).M r c
      = ∑ i in Finset.range (mesh.indices.length / 4),
          ∑ j in Finset.range 12, ∑ k in Finset.range 12,
            if 3 * (tetIndexAt mesh i).getD (j / 3) 0 + j % 3 = r
                ∧ 3 * (tetIndexAt mesh i).getD (k / 3) 0 + k % 3 = c
            then vol (qTetOf (tetIndexAt mesh i) (PhysicalMesh.init mesh skinMesh).q)
              * M_i j k / 20
            else 0 := by
  unfold PhysicalMesh.init
  simp only
  rw [(foldl_tetStep mesh _ rfl rfl rfl rfl rfl _).2.2.2.2.2.2.2.2.2 r c,
    (foldl_tetStep mesh _ rfl rfl rfl rfl rfl _).1, zero_add]
  apply Finset.sum_congr rfl
  intro i _
  rw [setFromTriplets_local]

theorem init_volumes (mesh : TetrahedralMesh α) (skinMesh : Mesh α) :
    (PhysicalMesh.init mesh skinMesh).volumes
      = (List.range (mesh.indices.length / 4)).map
          (fun i => vol (qTetOf (tetIndexAt mesh i) (PhysicalMesh.init mesh skinMesh).q)) := by
  unfold PhysicalMesh.init
  simp only
  rw [(foldl_tetStep mesh _ rfl rfl rfl rfl rfl _).2.2.2.2.2.1,
    (foldl_tetStep mesh _ rfl rfl rfl rfl rfl _).1]

theorem tetIndexAt_getD (mesh : TetrahedralMesh α) (i a : ℕ) (ha : a < 4) :
    (tetIndexAt mesh i).getD a 0 = mesh.indices.getD (i * 4 + a) 0 := by
  interval_cases a <;> simp [tetIndexAt]

theorem vol_nonneg (qTet : VecX α) : 0 ≤ vol qTet := abs_nonneg _

theorem mass_term_nonneg (idx : List ℕ) (v : α) (hv : 0 ≤ v) (r c j k : ℕ) :
    0 ≤ (if 3 * idx.getD (j / 3) 0 + j % 3 = r ∧ 3 * idx.getD (k / 3) 0 + k % 3 = c
      then v * M_i j k / 20 else 0) := by
  split_ifs
  · exact div_nonneg (mul_nonneg hv (M_i_nonneg j k)) (by norm_num)
  · exact le_refl 0

/-- C4 (as amended): the mass matrix assembled by the constructor is symmetric and has a
non-negative diagonal; when every tetrahedron has non-zero volume, the diagonal entry `M(d,d)`
is strictly positive for every coordinate `d` of a vertex that occurs in a tetrahedron. -/
theorem mass_matrix_spec (mesh : TetrahedralMesh α) (skinMesh : Mesh α) :
    (∀ r c, (PhysicalMesh.init mesh skinMesh).M r c = (PhysicalMesh.init mesh skinMesh).M c r) ∧
    (∀ d, 0 ≤ (PhysicalMesh.init mesh skinMesh).M d d) ∧
    ((∀ v ∈ (PhysicalMesh.init mesh skinMesh).volumes, v ≠ 0) →
      ∀ d, (∃ i, i < mesh.indices.length / 4 ∧
              ∃ a, a < 4 ∧ mesh.indices.getD (i * 4 + a) 0 = d / 3) →
        0 < (PhysicalMesh.init mesh skinMesh).M d d) := by
  refine ⟨?_, ?_, ?_⟩
  · intro r c
    rw [init_M, init_M]
    apply Finset.sum_congr rfl
    intro i _
    rw [Finset.sum_comm]
    apply Finset.sum_congr rfl
    intro j _
    apply Finset.sum_congr rfl
    intro k _
    rw [M_i_symm k j]
    simp only [and_comm]
  · intro d
    rw [init_M]
    apply Finset.sum_nonneg
    intro i _
    apply Finset.sum_nonneg
    intro j _
    apply Finset.sum_nonneg
    intro k _
    exact mass_term_nonneg _ _ (vol_nonneg _) _ _ _ _
  · rintro hvol d ⟨i, hi, a, ha, hidx⟩
    have hvi : 0 < vol (qTetOf (tetIndexAt mesh i) (PhysicalMesh.init mesh skinMesh).q) := by
      apply lt_of_le_of_ne (vol_nonneg _)
      apply Ne.symm
      apply hvol
      rw [init_volumes]
      exact List.mem_map.mpr ⟨i, List.mem_range.mpr hi, rfl⟩
    have hj : 3 * a + d % 3 < 12 := by omega
    have hrow : 3 * (tetIndexAt mesh i).getD ((3 * a + d % 3) / 3) 0 + (3 * a + d % 3) % 3
        = d := by
      have h1 : (3 * a + d % 3) / 3 = a := by omega
      have h2 : (3 * a + d % 3) % 3 = d % 3 := by omega
      rw [h1, h2, tetIndexAt_getD mesh i a ha, hidx]
      omega
    rw [init_M]
    apply Finset.sum_pos'
    · intro i2 _
      apply Finset.sum_nonneg
      intro j _
      apply Finset.sum_nonneg
      intro k _
      exact mass_term_nonneg _ _ (vol_nonneg _) _ _ _ _
    · refine ⟨i, Finset.mem_range.mpr hi, ?_⟩
      apply Finset.sum_pos'
      · intro j _
        apply Finset.sum_nonneg
        intro k _
        exact mass_term_nonneg _ _ (vol_nonneg _) _ _ _ _
      · refine ⟨3 * a + d % 3, Finset.mem_range.mpr hj, ?_⟩
        apply Finset.sum_pos'
        · intro k _
          exact mass_term_nonneg _ _ (vol_nonneg _) _ _ _ _
        · refine ⟨3 * a + d % 3, Finset.mem_range.mpr hj, ?_⟩
          rw [if_pos ⟨hrow, hrow⟩, M_i_diag _ hj]
          exact div_pos (mul_pos hvi (by norm_num)) (by norm_num)

theorem init_q (mesh : TetrahedralMesh α) (skinMesh : Mesh α) :
    (PhysicalMesh.init mesh skinMesh).q
      = fun d => if d < 3 * mesh.positions.length
          then (mesh.positions.getD (d / 3) 0).comp d else 0 := by
  unfold PhysicalMesh.init
  simp only
  rw [(foldl_tetStep mesh _ rfl rfl rfl rfl rfl _).1]

theorem init_n (mesh : TetrahedralMesh α) (skinMesh : Mesh α) :
    (PhysicalMesh.init mesh skinMesh).n = mesh.positions.length := by
  unfold PhysicalMesh.init
  simp only
  rw [(foldl_tetStep mesh _ rfl rfl rfl rfl rfl _).2.2.1]

theorem init_n_tet (mesh : TetrahedralMesh α) (skinMesh : Mesh α) :
    (PhysicalMesh.init mesh skinMesh).n_tet = mesh.indices.length / 4 := by
  unfold PhysicalMesh.init
  simp only
  rw [(foldl_tetStep mesh _ rfl rfl rfl rfl rfl _).2.2.2.1]

theorem init_tetIndices (mesh : TetrahedralMesh α) (skinMesh : Mesh α) :
    (PhysicalMesh.init mesh skinMesh).tetIndices
      = (List.range (mesh.indices.length / 4)).map (tetIndexAt mesh) := by
  unfold PhysicalMesh.init
  simp only
  rw [(foldl_tetStep mesh _ rfl rfl rfl rfl rfl _).2.2.2.2.1]

theorem init_Bs (mesh : TetrahedralMesh α) (skinMesh : Mesh α) :
    (PhysicalMesh.init mesh skinMesh).Bs
      = (List.range (mesh.indices.length / 4)).map
          (fun i => B_i (D_i (inverse3
            (T_i (qTetOf (tetIndexAt mesh i) (PhysicalMesh.init mesh skinMesh).q))))) := by
  unfold PhysicalMesh.init
  simp only
  rw [(foldl_tetStep mesh _ rfl rfl rfl rfl rfl _).2.2.2.2.2.2.2.2.1,
    (foldl_tetStep mesh _ rfl rfl rfl rfl rfl _).1]

/-- With at least one tetrahedron, `ddVddQ` returns the triplets of the last tetrahedron
only. -/
theorem ddVddQ_last (psi_hessian : α → α → VecX α → Mat α) (pm : PhysicalMesh α)
    (qq : VecX α) (t : ℕ) (ht : pm.n_tet = t + 1) :
    ddVddQ psi_hessian pm qq
      = setFromTriplets
          (localTriplets (pm.tetIndices.getD t []) (ddVddQ_i psi_hessian pm qq t)) := by
  unfold ddVddQ
  rw [ht, List.range_succ, List.foldl_append, List.foldl_cons, List.foldl_nil]

theorem unitTet_qTet :
    qTetOf [0, 1, 2, 3] (PhysicalMesh.init (twoTets : TetrahedralMesh ℚ) emptySkin).q
      = fun d => if d = 3 ∨ d = 7 ∨ d = 11 then 1 else 0 := by
  funext d
  rw [init_q]
  unfold qTetOf
  by_cases hd : d < 12
  · interval_cases d <;> simp [twoTets, Vec3.comp]
  · have : ¬ (d = 3 ∨ d = 7 ∨ d = 11) := by omega
    simp [hd, this]

theorem twoTets_n_tet :
    (PhysicalMesh.init (twoTets : TetrahedralMesh ℚ) emptySkin).n_tet = 1 + 1 := by
  rw [init_n_tet]
  rfl

theorem twoTets_tet0 :
    (PhysicalMesh.init (twoTets : TetrahedralMesh ℚ) emptySkin).tetIndices.getD 0 []
      = [0, 1, 2, 3] := by
  rw [init_tetIndices]
  simp [twoTets, tetIndexAt, List.range_succ]

theorem twoTets_tet1 :
    (PhysicalMesh.init (twoTets : TetrahedralMesh ℚ) emptySkin).tetIndices.getD 1 []
      = [1, 2, 3, 4] := by
  rw [init_tetIndices]
  simp [twoTets, tetIndexAt, List.range_succ]

theorem local_no_row0 (A : Mat ℚ) :
    setFromTriplets (localTriplets [1, 2, 3, 4] A) 0 0 = 0 := by
  rw [setFromTriplets_local]
  apply Finset.sum_eq_zero
  intro j hj
  apply Finset.sum_eq_zero
  intro k _
  rw [if_neg]
  rintro ⟨h1, -⟩
  rw [Finset.mem_range] at hj
  interval_cases j <;> simp at h1

theorem local_row0 (A : Mat ℚ) :
    setFromTriplets (localTriplets [0, 1, 2, 3] A) 0 0 = A 0 0 := by
  rw [setFromTriplets_local]
  have hrow : ∀ j, j < 12 → (3 * [0, 1, 2, 3].getD (j / 3) 0 + j % 3 = 0 ↔ j = 0) := by
    intro j hj
    interval_cases j <;> simp
  rw [Finset.sum_eq_single 0]
  · rw [Finset.sum_eq_single 0]
    · simp
    · intro k hk hk0
      rw [if_neg]
      rintro ⟨-, h2⟩
      exact hk0 ((hrow k (Finset.mem_range.mp hk)).mp h2)
    · intro h
      simp at h
  · intro j hj hj0
    apply Finset.sum_eq_zero
    intro k _
    rw [if_neg]
    rintro ⟨h1, -⟩
    exact hj0 ((hrow j (Finset.mem_range.mp hj)).mp h1)
  · intro h
    simp at h

theorem twoTets_vol0 :
    (PhysicalMesh.init (twoTets : TetrahedralMesh ℚ) emptySkin).volumes.getD 0 0 = 1 / 6 := by
  rw [init_volumes]
  have : (twoTets : TetrahedralMesh ℚ).indices.length / 4 = 2 := rfl
  rw [this]
  simp only [List.range_succ, List.range_zero, List.nil_append, List.cons_append, List.map_cons,
    List.getD_cons_zero]
  have ht : tetIndexAt (twoTets : TetrahedralMesh ℚ) 0 = [0, 1, 2, 3] := by
    simp [tetIndexAt, twoTets]
  rw [ht, unitTet_qTet]
  simp [vol, segment, dot, cross]

theorem twoTets_B0_col0 (a : ℕ) :
    (PhysicalMesh.init (twoTets : TetrahedralMesh ℚ) emptySkin).Bs.getD 0 0 a 0
      = if a < 3 then -1 else 0 := by
  rw [init_Bs]
  have : (twoTets : TetrahedralMesh ℚ).indices.length / 4 = 2 := rfl
  rw [this]
  simp only [List.range_succ, List.range_zero, List.nil_append, List.cons_append, List.map_cons,
    List.getD_cons_zero]
  have ht : tetIndexAt (twoTets : TetrahedralMesh ℚ) 0 = [0, 1, 2, 3] := by
    simp [tetIndexAt, twoTets]
  rw [ht, unitTet_qTet]
  by_cases ha : a < 3
  · interval_cases a <;>
      simp [B_i, D_i, inverse3, cofactor3, det3, T_i, Finset.sum_range_succ]
  · by_cases ha9 : a < 9
    · have : ¬ a / 3 = 0 := by omega
      simp [B_i, ha, this]
    · simp [B_i, ha, ha9]

theorem twoTets_block0 :
    ddVddQ_i identityHessian (PhysicalMesh.init (twoTets : TetrahedralMesh ℚ) emptySkin)
      (PhysicalMesh.init (twoTets : TetrahedralMesh ℚ) emptySkin).q 0 0 0 = 1 / 2 := by
  simp only [ddVddQ_i, matMul, transpose, identityHessian, Pi.smul_apply, smul_eq_mul,
    twoTets_B0_col0, twoTets_vol0]
  simp [Finset.sum_range_succ]
  norm_num

/-- C1 (code bug): on two tetrahedra sharing a face, with the 9×9 identity as material Hessian,
`ddVddQ` returns `0` at entry `(0, 0)`, the contribution of the last tetrahedron alone, while
the sum over all tetrahedra of the scattered local blocks is `1/2` there: the block of the first
tetrahedron is overwritten. -/
theorem ddVddQ_overwrites :
    ddVddQ identityHessian (PhysicalMesh.init (twoTets : TetrahedralMesh ℚ) emptySkin)
      (PhysicalMesh.init (twoTets : TetrahedralMesh ℚ) emptySkin).q 0 0 = 0 ∧
    ddVddQ_summed identityHessian (PhysicalMesh.init (twoTets : TetrahedralMesh ℚ) emptySkin)
      (PhysicalMesh.init (twoTets : TetrahedralMesh ℚ) emptySkin).q 0 0 = 1 / 2 := by
  constructor
  · rw [ddVddQ_last _ _ _ 1 twoTets_n_tet, twoTets_tet1, local_no_row0]
  · unfold ddVddQ_summed
    rw [twoTets_n_tet, Finset.sum_range_succ, Finset.sum_range_succ, Finset.sum_range_zero,
      twoTets_tet1, twoTets_tet0, local_no_row0, local_row0, twoTets_block0]
    norm_num

theorem unitTet5_volumes :
    (PhysicalMesh.init (unitTet5 : TetrahedralMesh ℚ) emptySkin).volumes = [1 / 6] := by
  rw [init_volumes, init_q]
  have : (unitTet5 : TetrahedralMesh ℚ).indices.length / 4 = 1 := rfl
  rw [this]
  simp only [List.range_succ, List.range_zero, List.nil_append, List.map_cons, List.map_nil]
  have hq : qTetOf (tetIndexAt (unitTet5 : TetrahedralMesh ℚ) 0)
      (fun d => if d < 3 * (unitTet5 : TetrahedralMesh ℚ).positions.length
        then ((unitTet5 : TetrahedralMesh ℚ).positions.getD (d / 3) 0).comp d else 0)
      = fun d => if d = 3 ∨ d = 7 ∨ d = 11 then 1 else 0 := by
    funext d
    unfold qTetOf
    by_cases hd : d < 12
    · interval_cases d <;> simp [unitTet5, tetIndexAt, Vec3.comp]
    · have : ¬ (d = 3 ∨ d = 7 ∨ d = 11) := by omega
      simp [hd, this]
  rw [hq]
  simp [vol, segment, dot, cross]

theorem unitTet5_volumes_ne :
    ∀ v ∈ (PhysicalMesh.init (unitTet5 : TetrahedralMesh ℚ) emptySkin).volumes, v ≠ 0 := by
  rw [unitTet5_volumes]
  intro v hv
  rw [List.mem_singleton] at hv
  rw [hv]
  norm_num

/-- C4 (counterexample): in the mesh of the unit tetrahedron and a fifth vertex that no
tetrahedron uses, every tetrahedron has non-zero volume and `d = 12 < 3n`, yet the diagonal
entry `M(12, 12)` is `0`, not strictly positive. -/
theorem mass_diag_unused_vertex :
    (∀ v ∈ (PhysicalMesh.init (unitTet5 : TetrahedralMesh ℚ) emptySkin).volumes, v ≠ 0) ∧
    12 < 3 * (PhysicalMesh.init (unitTet5 : TetrahedralMesh ℚ) emptySkin).n ∧
    ¬ 0 < (PhysicalMesh.init (unitTet5 : TetrahedralMesh ℚ) emptySkin).M 12 12 := by
  refine ⟨unitTet5_volumes_ne, ?_, ?_⟩
  · rw [init_n]
    decide
  · have h0 : (PhysicalMesh.init (unitTet5 : TetrahedralMesh ℚ) emptySkin).M 12 12 = 0 := by
      rw [init_M]
      apply Finset.sum_eq_zero
      intro i hi
      have hi2 : i < 1 := Finset.mem_range.mp hi
      apply Finset.sum_eq_zero
      intro j hj
      apply Finset.sum_eq_zero
      intro k _
      rw [if_neg]
      rintro ⟨h1, -⟩
      rw [Finset.mem_range] at hj
      interval_cases i
      interval_cases j <;> simp [tetIndexAt, unitTet5] at h1
    rw [h0]
    exact lt_irrefl 0

/-- Witness of C4: the unit tetrahedron has non-zero volume and the diagonal entry of its
vertex 0 is positive. -/
theorem mass_matrix_spec_witness :
    (∀ v ∈ (PhysicalMesh.init (unitTet5 : TetrahedralMesh ℚ) emptySkin).volumes, v ≠ 0) ∧
    0 < (PhysicalMesh.init (unitTet5 : TetrahedralMesh ℚ) emptySkin).M 0 0 :=
  ⟨unitTet5_volumes_ne,
   (mass_matrix_spec (unitTet5 : TetrahedralMesh ℚ) emptySkin).2.2 unitTet5_volumes_ne 0
    ⟨0, by decide, 0, by decide, rfl⟩⟩

theorem unitTet5_heights (i : ℕ)
    (hi : i < (PhysicalMesh.init (unitTet5 : TetrahedralMesh ℚ) emptySkin).n) :
    -3 ≤ (PhysicalMesh.init (unitTet5 : TetrahedralMesh ℚ) emptySkin).q (3 * i + 1) := by
  rw [init_n] at hi
  rw [init_q]
  have hi5 : i < 5 := hi
  interval_cases i <;> simp [unitTet5, Vec3.comp] <;> norm_num

/-- Witness of C5: the unit tetrahedron starts above the floor and its vertex 0 is not below
`-3` after two steps. -/
theorem floor_clamp_spec_witness :
    -3 ≤ ((simulationStep diagSolve (fun _ _ _ _ => 0))^[2]
      (PhysicalMesh.init (unitTet5 : TetrahedralMesh ℚ) emptySkin,
        ({ inverseCalculated := false, M_inv := fun _ _ => 0 } : Globals ℚ))).1.q (3 * 0 + 1) :=
  (floor_clamp_spec diagSolve (fun _ _ _ _ => 0)
    (PhysicalMesh.init (unitTet5 : TetrahedralMesh ℚ) emptySkin)
    { inverseCalculated := false, M_inv := fun _ _ => 0 }).2.2 unitTet5_heights 2 0
    (by rw [init_n]; decide)

theorem init_q_dot (mesh : TetrahedralMesh α) (skinMesh : Mesh α) :
    (PhysicalMesh.init mesh skinMesh).q_dot = fun _ => 0 := by
  unfold PhysicalMesh.init
  simp only
  rw [(foldl_tetStep mesh _ rfl rfl rfl rfl rfl _).2.1]

theorem init_Ts (mesh : TetrahedralMesh α) (skinMesh : Mesh α) :
    (PhysicalMesh.init mesh skinMesh).Ts
      = (List.range (mesh.indices.length / 4)).map
          (fun i => T_i (qTetOf (tetIndexAt mesh i) (PhysicalMesh.init mesh skinMesh).q)) := by
  unfold PhysicalMesh.init
  simp only
  rw [(foldl_tetStep mesh _ rfl rfl rfl rfl rfl _).2.2.2.2.2.2.1,
    (foldl_tetStep mesh _ rfl rfl rfl rfl rfl _).1]

theorem init_Ds (mesh : TetrahedralMesh α) (skinMesh : Mesh α) :
    (PhysicalMesh.init mesh skinMesh).Ds
      = (List.range (mesh.indices.length / 4)).map
          (fun i => D_i (inverse3
            (T_i (qTetOf (tetIndexAt mesh i) (PhysicalMesh.init mesh skinMesh).q)))) := by
  unfold PhysicalMesh.init
  simp only
  rw [(foldl_tetStep mesh _ rfl rfl rfl rfl rfl _).2.2.2.2.2.2.2.1,
    (foldl_tetStep mesh _ rfl rfl rfl rfl rfl _).1]

/-- The members that the constructor loop never writes. -/
theorem foldl_tetStep_frame (mesh : TetrahedralMesh α) (pm0 : PhysicalMesh α) (t : ℕ) :
    ((List.range t).foldl (tetStep mesh) pm0).C = pm0.C ∧
    ((List.range t).foldl (tetStep mesh) pm0).D = pm0.D ∧
    ((List.range t).foldl (tetStep mesh) pm0).g = pm0.g ∧
    ((List.range t).foldl (tetStep mesh) pm0).skinMesh = pm0.skinMesh := by
  induction t with
  | zero => simp
  | succ t ih =>
    rw [List.range_succ, List.foldl_append, List.foldl_cons, List.foldl_nil]
    exact ih

theorem init_g (mesh : TetrahedralMesh α) (skinMesh : Mesh α) :
    (PhysicalMesh.init mesh skinMesh).g = 3 := by
  unfold PhysicalMesh.init
  simp only
  rw [(foldl_tetStep_frame mesh _ _).2.2.1]

theorem init_skinMesh (mesh : TetrahedralMesh α) (skinMesh : Mesh α) :
    (PhysicalMesh.init mesh skinMesh).skinMesh = skinMesh := by
  unfold PhysicalMesh.init
  simp only
  rw [(foldl_tetStep_frame mesh _ _).2.2.2]

theorem getD_map_range {β : Type} (f : ℕ → β) (N i : ℕ) (d : β) :
    ((List.range N).map f).getD i d = if i < N then f i else d := by
  by_cases hi : i < N
  · rw [if_pos hi, List.getD_eq_getElem _ _ (by simpa using hi)]
    simp
  · rw [if_neg hi, List.getD_eq_default _ _ (by simpa using hi)]

theorem foldl_bindSkin (positions : List (Vec3 α)) (T_i_inv : Mat α) (q0 : Vec3 α) (i : ℕ)
    (sk : ℕ → Option (ℕ × Mat α)) (N j : ℕ) :
    (j < N → skinTest (skinPhi T_i_inv q0 (positions.getD j 0)) →
      (List.range N).foldl
        (fun sk j =>
          let v := positions.getD j 0
          let phi : Vec3 α := fun r => ∑ t : Fin 3, T_i_inv r.val t.val * (v - q0) t
          if phi 0 < 1 ∧ phi 0 > 0 ∧ phi 1 < 1 ∧ phi 1 > 0 ∧ phi 2 < 1 ∧ phi 2 > 0 then
            Function.update sk j (some (i, skinWeights phi))
          else sk) sk j
        = some (i, skinWeights (skinPhi T_i_inv q0 (positions.getD j 0)))) ∧
    ((¬ j < N ∨ ¬ skinTest (skinPhi T_i_inv q0 (positions.getD j 0))) →
      (List.range N).foldl
        (fun sk j =>
          let v := positions.getD j 0
          let phi : Vec3 α := fun r => ∑ t : Fin 3, T_i_inv r.val t.val * (v - q0) t
          if phi 0 < 1 ∧ phi 0 > 0 ∧ phi 1 < 1 ∧ phi 1 > 0 ∧ phi 2 < 1 ∧ phi 2 > 0 then
            Function.update sk j (some (i, skinWeights phi))
          else sk) sk j
        = sk j) := by
  induction N with
  | zero =>
    constructor
    · intro h
      omega
    · intro _
      rfl
  | succ N ih =>
    rw [List.range_succ, List.foldl_append, List.foldl_cons, List.foldl_nil]
    by_cases hj : j = N
    · subst hj
      constructor
      · intro _ htest
        have htest2 := htest
        unfold skinTest skinPhi at htest2
        simp only
        rw [if_pos htest2, Function.update_same]
        rfl
      · intro hor
        have hnt : ¬ skinTest (skinPhi T_i_inv q0 (positions.getD j 0)) := by
          rcases hor with h1 | h1
          · omega
          · exact h1
        have hnt2 := hnt
        unfold skinTest skinPhi at hnt2
        simp only
        rw [if_neg hnt2]
        exact ih.2 (Or.inl (by omega))
    · have hstep : ∀ (s : ℕ → Option (ℕ × Mat α)),
          (let v := positions.getD N 0
           let phi : Vec3 α := fun r => ∑ t : Fin 3, T_i_inv r.val t.val * (v - q0) t
           if phi 0 < 1 ∧ phi 0 > 0 ∧ phi 1 < 1 ∧ phi 1 > 0 ∧ phi 2 < 1 ∧ phi 2 > 0 then
             Function.update s N (some (i, skinWeights phi))
           else s) j = s j := by
        intro s
        simp only
        split_ifs
        · exact Function.update_noteq hj _ _
        · rfl
      rw [hstep]
      constructor
      · intro hlt htest
        exact ih.1 (by omega) htest
      · intro hor
        apply ih.2
        rcases hor with h1 | h1
        · exact Or.inl (by omega)
        · exact Or.inr h1

theorem bindSkin_apply (skinMesh : Mesh α) (T_i_inv : Mat α) (q0 : Vec3 α) (i : ℕ)
    (sk : ℕ → Option (ℕ × Mat α)) (j : ℕ) :
    (j < skinMesh.positions.length →
      skinTest (skinPhi T_i_inv q0 (skinMesh.positions.getD j 0)) →
      bindSkin skinMesh T_i_inv q0 i sk j
        = some (i, skinWeights (skinPhi T_i_inv q0 (skinMesh.positions.getD j 0)))) ∧
    ((¬ j < skinMesh.positions.length ∨
        ¬ skinTest (skinPhi T_i_inv q0 (skinMesh.positions.getD j 0))) →
      bindSkin skinMesh T_i_inv q0 i sk j = sk j) :=
  foldl_bindSkin skinMesh.positions T_i_inv q0 i sk skinMesh.positions.length j

theorem foldl_tetStep_skin_succ (mesh : TetrahedralMesh α) (pm0 : PhysicalMesh α)
    (h0 : pm0.tetIndices = []) (hv : pm0.volumes = []) (hT : pm0.Ts = [])
    (hD : pm0.Ds = []) (hB : pm0.Bs = []) (t : ℕ) :
    ((List.range (t + 1)).foldl (tetStep mesh) pm0).skinMeshTetrahedra
      = bindSkin pm0.skinMesh (inverse3 (T_i (qTetOf (tetIndexAt mesh t) pm0.q)))
          (segment (qTetOf (tetIndexAt mesh t) pm0.q) 0) t
          ((List.range t).foldl (tetStep mesh) pm0).skinMeshTetrahedra := by
  rw [List.range_succ, List.foldl_append, List.foldl_cons, List.foldl_nil]
  obtain ⟨iq, -, -, -, iI, -⟩ := foldl_tetStep mesh pm0 h0 hv hT hD hB t
  have hlen : ((List.range t).foldl (tetStep mesh) pm0).tetIndices.length = t := by
    rw [iI]
    simp
  have hq : getQTet (((List.range t).foldl (tetStep mesh) pm0).tetIndices
      ++ [tetIndexAt mesh t]) t ((List.range t).foldl (tetStep mesh) pm0).q
      = qTetOf (tetIndexAt mesh t) pm0.q := by
    rw [getQTet_concat _ _ _ hlen, iq]
  simp only [tetStep, hq, (foldl_tetStep_frame mesh pm0 t).2.2.2]

/-- The skin map after the first `t` tetrahedra: the entry of skin vertex `j` is the binding to
the last tetrahedron below `t` whose test passes, and empty when there is none. -/
theorem foldl_tetStep_skin (mesh : TetrahedralMesh α) (pm0 : PhysicalMesh α)
    (h0 : pm0.tetIndices = []) (hv : pm0.volumes = []) (hT : pm0.Ts = [])
    (hD : pm0.Ds = []) (hB : pm0.Bs = []) (hs : pm0.skinMeshTetrahedra = fun _ => none)
    (j t : ℕ) :
    (∀ i, i < t → j < pm0.skinMesh.positions.length →
      skinTest (skinPhi (inverse3 (T_i (qTetOf (tetIndexAt mesh i) pm0.q)))
        (segment (qTetOf (tetIndexAt mesh i) pm0.q) 0) (pm0.skinMesh.positions.getD j 0)) →
      (∀ i2, i < i2 → i2 < t →
        ¬ skinTest (skinPhi (inverse3 (T_i (qTetOf (tetIndexAt mesh i2) pm0.q)))
          (segment (qTetOf (tetIndexAt mesh i2) pm0.q) 0)
          (pm0.skinMesh.positions.getD j 0))) →
      ((List.range t).foldl (tetStep mesh) pm0).skinMeshTetrahedra j
        = some (i, skinWeights (skinPhi (inverse3 (T_i (qTetOf (tetIndexAt mesh i) pm0.q)))
            (segment (qTetOf (tetIndexAt mesh i) pm0.q) 0)
            (pm0.skinMesh.positions.getD j 0)))) ∧
    ((¬ j < pm0.skinMesh.positions.length ∨ ∀ i, i < t →
        ¬ skinTest (skinPhi (inverse3 (T_i (qTetOf (tetIndexAt mesh i) pm0.q)))
          (segment (qTetOf (tetIndexAt mesh i) pm0.q) 0)
          (pm0.skinMesh.positions.getD j 0))) →
      ((List.range t).foldl (tetStep mesh) pm0).skinMeshTetrahedra j = none) := by
  induction t with
  | zero =>
    constructor
    · intro i hi
      omega
    · intro _
      simp [hs]
  | succ t ih =>
    rw [foldl_tetStep_skin_succ mesh pm0 h0 hv hT hD hB t]
    constructor
    · intro i hi hj htest hlast
      by_cases hit : i = t
      · subst hit
        exact (bindSkin_apply pm0.skinMesh _ _ i _ j).1 hj htest
      · have hlt : i < t := by omega
        rw [(bindSkin_apply pm0.skinMesh _ _ t _ j).2 (Or.inr (hlast t hlt (by omega)))]
        exact ih.1 i hlt hj htest (fun i2 h1 h2 => hlast i2 h1 (by omega))
    · intro hor
      have hnot : ¬ j < pm0.skinMesh.positions.length ∨
          ¬ skinTest (skinPhi (inverse3 (T_i (qTetOf (tetIndexAt mesh t) pm0.q)))
            (segment (qTetOf (tetIndexAt mesh t) pm0.q) 0)
            (pm0.skinMesh.positions.getD j 0)) := by
        rcases hor with h1 | h1
        · exact Or.inl h1
        · exact Or.inr (h1 t (by omega))
      rw [(bindSkin_apply pm0.skinMesh _ _ t _ j).2 hnot]
      apply ih.2
      rcases hor with h1 | h1
      · exact Or.inl h1
      · exact Or.inr (fun i hi => h1 i (by omega))

/-- Every entry of the skin map after the first `t` tetrahedra comes from a tetrahedron below
`t` whose test passes and after which no test passes. -/
theorem foldl_tetStep_skin_inv (mesh : TetrahedralMesh α) (pm0 : PhysicalMesh α)
    (h0 : pm0.tetIndices = []) (hv : pm0.volumes = []) (hT : pm0.Ts = [])
    (hD : pm0.Ds = []) (hB : pm0.Bs = []) (hs : pm0.skinMeshTetrahedra = fun _ => none)
    (j t : ℕ) (i : ℕ) (w : Mat α)
    (hsome : ((List.range t).foldl (tetStep mesh) pm0).skinMeshTetrahedra j = some (i, w)) :
    i < t ∧ j < pm0.skinMesh.positions.length ∧
    skinTest (skinPhi (inverse3 (T_i (qTetOf (tetIndexAt mesh i) pm0.q)))
      (segment (qTetOf (tetIndexAt mesh i) pm0.q) 0) (pm0.skinMesh.positions.getD j 0)) ∧
    w = skinWeights (skinPhi (inverse3 (T_i (qTetOf (tetIndexAt mesh i) pm0.q)))
      (segment (qTetOf (tetIndexAt mesh i) pm0.q) 0) (pm0.skinMesh.positions.getD j 0)) ∧
    ∀ i2, i < i2 → i2 < t →
      ¬ skinTest (skinPhi (inverse3 (T_i (qTetOf (tetIndexAt mesh i2) pm0.q)))
        (segment (qTetOf (tetIndexAt mesh i2) pm0.q) 0) (pm0.skinMesh.positions.getD j 0)) := by
  induction t with
  | zero =>
    simp [hs] at hsome
  | succ t ih =>
    rw [foldl_tetStep_skin_succ mesh pm0 h0 hv hT hD hB t] at hsome
    by_cases hpass : j < pm0.skinMesh.positions.length ∧
        skinTest (skinPhi (inverse3 (T_i (qTetOf (tetIndexAt mesh t) pm0.q)))
          (segment (qTetOf (tetIndexAt mesh t) pm0.q) 0) (pm0.skinMesh.positions.getD j 0))
    · rw [(bindSkin_apply pm0.skinMesh _ _ t _ j).1 hpass.1 hpass.2] at hsome
      have h1 := Option.some.inj hsome
      have hit : t = i := congrArg Prod.fst h1
      have hw := congrArg Prod.snd h1
      simp only at hw
      subst hit
      exact ⟨by omega, hpass.1, hpass.2, hw.symm, fun i2 h1 h2 => by omega⟩
    · have hor : ¬ j < pm0.skinMesh.positions.length ∨
          ¬ skinTest (skinPhi (inverse3 (T_i (qTetOf (tetIndexAt mesh t) pm0.q)))
            (segment (qTetOf (tetIndexAt mesh t) pm0.q) 0)
            (pm0.skinMesh.positions.getD j 0)) := by
        by_cases hj : j < pm0.skinMesh.positions.length
        · exact Or.inr (fun ht => hpass ⟨hj, ht⟩)
        · exact Or.inl hj
      rw [(bindSkin_apply pm0.skinMesh _ _ t _ j).2 hor] at hsome
      obtain ⟨a1, a2, a3, a4, a5⟩ := ih hsome
      refine ⟨by omega, a2, a3, a4, ?_⟩
      intro i2 h1 h2
      by_cases h2t : i2 = t
      · subst h2t
        rcases hor with hh | hh
        · exact absurd a2 hh
        · exact hh
      · exact a5 i2 h1 (by omega)

theorem init_skin_some (mesh : TetrahedralMesh α) (skinMesh : Mesh α) (j i : ℕ)
    (hi : i < mesh.indices.length / 4) (hj : j < skinMesh.positions.length)
    (htest : skinTest (restPhi mesh skinMesh i j))
    (hlast : ∀ i2, i < i2 → i2 < mesh.indices.length / 4 →
      ¬ skinTest (restPhi mesh skinMesh i2 j)) :
    (PhysicalMesh.init mesh skinMesh).skinMeshTetrahedra j
      = some (i, skinWeights (restPhi mesh skinMesh i j)) := by
  have hq := init_q mesh skinMesh
  unfold restPhi at htest hlast ⊢
  rw [hq] at htest hlast ⊢
  exact (foldl_tetStep_skin mesh
    { q := fun d => if d < 3 * mesh.positions.length
        then (mesh.positions.getD (d / 3) 0).comp d else 0
      q_dot := fun _ => 0
      tetIndices := []
      volumes := []
      Ts := []
      Bs := []
      Ds := []
      n := mesh.positions.length
      n_tet := mesh.indices.length / 4
      M := fun _ _ => 0
      C := 170
      D := 339 / 2
      g := 3
      skinMesh := skinMesh
      skinMeshTetrahedra := fun _ => none } rfl rfl rfl rfl rfl rfl j
      (mesh.indices.length / 4)).1 i hi hj htest hlast

theorem init_skin_none (mesh : TetrahedralMesh α) (skinMesh : Mesh α) (j : ℕ)
    (hnone : ¬ j < skinMesh.positions.length ∨
      ∀ i, i < mesh.indices.length / 4 → ¬ skinTest (restPhi mesh skinMesh i j)) :
    (PhysicalMesh.init mesh skinMesh).skinMeshTetrahedra j = none := by
  have hq := init_q mesh skinMesh
  unfold restPhi at hnone
  rw [hq] at hnone
  exact (foldl_tetStep_skin mesh
    { q := fun d => if d < 3 * mesh.positions.length
        then (mesh.positions.getD (d / 3) 0).comp d else 0
      q_dot := fun _ => 0
      tetIndices := []
      volumes := []
      Ts := []
      Bs := []
      Ds := []
      n := mesh.positions.length
      n_tet := mesh.indices.length / 4
      M := fun _ _ => 0
      C := 170
      D := 339 / 2
      g := 3
      skinMesh := skinMesh
      skinMeshTetrahedra := fun _ => none } rfl rfl rfl rfl rfl rfl j
      (mesh.indices.length / 4)).2 hnone

theorem init_skin_inv (mesh : TetrahedralMesh α) (skinMesh : Mesh α) (j i : ℕ) (w : Mat α)
    (hsome : (PhysicalMesh.init mesh skinMesh).skinMeshTetrahedra j = some (i, w)) :
    i < mesh.indices.length / 4 ∧ j < skinMesh.positions.length ∧
    skinTest (restPhi mesh skinMesh i j) ∧ w = skinWeights (restPhi mesh skinMesh i j) ∧
    ∀ i2, i < i2 → i2 < mesh.indices.length / 4 → ¬ skinTest (restPhi mesh skinMesh i2 j) := by
  have hq := init_q mesh skinMesh
  unfold restPhi
  rw [hq]
  exact foldl_tetStep_skin_inv mesh
    { q := fun d => if d < 3 * mesh.positions.length
        then (mesh.positions.getD (d / 3) 0).comp d else 0
      q_dot := fun _ => 0
      tetIndices := []
      volumes := []
      Ts := []
      Bs := []
      Ds := []
      n := mesh.positions.length
      n_tet := mesh.indices.length / 4
      M := fun _ _ => 0
      C := 170
      D := 339 / 2
      g := 3
      skinMesh := skinMesh
      skinMeshTetrahedra := fun _ => none } rfl rfl rfl rfl rfl rfl j
      (mesh.indices.length / 4) i w hsome

/-- C12 (as amended): skin binding is last-match. For every skin vertex `j`, the binding
recorded by the constructor (tetrahedron index and weight matrix) is the one of the
highest-index tetrahedron that passes the containment test: a recorded binding `(i, w)` means
that tetrahedron `i` passes, `w` is its weight matrix and no later tetrahedron passes, and
a skin vertex for which some tetrahedron passes is bound to the last one that does. -/
theorem skin_binding_last_match (mesh : TetrahedralMesh α) (skinMesh : Mesh α) (j : ℕ) :
    (∀ i, i < mesh.indices.length / 4 → j < skinMesh.positions.length →
      skinTest (restPhi mesh skinMesh i j) →
      (∀ i2, i < i2 → i2 < mesh.indices.length / 4 → ¬ skinTest (restPhi mesh skinMesh i2 j)) →
      (PhysicalMesh.init mesh skinMesh).skinMeshTetrahedra j
        = some (i, skinWeights (restPhi mesh skinMesh i j))) ∧
    (∀ i w, (PhysicalMesh.init mesh skinMesh).skinMeshTetrahedra j = some (i, w) →
      i < mesh.indices.length / 4 ∧ skinTest (restPhi mesh skinMesh i j) ∧
      w = skinWeights (restPhi mesh skinMesh i j) ∧
      ∀ i2, i < i2 → i2 < mesh.indices.length / 4 →
        ¬ skinTest (restPhi mesh skinMesh i2 j)) := by
  refine ⟨fun i hi hj htest hlast => init_skin_some mesh skinMesh j i hi hj htest hlast, ?_⟩
  intro i w hsome
  obtain ⟨a1, -, a3, a4, a5⟩ := init_skin_inv mesh skinMesh j i w hsome
  exact ⟨a1, a3, a4, a5⟩

theorem unitTet_restPhi (v : Vec3 ℚ) : restPhi unitTet (skinAt v) 0 0 = v := by
  funext r
  fin_cases r <;>
    simp [restPhi, skinPhi, init_q, qTetOf, tetIndexAt, unitTet, skinAt, inverse3, cofactor3,
      det3, T_i, segment, Vec3.comp, Fin.sum_univ_three]

theorem twoTets_restPhi0 (v : Vec3 ℚ) : restPhi twoTets (skinAt v) 0 0 = v := by
  funext r
  fin_cases r <;>
    simp [restPhi, skinPhi, init_q, qTetOf, tetIndexAt, twoTets, skinAt, inverse3, cofactor3,
      det3, T_i, segment, Vec3.comp, Fin.sum_univ_three]

theorem twoTets_restPhi1 :
    restPhi twoTets (skinAt (![1 / 2, 1 / 2, 1 / 2] : Vec3 ℚ)) 1 0 = ![1 / 4, 1 / 4, 1 / 4] := by
  funext r
  fin_cases r <;>
    simp [restPhi, skinPhi, init_q, qTetOf, tetIndexAt, twoTets, skinAt, inverse3, cofactor3,
      det3, T_i, segment, Vec3.comp, Fin.sum_univ_three] <;> norm_num

theorem skinTest_quarter : skinTest (![1 / 4, 1 / 4, 1 / 4] : Vec3 ℚ) := by
  unfold skinTest
  norm_num

theorem skinTest_half : skinTest (![1 / 2, 1 / 2, 1 / 2] : Vec3 ℚ) := by
  unfold skinTest
  norm_num

/-- C12 (counterexample): the skin vertex `(1/2, 1/2, 1/2)` passes the containment test of both
tetrahedra of `twoTets`; the recorded binding is the one of tetrahedron 1, not of the
lowest-index tetrahedron 0. -/
theorem skin_binding_not_first :
    skinTest (restPhi twoTets (skinAt (![1 / 2, 1 / 2, 1 / 2] : Vec3 ℚ)) 0 0) ∧
    skinTest (restPhi twoTets (skinAt (![1 / 2, 1 / 2, 1 / 2] : Vec3 ℚ)) 1 0) ∧
    (PhysicalMesh.init twoTets (skinAt (![1 / 2, 1 / 2, 1 / 2] : Vec3 ℚ))).skinMeshTetrahedra 0
      = some (1, skinWeights (![1 / 4, 1 / 4, 1 / 4] : Vec3 ℚ)) ∧
    (PhysicalMesh.init twoTets (skinAt (![1 / 2, 1 / 2, 1 / 2] : Vec3 ℚ))).skinMeshTetrahedra 0
      ≠ some (0, skinWeights
          (restPhi twoTets (skinAt (![1 / 2, 1 / 2, 1 / 2] : Vec3 ℚ)) 0 0)) := by
  have h0 : skinTest (restPhi twoTets (skinAt (![1 / 2, 1 / 2, 1 / 2] : Vec3 ℚ)) 0 0) := by
    rw [twoTets_restPhi0]
    exact skinTest_half
  have h1 : skinTest (restPhi twoTets (skinAt (![1 / 2, 1 / 2, 1 / 2] : Vec3 ℚ)) 1 0) := by
    rw [twoTets_restPhi1]
    exact skinTest_quarter
  have hsk := init_skin_some twoTets (skinAt (![1 / 2, 1 / 2, 1 / 2] : Vec3 ℚ)) 0 1
    (by decide) (by simp [skinAt]) h1
    (fun i2 ha hb => by
      have : (twoTets : TetrahedralMesh ℚ).indices.length / 4 = 2 := rfl
      omega)
  rw [twoTets_restPhi1] at hsk
  refine ⟨h0, h1, hsk, ?_⟩
  rw [hsk]
  intro hEq
  have := congrArg Prod.fst (Option.some.inj hEq)
  simp at this

/-- Witness of C12: in the unit tetrahedron the skin vertex `(1/4, 1/4, 1/4)` is bound to
tetrahedron 0. -/
theorem skin_binding_last_match_witness :
    (PhysicalMesh.init unitTet (skinAt (![1 / 4, 1 / 4, 1 / 4] : Vec3 ℚ))).skinMeshTetrahedra 0
      = some (0, skinWeights
          (restPhi unitTet (skinAt (![1 / 4, 1 / 4, 1 / 4] : Vec3 ℚ)) 0 0)) :=
  (skin_binding_last_match unitTet (skinAt (![1 / 4, 1 / 4, 1 / 4] : Vec3 ℚ)) 0).1 0
    (by decide) (by simp [skinAt])
    (by rw [unitTet_restPhi]; exact skinTest_quarter)
    (fun i2 ha hb => by
      have : (unitTet : TetrahedralMesh ℚ).indices.length / 4 = 1 := rfl
      omega)

/-- C13 (code bug): the skin vertex `(9/10, 9/10, 9/10)` lies outside the unit tetrahedron
(its barycentric coordinate for vertex 0 is `1 - 27/10 = -17/10`), yet the constructor binds it
to that tetrahedron, with the negative weight `-17/10` on vertex 0: the test looks at
`phi0, phi1, phi2` only. -/
theorem skin_binding_outside :
    (PhysicalMesh.init unitTet
        (skinAt (![9 / 10, 9 / 10, 9 / 10] : Vec3 ℚ))).skinMeshTetrahedra 0
      = some (0, skinWeights (![9 / 10, 9 / 10, 9 / 10] : Vec3 ℚ)) ∧
    skinWeights (![9 / 10, 9 / 10, 9 / 10] : Vec3 ℚ) 0 0 = -17 / 10 ∧
    ¬ (0 < 1 - (![9 / 10, 9 / 10, 9 / 10] : Vec3 ℚ) 0 - (![9 / 10, 9 / 10, 9 / 10] : Vec3 ℚ) 1
        - (![9 / 10, 9 / 10, 9 / 10] : Vec3 ℚ) 2) := by
  have ht : skinTest (restPhi unitTet (skinAt (![9 / 10, 9 / 10, 9 / 10] : Vec3 ℚ)) 0 0) := by
    rw [unitTet_restPhi]
    unfold skinTest
    norm_num
  have hsk := init_skin_some unitTet (skinAt (![9 / 10, 9 / 10, 9 / 10] : Vec3 ℚ)) 0 0
    (by decide) (by simp [skinAt]) ht
    (fun i2 ha hb => by
      have : (unitTet : TetrahedralMesh ℚ).indices.length / 4 = 1 := rfl
      omega)
  rw [unitTet_restPhi] at hsk
  refine ⟨hsk, ?_, ?_⟩
  · simp [skinWeights]
    norm_num
  · norm_num

theorem unitTet_vertex1_unbound :
    (PhysicalMesh.init unitTet (skinAt (![1, 0, 0] : Vec3 ℚ))).skinMeshTetrahedra 0 = none := by
  apply init_skin_none
  right
  intro i hi
  have hi0 : i = 0 := by
    have : (unitTet : TetrahedralMesh ℚ).indices.length / 4 = 1 := rfl
    omega
  subst hi0
  rw [unitTet_restPhi]
  unfold skinTest
  norm_num

/-- C14 (counterexample): the skin vertex `(1, 0, 0)` coincides with vertex 1 of the unit
tetrahedron, and the constructor records no binding for it, one-hot or other. -/
theorem skin_coincident_unbound :
    (skinAt (![1, 0, 0] : Vec3 ℚ)).positions.getD 0 0
      = (unitTet : TetrahedralMesh ℚ).positions.getD 1 0 ∧
    (PhysicalMesh.init unitTet (skinAt (![1, 0, 0] : Vec3 ℚ))).skinMeshTetrahedra 0 = none := by
  constructor
  · simp [skinAt, unitTet]
  · exact unitTet_vertex1_unbound

theorem inverse3_mul (T : Mat α) (hdet : det3 T ≠ 0) (r c : ℕ) (hr : r < 3) (hc : c < 3) :
    ∑ t in Finset.range 3, inverse3 T r t * T t c = if r = c then 1 else 0 := by
  interval_cases r <;> interval_cases c <;>
    simp [inverse3, cofactor3, Finset.sum_range_succ] <;> field_simp <;>
    first
    | (unfold det3; ring)
    | ring

theorem mul_inverse3 (T : Mat α) (hdet : det3 T ≠ 0) (r c : ℕ) (hr : r < 3) (hc : c < 3) :
    ∑ t in Finset.range 3, T r t * inverse3 T t c = if r = c then 1 else 0 := by
  interval_cases r <;> interval_cases c <;>
    simp [inverse3, cofactor3, Finset.sum_range_succ] <;> field_simp <;>
    first
    | (unfold det3; ring)
    | ring

theorem inverse3_singular (T : Mat α) (hdet : det3 T = 0) (r c : ℕ) : inverse3 T r c = 0 := by
  unfold inverse3
  split_ifs
  · rw [hdet, div_zero]
  · rfl

theorem skinPhi_eq_range (T_i_inv : Mat α) (q0 v : Vec3 α) (r : Fin 3) :
    skinPhi T_i_inv q0 v r
      = T_i_inv r.val 0 * (v - q0) 0 + T_i_inv r.val 1 * (v - q0) 1
        + T_i_inv r.val 2 * (v - q0) 2 := by
  simp [skinPhi, Fin.sum_univ_three]

theorem getD_set {β : Type} (l : List β) (i j : ℕ) (x d : β) :
    (l.set i x).getD j d = if i = j ∧ j < l.length then x else l.getD j d := by
  simp only [List.getD_eq_getElem?_getD, List.getElem?_set]
  by_cases hij : i = j
  · subst hij
    by_cases hl : i < l.length
    · simp [hl]
    · simp [hl]
      rw [List.getElem?_eq_none (by omega)]
      rfl
  · simp [hij]

/-- The positions returned by `getSkinMesh`: a skin vertex with a binding `(t, w)` gets
`w * getQTet(t, q)`, a skin vertex without binding keeps its position. -/
theorem foldl_skin_positions (sk : ℕ → Option (ℕ × Mat α)) (val : ℕ → Mat α → Vec3 α)
    (ps : List (Vec3 α)) (N j : ℕ) :
    ((List.range N).foldl
        (fun ps i_vert =>
          match sk i_vert with
          | some (i_tet, w) => ps.set i_vert (val i_tet w)
          | none => ps) ps).length = ps.length ∧
    (∀ t w, sk j = some (t, w) → j < N → j < ps.length →
      ((List.range N).foldl
        (fun ps i_vert =>
          match sk i_vert with
          | some (i_tet, w) => ps.set i_vert (val i_tet w)
          | none => ps) ps).getD j 0 = val t w) ∧
    ((sk j = none ∨ ¬ j < N) →
      ((List.range N).foldl
        (fun ps i_vert =>
          match sk i_vert with
          | some (i_tet, w) => ps.set i_vert (val i_tet w)
          | none => ps) ps).getD j 0 = ps.getD j 0) := by
  induction N with
  | zero =>
    refine ⟨rfl, ?_, ?_⟩
    · intro t w _ h
      omega
    · intro _
      rfl
  | succ N ih =>
    rw [List.range_succ, List.foldl_append, List.foldl_cons, List.foldl_nil]
    obtain ⟨ihl, ihs, ihn⟩ := ih
    refine ⟨?_, ?_, ?_⟩
    · cases hN : sk N with
      | none => simpa using ihl
      | some tw => simpa using ihl
    · intro t w hsome hj hlen
      by_cases hjN : j = N
      · subst hjN
        rw [hsome]
        simp only
        rw [getD_set, if_pos ⟨rfl, by rw [ihl]; exact hlen⟩]
      · cases hN : sk N with
        | none => exact ihs t w hsome (by omega) hlen
        | some tw =>
          simp only
          rw [getD_set, if_neg (fun hh => hjN hh.1.symm)]
          exact ihs t w hsome (by omega) hlen
    · intro hor
      by_cases hjN : j = N
      · subst hjN
        have hnone : sk j = none := by
          rcases hor with h1 | h1
          · exact h1
          · omega
        rw [hnone]
        exact ihn (Or.inl hnone)
      · have hor2 : sk j = none ∨ ¬ j < N := by
          rcases hor with h1 | h1
          · exact Or.inl h1
          · exact Or.inr (by omega)
        cases hN : sk N with
        | none => exact ihn hor2
        | some tw =>
          simp only
          rw [getD_set, if_neg (fun hh => hjN hh.1.symm)]
          exact ihn hor2

theorem getSkinMesh_bound (pm : PhysicalMesh α) (j t : ℕ) (w : Mat α)
    (hj : j < pm.skinMesh.positions.length) (hsome : pm.skinMeshTetrahedra j = some (t, w)) :
    (getSkinMesh pm).2.positions.getD j 0
      = fun r => ∑ c in Finset.range 12, w r.val c * getQTet pm.tetIndices t pm.q c :=
  (foldl_skin_positions pm.skinMeshTetrahedra
    (fun i_tet w => fun r => ∑ c in Finset.range 12, w r.val c * getQTet pm.tetIndices i_tet pm.q c)
    pm.skinMesh.positions pm.skinMesh.positions.length j).2.1 t w hsome hj hj

theorem getSkinMesh_unbound (pm : PhysicalMesh α) (j : ℕ)
    (hnone : pm.skinMeshTetrahedra j = none) :
    (getSkinMesh pm).2.positions.getD j 0 = pm.skinMesh.positions.getD j 0 :=
  (foldl_skin_positions pm.skinMeshTetrahedra
    (fun i_tet w => fun r => ∑ c in Finset.range 12, w r.val c * getQTet pm.tetIndices i_tet pm.q c)
    pm.skinMesh.positions pm.skinMesh.positions.length j).2.2 (Or.inl hnone)

/-- C15: `getSkinMesh` is a read-only projection. It returns the object as it was (`q` and
`q_dot` unchanged); a bound skin vertex `j` gets `W_j * getQTet(t_j, q)`; a skin vertex
without binding, in particular one that passed the containment test of no tetrahedron at
construction, keeps its construction-time position; indices, normals and uv are those of the
skin mesh. The bindings and the skin mesh are not written by a simulation step. -/
theorem getSkinMesh_spec (pm : PhysicalMesh α) :
    (getSkinMesh pm).1 = pm ∧
    (getSkinMesh pm).1.q = pm.q ∧ (getSkinMesh pm).1.q_dot = pm.q_dot ∧
    (∀ j t w, j < pm.skinMesh.positions.length → pm.skinMeshTetrahedra j = some (t, w) →
      (getSkinMesh pm).2.positions.getD j 0
        = fun r => ∑ c in Finset.range 12, w r.val c * getQTet pm.tetIndices t pm.q c) ∧
    (∀ j, pm.skinMeshTetrahedra j = none →
      (getSkinMesh pm).2.positions.getD j 0 = pm.skinMesh.positions.getD j 0) ∧
    (∀ (mesh : TetrahedralMesh α) (skinMesh : Mesh α) (j : ℕ),
      pm.skinMeshTetrahedra = (PhysicalMesh.init mesh skinMesh).skinMeshTetrahedra →
      pm.skinMesh = skinMesh →
      (∀ i, i < mesh.indices.length / 4 → ¬ skinTest (restPhi mesh skinMesh i j)) →
      (getSkinMesh pm).2.positions.getD j 0 = skinMesh.positions.getD j 0) ∧
    (getSkinMesh pm).2.positions.length = pm.skinMesh.positions.length ∧
    (getSkinMesh pm).2.indices = pm.skinMesh.indices ∧
    (getSkinMesh pm).2.normals = pm.skinMesh.normals ∧
    (getSkinMesh pm).2.uv = pm.skinMesh.uv ∧
    (∀ v, (integrate pm v).skinMeshTetrahedra = pm.skinMeshTetrahedra ∧
      (integrate pm v).skinMesh = pm.skinMesh) := by
  refine ⟨rfl, rfl, rfl, fun j t w hj hs => getSkinMesh_bound pm j t w hj hs,
    fun j hn => getSkinMesh_unbound pm j hn, ?_, ?_, rfl, rfl, rfl, fun _ => ⟨rfl, rfl⟩⟩
  · intro mesh skinMesh j hsk hskin hnone
    rw [← hskin]
    apply getSkinMesh_unbound
    rw [hsk]
    exact init_skin_none mesh skinMesh j (Or.inr hnone)
  · exact (foldl_skin_positions pm.skinMeshTetrahedra
      (fun i_tet w => fun r =>
        ∑ c in Finset.range 12, w r.val c * getQTet pm.tetIndices i_tet pm.q c)
      pm.skinMesh.positions pm.skinMesh.positions.length 0).1

theorem skinWeights_slot (phi : Vec3 α) (k r : ℕ) (hk : k < 3) (hr : r < 3) :
    skinWeights phi r (3 * (k + 1) + r) = phi ⟨k, hk⟩ := by
  interval_cases k <;> interval_cases r <;> simp [skinWeights]

/-- C14 (as amended): the constructor never records a one-hot weight matrix. For every skin
vertex `j`, in particular one whose rest position coincides with a vertex of the tetrahedral
mesh: when a binding `(t, w)` is recorded, the weights of the vertices 1, 2, 3 of `t` are the
tested coordinates, each strictly between 0 and 1, so no vertex of `t` has weight 1 with the
other three at 0; when no binding is recorded, `getSkinMesh` returns the construction-time
position of the skin vertex in every state. -/
theorem skin_coincident_spec (mesh : TetrahedralMesh α) (skinMesh : Mesh α) (j : ℕ) :
    (∀ t w, (PhysicalMesh.init mesh skinMesh).skinMeshTetrahedra j = some (t, w) →
      (∀ k r, k < 3 → r < 3 →
        0 < w r (3 * (k + 1) + r) ∧ w r (3 * (k + 1) + r) < 1) ∧
      ¬ ∃ p, p < 4 ∧ ∀ k r, k < 4 → r < 3 → w r (3 * k + r) = if k = p then 1 else 0) ∧
    ((PhysicalMesh.init mesh skinMesh).skinMeshTetrahedra j = none →
      ∀ pm : PhysicalMesh α,
        pm.skinMeshTetrahedra = (PhysicalMesh.init mesh skinMesh).skinMeshTetrahedra →
        pm.skinMesh = skinMesh →
        (getSkinMesh pm).2.positions.getD j 0 = skinMesh.positions.getD j 0) := by
  constructor
  · intro t w hsome
    obtain ⟨-, -, htest, hw, -⟩ := init_skin_inv mesh skinMesh j t w hsome
    have hrange : ∀ k r, k < 3 → r < 3 →
        0 < w r (3 * (k + 1) + r) ∧ w r (3 * (k + 1) + r) < 1 := by
      intro k r hk hr
      rw [hw, skinWeights_slot _ k r hk hr]
      unfold skinTest at htest
      obtain ⟨a1, a2, b1, b2, c1, c2⟩ := htest
      interval_cases k
      · exact ⟨a2, a1⟩
      · exact ⟨b2, b1⟩
      · exact ⟨c2, c1⟩
    refine ⟨hrange, ?_⟩
    rintro ⟨p, hp, hone⟩
    have h1 := hrange 0 0 (by norm_num) (by norm_num)
    have h1e := hone 1 0 (by norm_num) (by norm_num)
    simp only [zero_add, mul_one, add_zero] at h1 h1e
    by_cases hp1 : 1 = p
    · rw [if_pos hp1] at h1e
      rw [h1e] at h1
      exact lt_irrefl 1 h1.2
    · rw [if_neg hp1] at h1e
      rw [h1e] at h1
      exact lt_irrefl 0 h1.1
  · intro hn pm hsk hskin
    rw [← hskin]
    apply getSkinMesh_unbound
    rw [hsk]
    exact hn

theorem unitTet_skin_quarter :
    (PhysicalMesh.init unitTet (skinAt (![1 / 4, 1 / 4, 1 / 4] : Vec3 ℚ))).skinMeshTetrahedra 0
      = some (0, skinWeights (![1 / 4, 1 / 4, 1 / 4] : Vec3 ℚ)) := by
  have h := init_skin_some unitTet (skinAt (![1 / 4, 1 / 4, 1 / 4] : Vec3 ℚ)) 0 0
    (by decide) (by simp [skinAt])
    (by rw [unitTet_restPhi]; exact skinTest_quarter)
    (fun i2 ha hb => by
      have : (unitTet : TetrahedralMesh ℚ).indices.length / 4 = 1 := rfl
      omega)
  rw [unitTet_restPhi] at h
  exact h

/-- Witness of C15: the bound skin vertex `(1/4, 1/4, 1/4)` of the unit tetrahedron. -/
theorem getSkinMesh_spec_witness :
    (getSkinMesh (PhysicalMesh.init unitTet
        (skinAt (![1 / 4, 1 / 4, 1 / 4] : Vec3 ℚ)))).2.positions.getD 0 0
      = fun r => ∑ c in Finset.range 12,
          skinWeights (![1 / 4, 1 / 4, 1 / 4] : Vec3 ℚ) r.val c
            * getQTet (PhysicalMesh.init unitTet
                (skinAt (![1 / 4, 1 / 4, 1 / 4] : Vec3 ℚ))).tetIndices 0
              (PhysicalMesh.init unitTet (skinAt (![1 / 4, 1 / 4, 1 / 4] : Vec3 ℚ))).q c :=
  (getSkinMesh_spec (PhysicalMesh.init unitTet
      (skinAt (![1 / 4, 1 / 4, 1 / 4] : Vec3 ℚ)))).2.2.2.1 0 0 _
    (by rw [init_skinMesh]; simp [skinAt]) unitTet_skin_quarter

/-- Witness of C14 (as amended): the skin vertex at vertex 1 of the unit tetrahedron has no
binding, and `getSkinMesh` returns its construction-time position. -/
theorem skin_coincident_spec_witness :
    (getSkinMesh (PhysicalMesh.init unitTet (skinAt (![1, 0, 0] : Vec3 ℚ)))).2.positions.getD 0 0
      = (skinAt (![1, 0, 0] : Vec3 ℚ)).positions.getD 0 0 :=
  (skin_coincident_spec unitTet (skinAt (![1, 0, 0] : Vec3 ℚ)) 0).2 unitTet_vertex1_unbound
    _ rfl (init_skinMesh _ _)

/-- The stored volume is `|det T_i| / 6`. -/
theorem vol_eq_det (qTet : VecX α) : vol qTet = |det3 (T_i qTet)| / 6 := by
  have h6 : |(6 : α)| = 6 := abs_of_pos (by norm_num)
  unfold vol
  rw [abs_div, h6]
  congr 2
  simp [dot, cross, segment, det3, T_i]
  ring

theorem init_volumes_getD (mesh : TetrahedralMesh α) (skinMesh : Mesh α) (i : ℕ)
    (hi : i < mesh.indices.length / 4) :
    (PhysicalMesh.init mesh skinMesh).volumes.getD i 0
      = vol (qTetOf (tetIndexAt mesh i) (PhysicalMesh.init mesh skinMesh).q) := by
  rw [init_volumes, getD_map_range, if_pos hi]

theorem init_Ts_getD (mesh : TetrahedralMesh α) (skinMesh : Mesh α) (i : ℕ)
    (hi : i < mesh.indices.length / 4) :
    (PhysicalMesh.init mesh skinMesh).Ts.getD i 0
      = T_i (qTetOf (tetIndexAt mesh i) (PhysicalMesh.init mesh skinMesh).q) := by
  rw [init_Ts, getD_map_range, if_pos hi]

theorem init_Ds_getD (mesh : TetrahedralMesh α) (skinMesh : Mesh α) (i : ℕ)
    (hi : i < mesh.indices.length / 4) :
    (PhysicalMesh.init mesh skinMesh).Ds.getD i 0
      = D_i (inverse3
          (T_i (qTetOf (tetIndexAt mesh i) (PhysicalMesh.init mesh skinMesh).q))) := by
  rw [init_Ds, getD_map_range, if_pos hi]

theorem init_Bs_getD (mesh : TetrahedralMesh α) (skinMesh : Mesh α) (i : ℕ)
    (hi : i < mesh.indices.length / 4) :
    (PhysicalMesh.init mesh skinMesh).Bs.getD i 0
      = B_i (D_i (inverse3
          (T_i (qTetOf (tetIndexAt mesh i) (PhysicalMesh.init mesh skinMesh).q)))) := by
  rw [init_Bs, getD_map_range, if_pos hi]

theorem init_tetIndices_getD (mesh : TetrahedralMesh α) (skinMesh : Mesh α) (i : ℕ)
    (hi : i < mesh.indices.length / 4) :
    (PhysicalMesh.init mesh skinMesh).tetIndices.getD i [] = tetIndexAt mesh i := by
  rw [init_tetIndices, getD_map_range, if_pos hi]

/-- C16 (as amended): the constructor has no failure path. For every mesh it returns an object
holding one volume, one `T_i`, one `D_i` and one `B_i` per tetrahedron; the stored volume is
`|det T_i| / 6` and `D_i` is built from the cofactor-over-determinant inverse of `T_i`, also
for a tetrahedron of zero volume, for which `det T_i = 0`. -/
theorem construction_total (mesh : TetrahedralMesh α) (skinMesh : Mesh α) :
    (PhysicalMesh.init mesh skinMesh).volumes.length = mesh.indices.length / 4 ∧
    (PhysicalMesh.init mesh skinMesh).Ts.length = mesh.indices.length / 4 ∧
    (PhysicalMesh.init mesh skinMesh).Ds.length = mesh.indices.length / 4 ∧
    (PhysicalMesh.init mesh skinMesh).Bs.length = mesh.indices.length / 4 ∧
    ∀ i, i < mesh.indices.length / 4 →
      (PhysicalMesh.init mesh skinMesh).volumes.getD i 0
        = |det3 ((PhysicalMesh.init mesh skinMesh).Ts.getD i 0)| / 6 ∧
      (PhysicalMesh.init mesh skinMesh).Ds.getD i 0
        = D_i (inverse3 ((PhysicalMesh.init mesh skinMesh).Ts.getD i 0)) ∧
      ((PhysicalMesh.init mesh skinMesh).volumes.getD i 0 = 0 ↔
        det3 ((PhysicalMesh.init mesh skinMesh).Ts.getD i 0) = 0) := by
  refine ⟨?_, ?_, ?_, ?_, ?_⟩
  · rw [init_volumes]
    simp
  · rw [init_Ts]
    simp
  · rw [init_Ds]
    simp
  · rw [init_Bs]
    simp
  · intro i hi
    rw [init_volumes_getD mesh skinMesh i hi, init_Ts_getD mesh skinMesh i hi,
      init_Ds_getD mesh skinMesh i hi, vol_eq_det]
    refine ⟨rfl, rfl, ?_⟩
    constructor
    · intro h0
      have h6 : (6 : α) ≠ 0 := by norm_num
      have := (div_eq_zero_iff.mp h0).resolve_right h6
      exact abs_eq_zero.mp this
    · intro h0
      rw [h0, abs_zero, zero_div]


/-- C16 (counterexample): the constructor completes on a tetrahedron with four coplanar
vertices; the object holds the volume `0`, a `T_i` of determinant `0` and the `D_i` built from
its inverse. -/
theorem construction_degenerate :
    (PhysicalMesh.init (flatTet : TetrahedralMesh ℚ) emptySkin).volumes.getD 0 1 = 0 ∧
    det3 ((PhysicalMesh.init (flatTet : TetrahedralMesh ℚ) emptySkin).Ts.getD 0 0) = 0 ∧
    (PhysicalMesh.init (flatTet : TetrahedralMesh ℚ) emptySkin).Ds
      = [D_i (inverse3 ((PhysicalMesh.init (flatTet : TetrahedralMesh ℚ) emptySkin).Ts.getD 0 0))]
    := by
  have hn : (flatTet : TetrahedralMesh ℚ).indices.length / 4 = 1 := rfl
  have hdet : det3 (T_i (qTetOf (tetIndexAt (flatTet : TetrahedralMesh ℚ) 0)
      (PhysicalMesh.init (flatTet : TetrahedralMesh ℚ) emptySkin).q)) = 0 := by
    rw [init_q]
    simp [det3, T_i, qTetOf, tetIndexAt, flatTet, Vec3.comp]
  refine ⟨?_, ?_, ?_⟩
  · rw [init_volumes, hn]
    simp only [List.range_succ, List.range_zero, List.nil_append, List.map_cons, List.map_nil,
      List.getD_cons_zero]
    rw [vol_eq_det, hdet]
    simp
  · rw [init_Ts_getD _ _ 0 (by rw [hn]; decide)]
    exact hdet
  · rw [init_Ts_getD _ _ 0 (by rw [hn]; decide), init_Ds, hn]
    simp [List.range_succ]

/-- Witness of C16: the unit tetrahedron. -/
theorem construction_total_witness :
    (PhysicalMesh.init (unitTet : TetrahedralMesh ℚ) emptySkin).volumes.getD 0 0
      = |det3 ((PhysicalMesh.init (unitTet : TetrahedralMesh ℚ) emptySkin).Ts.getD 0 0)| / 6 :=
  ((construction_total (unitTet : TetrahedralMesh ℚ) emptySkin).2.2.2.2 0 (by decide)).1

theorem B_i_mulVec (D : Mat α) (x : VecX α) (d : ℕ) :
    mulVec 12 (B_i D) x d
      = if d < 9 then ∑ j in Finset.range 4, x (3 * j + d / 3) * D j (d % 3) else 0 := by
  by_cases hd : d < 9
  · rw [if_pos hd]
    interval_cases d <;> simp [mulVec, B_i, Finset.sum_range_succ] <;> ring
  · rw [if_neg hd]
    simp [mulVec, B_i, hd]

theorem getFFlat_eq (pm : PhysicalMesh α) (i : ℕ) (qq : VecX α) (d : ℕ) :
    getFFlat pm i qq d
      = if d < 9 then ∑ j in Finset.range 4,
          getQTet pm.tetIndices i qq (3 * j + d / 3) * pm.Ds.getD i 0 j (d % 3) else 0 := by
  by_cases hd : d < 9
  · have h1 : d / 3 < 3 := by omega
    have h2 : d % 3 < 3 := by omega
    simp [getFFlat, getFMat, matMul, hd, h1, h2, Finset.sum_range_succ]
  · simp [getFFlat, hd]

/-- C18: for every tetrahedron `i` and every state `qq`, `Bs[i] * getQTet(i, qq)` is
`getFFlat(i, qq)`, the row-major flattening of `getFMat(i, qq) = pos * Ds[i]`. -/
theorem Bs_mul_getQTet (mesh : TetrahedralMesh α) (skinMesh : Mesh α) (i : ℕ) (qq : VecX α) :
    mulVec 12 ((PhysicalMesh.init mesh skinMesh).Bs.getD i 0)
        (getQTet (PhysicalMesh.init mesh skinMesh).tetIndices i qq)
      = getFFlat (PhysicalMesh.init mesh skinMesh) i qq ∧
    ∀ r c, r < 3 → c < 3 →
      getFFlat (PhysicalMesh.init mesh skinMesh) i qq (3 * r + c)
        = getFMat (PhysicalMesh.init mesh skinMesh) i qq r c := by
  constructor
  · funext d
    rw [getFFlat_eq]
    by_cases hi : i < mesh.indices.length / 4
    · rw [init_Bs_getD mesh skinMesh i hi, init_Ds_getD mesh skinMesh i hi, B_i_mulVec]
    · have hB : (PhysicalMesh.init mesh skinMesh).Bs.getD i 0 = 0 := by
        rw [init_Bs, getD_map_range, if_neg hi]
      have hD : (PhysicalMesh.init mesh skinMesh).Ds.getD i 0 = 0 := by
        rw [init_Ds, getD_map_range, if_neg hi]
      rw [hB, hD]
      simp [mulVec]
  · intro r c hr hc
    have h1 : 3 * r + c < 9 := by omega
    have h2 : (3 * r + c) / 3 = r := by omega
    have h3 : (3 * r + c) % 3 = c := by omega
    simp only [getFFlat, h1, if_true, h2, h3]

/-- C19: the 12×12 template of the cyclic-shift loop is `2` on the diagonal, `1` where
`j ≠ k` and `j ≡ k (mod 3)`, and `0` elsewhere; the assembled mass matrix is the sum over all
tetrahedra `i` and all `j, k < 12` of `volumes[i] * M_i(j,k) / 20` at row
`3*idx[j/3] + j%3` and column `3*idx[k/3] + k%3`, `idx = tetIndices[i]`. -/
theorem mass_template_spec (mesh : TetrahedralMesh α) (skinMesh : Mesh α) :
    (∀ j k, j < 12 → k < 12 →
      (M_i : Mat α) j k = if j = k then 2 else if j % 3 = k % 3 then 1 else 0) ∧
    ∀ r c, (PhysicalMesh.init mesh skinMesh).M r c
      = ∑ i in Finset.range (PhysicalMesh.init mesh skinMesh).n_tet,
          ∑ j in Finset.range 12, ∑ k in Finset.range 12,
            if 3 * ((PhysicalMesh.init mesh skinMesh).tetIndices.getD i []).getD (j / 3) 0
                  + j % 3 = r
                ∧ 3 * ((PhysicalMesh.init mesh skinMesh).tetIndices.getD i []).getD (k / 3) 0
                  + k % 3 = c
            then (PhysicalMesh.init mesh skinMesh).volumes.getD i 0 * M_i j k / 20
            else 0 := by
  constructor
  · intro j k hj hk
    rw [M_i_eq j k hj hk]
    by_cases hjk : j = k
    · subst hjk
      simp
      norm_num
    · simp [hjk]
  · intro r c
    rw [init_M, init_n_tet]
    apply Finset.sum_congr rfl
    intro i hi
    have hi2 := Finset.mem_range.mp hi
    rw [init_tetIndices_getD mesh skinMesh i hi2, init_volumes_getD mesh skinMesh i hi2]

/-- Witness of C19: the entry `(0, 3)` of the template. -/
theorem mass_template_spec_witness : (M_i : Mat ℚ) 0 3 = 1 :=
  ((mass_template_spec (unitTet : TetrahedralMesh ℚ) emptySkin).1 0 3 (by decide)
    (by decide)).trans (by decide)

theorem foldl_add_pointwise {β : Type} (F : β → ℕ → α) (l : List β) (acc : VecX α) (d : ℕ) :
    l.foldl (fun (a : VecX α) k => fun d => a d + F k d) acc d
      = acc d + (l.map (fun k => F k d)).sum := by
  induction l generalizing acc with
  | nil => simp
  | cons x t ih =>
    rw [List.foldl_cons, ih]
    simp [add_assoc]

theorem sum_map_range (f : ℕ → α) (N : ℕ) :
    ((List.range N).map f).sum = ∑ k in Finset.range N, f k := by
  induction N with
  | zero => simp
  | succ N ih =>
    rw [List.range_succ, List.map_append, List.sum_append, ih, Finset.sum_range_succ]
    simp

theorem foldl_range_pointwise (G : VecX α → ℕ → VecX α) (F : ℕ → ℕ → α)
    (hG : ∀ acc i, G acc i = fun d => acc d + F i d) (N : ℕ) (acc : VecX α) (d : ℕ) :
    (List.range N).foldl G acc d = acc d + ∑ i in Finset.range N, F i d := by
  have hG2 : G = fun (a : VecX α) i => fun d => a d + F i d := by
    funext acc i
    exact hG acc i
  rw [hG2, foldl_add_pointwise, sum_map_range]

/-- The gradient `dVdQ`, entry by entry: for every tetrahedron `i` and slot `k`, the local
gradient at the entries of vertex `tetIndices[i][k]` and `volumes[i] * g` at its vertical
entry. -/
theorem dVdQ_apply (gradPsi : α → α → VecX α → VecX α) (pm : PhysicalMesh α) (qq : VecX α)
    (d : ℕ) :
    dVdQ gradPsi pm qq d
      = ∑ i in Finset.range pm.n_tet, ∑ k in Finset.range 4,
          ((if d / 3 = (pm.tetIndices.getD i []).getD k 0
              then mulVec 9 (pm.volumes.getD i 0 • transpose (pm.Bs.getD i 0))
                (gradPsi pm.C pm.D (getFFlat pm i qq)) (3 * k + d % 3)
              else 0)
            + (if d = (pm.tetIndices.getD i []).getD k 0 * 3 + 1
              then pm.volumes.getD i 0 * pm.g else 0)) := by
  unfold dVdQ
  have hinner : ∀ (i : ℕ) (acc : VecX α),
      (List.range 4).foldl
        (fun acc2 k =>
          let index := (pm.tetIndices.getD i []).getD k 0
          let a := addSegment acc2 index
            (segment (mulVec 9 (pm.volumes.getD i 0 • transpose (pm.Bs.getD i 0))
              (gradPsi pm.C pm.D (getFFlat pm i qq))) k)
          fun d => if d = index * 3 + 1 then a d + pm.volumes.getD i 0 * pm.g else a d)
        acc
      = fun d => acc d + ∑ k in Finset.range 4,
          ((if d / 3 = (pm.tetIndices.getD i []).getD k 0
              then mulVec 9 (pm.volumes.getD i 0 • transpose (pm.Bs.getD i 0))
                (gradPsi pm.C pm.D (getFFlat pm i qq)) (3 * k + d % 3)
              else 0)
            + (if d = (pm.tetIndices.getD i []).getD k 0 * 3 + 1
              then pm.volumes.getD i 0 * pm.g else 0)) := by
    intro i acc
    have hstep : (fun (acc2 : VecX α) k =>
          let index := (pm.tetIndices.getD i []).getD k 0
          let a := addSegment acc2 index
            (segment (mulVec 9 (pm.volumes.getD i 0 • transpose (pm.Bs.getD i 0))
              (gradPsi pm.C pm.D (getFFlat pm i qq))) k)
          fun d => if d = index * 3 + 1 then a d + pm.volumes.getD i 0 * pm.g else a d)
        = fun (a : VecX α) k => fun d => a d +
          ((if d / 3 = (pm.tetIndices.getD i []).getD k 0
              then mulVec 9 (pm.volumes.getD i 0 • transpose (pm.Bs.getD i 0))
                (gradPsi pm.C pm.D (getFFlat pm i qq)) (3 * k + d % 3)
              else 0)
            + (if d = (pm.tetIndices.getD i []).getD k 0 * 3 + 1
              then pm.volumes.getD i 0 * pm.g else 0)) := by
      funext acc2 k d
      simp only [addSegment, segment, Vec3.comp]
      split_ifs <;> ring
    rw [hstep]
    funext d
    rw [foldl_add_pointwise, sum_map_range]
  rw [foldl_range_pointwise _ _ (fun acc i => hinner i acc)]
  simp

/-- The matrix of the solutions for the columns of the identity is a right inverse. -/
theorem mulVec_inverse_columns (solve : Mat α → VecX α → VecX α) (N : ℕ) (A : Mat α)
    (hs : Solves N solve A) (b : VecX α) (d : ℕ) (hd : d < N) :
    mulVec N A (mulVec N (fun r c => solve A (fun e => if e = c then 1 else 0) r) b) d
      = b d := by
  unfold mulVec
  simp only [Finset.mul_sum]
  rw [Finset.sum_comm]
  have hcol : ∀ e ∈ Finset.range N,
      ∑ c in Finset.range N, A d c * (solve A (fun e2 => if e2 = e then 1 else 0) c * b e)
        = (if d = e then 1 else 0) * b e := by
    intro e _
    have h1 : ∑ c in Finset.range N, A d c * solve A (fun e2 => if e2 = e then 1 else 0) c
        = if d = e then 1 else 0 := hs (fun e2 => if e2 = e then 1 else 0) d hd
    rw [← h1, Finset.sum_mul]
    apply Finset.sum_congr rfl
    intro c _
    ring
  rw [Finset.sum_congr rfl hcol, Finset.sum_eq_single d]
  · simp
  · intro e _ hne
    simp [Ne.symm hne]
  · intro hnot
    exact absurd (Finset.mem_range.mpr hd) hnot

/-- On a call that computes the inverse, `forwardEulerStep` returns the solution of
`M v = M q_dot + h f`. -/
theorem forwardEulerStep_fresh (solve : Mat α → VecX α → VecX α)
    (gradPsi : α → α → VecX α → VecX α) (gl : Globals α) (pm : PhysicalMesh α)
    (hfresh : gl.inverseCalculated = false) (hs : Solves (3 * pm.n) solve pm.M)
    (d : ℕ) (hd : d < 3 * pm.n) :
    mulVec (3 * pm.n) pm.M (forwardEulerStep solve gradPsi gl pm).1 d
      = (mulVec (3 * pm.n) pm.M pm.q_dot + (h : α) • -dVdQ gradPsi pm pm.q) d := by
  simp only [forwardEulerStep, hfresh]
  exact mulVec_inverse_columns solve (3 * pm.n) pm.M hs _ d hd

/-- On a call that finds the flag set, `forwardEulerStep` multiplies by the cached matrix,
whatever object it was computed for. -/
theorem forwardEulerStep_cached (solve : Mat α → VecX α → VecX α)
    (gradPsi : α → α → VecX α → VecX α) (gl : Globals α) (pm : PhysicalMesh α)
    (hc : gl.inverseCalculated = true) :
    forwardEulerStep solve gradPsi gl pm
      = (mulVec (3 * pm.n) gl.M_inv
          (mulVec (3 * pm.n) pm.M pm.q_dot + (h : α) • -dVdQ gradPsi pm pm.q), gl) := by
  simp [forwardEulerStep, hc]

theorem single_tet_M (mesh : TetrahedralMesh α) (skinMesh : Mesh α)
    (hn : mesh.indices.length / 4 = 1) (hidx : tetIndexAt mesh 0 = [0, 1, 2, 3]) (r c : ℕ) :
    (PhysicalMesh.init mesh skinMesh).M r c
      = if r < 12 ∧ c < 12
        then vol (qTetOf [0, 1, 2, 3] (PhysicalMesh.init mesh skinMesh).q) * M_i r c / 20
        else 0 := by
  rw [init_M, hn, Finset.sum_range_one, hidx]
  have hrow : ∀ j, j < 12 → 3 * [0, 1, 2, 3].getD (j / 3) 0 + j % 3 = j := by
    intro j hj
    interval_cases j <;> simp
  have hsum : ∀ j ∈ Finset.range 12, ∀ k ∈ Finset.range 12,
      (if 3 * [0, 1, 2, 3].getD (j / 3) 0 + j % 3 = r
          ∧ 3 * [0, 1, 2, 3].getD (k / 3) 0 + k % 3 = c
        then vol (qTetOf [0, 1, 2, 3] (PhysicalMesh.init mesh skinMesh).q) * M_i j k / 20
        else 0)
      = if j = r ∧ k = c
        then vol (qTetOf [0, 1, 2, 3] (PhysicalMesh.init mesh skinMesh).q) * M_i j k / 20
        else 0 := by
    intro j hj k hk
    rw [hrow j (Finset.mem_range.mp hj), hrow k (Finset.mem_range.mp hk)]
  rw [Finset.sum_congr rfl (fun j hj => Finset.sum_congr rfl (hsum j hj))]
  by_cases hr : r < 12
  · by_cases hc : c < 12
    · rw [if_pos ⟨hr, hc⟩, Finset.sum_eq_single r, Finset.sum_eq_single c]
      · simp
      · intro k _ hk
        simp [hk]
      · intro hnot
        exact absurd (Finset.mem_range.mpr hc) hnot
      · intro j _ hj
        apply Finset.sum_eq_zero
        intro k _
        simp [hj]
      · intro hnot
        exact absurd (Finset.mem_range.mpr hr) hnot
    · rw [if_neg (fun hh => hc hh.2)]
      apply Finset.sum_eq_zero
      intro j _
      apply Finset.sum_eq_zero
      intro k hk
      have : k ≠ c := fun hh => hc (hh ▸ Finset.mem_range.mp hk)
      simp [this]
  · rw [if_neg (fun hh => hr hh.1)]
    apply Finset.sum_eq_zero
    intro j hj
    apply Finset.sum_eq_zero
    intro k _
    have : j ≠ r := fun hh => hr (hh ▸ Finset.mem_range.mp hj)
    simp [this]

theorem sum_mod3_class (f : ℕ → α) (m : ℕ) (hm : m < 3) :
    ∑ c in Finset.range 12, (if m = c % 3 then 1 else 0) * f c
      = f m + f (m + 3) + f (m + 6) + f (m + 9) := by
  interval_cases m <;> simp [Finset.sum_range_succ]

theorem tetMassSolve_solves (A : Mat α) (γ : α) (hγ : γ ≠ 0)
    (hA : ∀ r c, r < 12 → c < 12 → A r c = γ * M_i r c) :
    Solves 12 tetMassSolve A := by
  intro b d hd
  have hm : d % 3 < 3 := Nat.mod_lt d (by decide)
  have hx : ∀ c, c < 12 → tetMassSolve A b c
      = (b c - (b (c % 3) + b (c % 3 + 3) + b (c % 3 + 6) + b (c % 3 + 9)) / 5) / γ := by
    intro c hc
    unfold tetMassSolve
    rw [hA c c hc hc, M_i_diag c hc]
    congr 1
    field_simp
  have hsplit : mulVec 12 A (tetMassSolve A b) d
      = γ * tetMassSolve A b d
        + γ * ∑ c in Finset.range 12, (if d % 3 = c % 3 then 1 else 0) * tetMassSolve A b c := by
    unfold mulVec
    have hterm : ∀ c ∈ Finset.range 12, A d c * tetMassSolve A b c
        = γ * ((if d = c then 1 else 0) * tetMassSolve A b c)
          + γ * ((if d % 3 = c % 3 then 1 else 0) * tetMassSolve A b c) := by
      intro c hc
      rw [hA d c hd (Finset.mem_range.mp hc), M_i_eq d c hd (Finset.mem_range.mp hc)]
      ring
    rw [Finset.sum_congr rfl hterm, Finset.sum_add_distrib, ← Finset.mul_sum, ← Finset.mul_sum]
    congr 2
    rw [Finset.sum_eq_single d]
    · simp
    · intro c _ hne
      simp [Ne.symm hne]
    · intro hnot
      exact absurd (Finset.mem_range.mpr hd) hnot
  rw [hsplit, sum_mod3_class _ _ hm, hx d hd, hx (d % 3) (by omega), hx (d % 3 + 3) (by omega),
    hx (d % 3 + 6) (by omega), hx (d % 3 + 9) (by omega)]
  have e0 : d % 3 % 3 = d % 3 := by omega
  have e3 : (d % 3 + 3) % 3 = d % 3 := by omega
  have e6 : (d % 3 + 6) % 3 = d % 3 := by omega
  have e9 : (d % 3 + 9) % 3 = d % 3 := by omega
  rw [e0, e3, e6, e9]
  field_simp
  ring

theorem unitTet_vol :
    vol (qTetOf [0, 1, 2, 3] (PhysicalMesh.init (unitTet : TetrahedralMesh ℚ) emptySkin).q)
      = 1 / 6 := by
  rw [init_q, vol_eq_det]
  simp [det3, T_i, qTetOf, unitTet, Vec3.comp]

theorem bigTet_vol :
    vol (qTetOf [0, 1, 2, 3] (PhysicalMesh.init (bigTet : TetrahedralMesh ℚ) emptySkin).q)
      = 4 / 3 := by
  rw [init_q, vol_eq_det]
  simp [det3, T_i, qTetOf, bigTet, Vec3.comp]
  norm_num

theorem unitTet_M (r c : ℕ) :
    (PhysicalMesh.init (unitTet : TetrahedralMesh ℚ) emptySkin).M r c
      = if r < 12 ∧ c < 12 then 1 / 120 * M_i r c else 0 := by
  rw [single_tet_M unitTet emptySkin (by rfl) (by simp [tetIndexAt, unitTet]), unitTet_vol]
  split_ifs
  · ring
  · rfl

theorem bigTet_M (r c : ℕ) :
    (PhysicalMesh.init (bigTet : TetrahedralMesh ℚ) emptySkin).M r c
      = if r < 12 ∧ c < 12 then 1 / 15 * M_i r c else 0 := by
  rw [single_tet_M bigTet emptySkin (by rfl) (by simp [tetIndexAt, bigTet]), bigTet_vol]
  split_ifs
  · ring
  · rfl

theorem unitTet_solves :
    Solves (3 * (PhysicalMesh.init (unitTet : TetrahedralMesh ℚ) emptySkin).n) tetMassSolve
      (PhysicalMesh.init (unitTet : TetrahedralMesh ℚ) emptySkin).M := by
  rw [init_n]
  exact tetMassSolve_solves _ (1 / 120) (by norm_num)
    (fun r c hr hc => by rw [unitTet_M, if_pos ⟨hr, hc⟩])

theorem bigTet_solves :
    Solves (3 * (PhysicalMesh.init (bigTet : TetrahedralMesh ℚ) emptySkin).n) tetMassSolve
      (PhysicalMesh.init (bigTet : TetrahedralMesh ℚ) emptySkin).M := by
  rw [init_n]
  exact tetMassSolve_solves _ (1 / 15) (by norm_num)
    (fun r c hr hc => by rw [bigTet_M, if_pos ⟨hr, hc⟩])

theorem bigTet_rhs1 :
    (mulVec (3 * (PhysicalMesh.init (bigTet : TetrahedralMesh ℚ) emptySkin).n)
        (PhysicalMesh.init (bigTet : TetrahedralMesh ℚ) emptySkin).M
        (PhysicalMesh.init (bigTet : TetrahedralMesh ℚ) emptySkin).q_dot
      + (h : ℚ) • -dVdQ zeroGrad (PhysicalMesh.init (bigTet : TetrahedralMesh ℚ) emptySkin)
          (PhysicalMesh.init (bigTet : TetrahedralMesh ℚ) emptySkin).q) 1 = -1 / 250 := by
  have hn : (bigTet : TetrahedralMesh ℚ).indices.length / 4 = 1 := rfl
  have hidx : tetIndexAt (bigTet : TetrahedralMesh ℚ) 0 = [0, 1, 2, 3] := by
    simp [tetIndexAt, bigTet]
  have hg : dVdQ zeroGrad (PhysicalMesh.init (bigTet : TetrahedralMesh ℚ) emptySkin)
      (PhysicalMesh.init (bigTet : TetrahedralMesh ℚ) emptySkin).q 1 = 4 := by
    rw [dVdQ_apply, init_n_tet, hn, Finset.sum_range_one,
      init_tetIndices_getD _ _ 0 (by rw [hn]; decide),
      init_volumes_getD _ _ 0 (by rw [hn]; decide), hidx, bigTet_vol, init_g]
    simp [Finset.sum_range_succ, zeroGrad, mulVec]
  simp only [Pi.add_apply, Pi.smul_apply, Pi.neg_apply, smul_eq_mul, hg, init_q_dot]
  simp [mulVec, h]
  norm_num

/-- C11 (code bug): two objects, the unit tetrahedron and the tetrahedron scaled by 2, each
with an invertible mass matrix. After `forwardEulerStep` ran on the first object, the call on
the second object multiplies by the cached inverse of the first object's mass matrix: for the
returned `v`, entry 1 of `M v` is `-4/125`, eight times the entry `-1/250` of
`M q_dot + h f` that the step equation requires. -/
theorem forwardEulerStep_stale_cache :
    Solves (3 * (PhysicalMesh.init (bigTet : TetrahedralMesh ℚ) emptySkin).n) tetMassSolve
      (PhysicalMesh.init (bigTet : TetrahedralMesh ℚ) emptySkin).M ∧
    (mulVec (3 * (PhysicalMesh.init (bigTet : TetrahedralMesh ℚ) emptySkin).n)
        (PhysicalMesh.init (bigTet : TetrahedralMesh ℚ) emptySkin).M
        (PhysicalMesh.init (bigTet : TetrahedralMesh ℚ) emptySkin).q_dot
      + (h : ℚ) • -dVdQ zeroGrad (PhysicalMesh.init (bigTet : TetrahedralMesh ℚ) emptySkin)
          (PhysicalMesh.init (bigTet : TetrahedralMesh ℚ) emptySkin).q) 1 = -1 / 250 ∧
    mulVec (3 * (PhysicalMesh.init (bigTet : TetrahedralMesh ℚ) emptySkin).n)
      (PhysicalMesh.init (bigTet : TetrahedralMesh ℚ) emptySkin).M
      (forwardEulerStep tetMassSolve zeroGrad
        (forwardEulerStep tetMassSolve zeroGrad
          ({ inverseCalculated := false, M_inv := fun _ _ => 0 } : Globals ℚ)
          (PhysicalMesh.init (unitTet : TetrahedralMesh ℚ) emptySkin)).2
        (PhysicalMesh.init (bigTet : TetrahedralMesh ℚ) emptySkin)).1 1 = -4 / 125 := by
  refine ⟨bigTet_solves, bigTet_rhs1, ?_⟩
  have hgl : (forwardEulerStep tetMassSolve zeroGrad
      ({ inverseCalculated := false, M_inv := fun _ _ => 0 } : Globals ℚ)
      (PhysicalMesh.init (unitTet : TetrahedralMesh ℚ) emptySkin)).2
      = { inverseCalculated := true
          M_inv := fun r c => tetMassSolve
            (PhysicalMesh.init (unitTet : TetrahedralMesh ℚ) emptySkin).M
            (fun d => if d = c then 1 else 0) r } := by
    simp [forwardEulerStep]
  rw [hgl, forwardEulerStep_cached _ _ _ _ rfl]
  simp only
  have hb := bigTet_rhs1
  have hn2 : (PhysicalMesh.init (bigTet : TetrahedralMesh ℚ) emptySkin).n = 4 := by
    rw [init_n]
    rfl
  have hn1 : (PhysicalMesh.init (unitTet : TetrahedralMesh ℚ) emptySkin).n = 4 := by
    rw [init_n]
    rfl
  have hs1 := unitTet_solves
  rw [hn1] at hs1
  rw [hn2] at hb ⊢
  generalize mulVec (3 * 4) (PhysicalMesh.init (bigTet : TetrahedralMesh ℚ) emptySkin).M
      (PhysicalMesh.init (bigTet : TetrahedralMesh ℚ) emptySkin).q_dot
    + (h : ℚ) • -dVdQ zeroGrad (PhysicalMesh.init (bigTet : TetrahedralMesh ℚ) emptySkin)
        (PhysicalMesh.init (bigTet : TetrahedralMesh ℚ) emptySkin).q = b at hb ⊢
  have key : ∀ x : VecX ℚ,
      mulVec (3 * 4) (PhysicalMesh.init (bigTet : TetrahedralMesh ℚ) emptySkin).M x 1
        = 8 * mulVec (3 * 4) (PhysicalMesh.init (unitTet : TetrahedralMesh ℚ) emptySkin).M x 1 := by
    intro x
    unfold mulVec
    rw [Finset.mul_sum]
    apply Finset.sum_congr rfl
    intro c _
    rw [bigTet_M, unitTet_M]
    split_ifs <;> ring
  rw [key, mulVec_inverse_columns tetMassSolve _ _ hs1 b 1 (by decide), hb]
  norm_num

theorem gdLoop_spec (normX : VecX α → α) (gradPsi : α → α → VecX α → VecX α)
    (pm : PhysicalMesh α) (a tol : α) (fuel : ℕ) (v : VecX α) :
    (gdLoop normX gradPsi pm a tol fuel v).2 ≤ fuel ∧
    (gdLoop normX gradPsi pm a tol fuel v).1
      = (fun w => w + a • -dEdV gradPsi pm w)^[(gdLoop normX gradPsi pm a tol fuel v).2] v ∧
    ((gdLoop normX gradPsi pm a tol fuel v).2 < fuel →
      normX (dEdV gradPsi pm (gdLoop normX gradPsi pm a tol fuel v).1) < tol) ∧
    (∀ k, k < (gdLoop normX gradPsi pm a tol fuel v).2 →
      ¬ normX (dEdV gradPsi pm ((fun w => w + a • -dEdV gradPsi pm w)^[k] v)) < tol) := by
  induction fuel generalizing v with
  | zero =>
    refine ⟨le_refl 0, rfl, ?_, ?_⟩
    · intro hlt
      exact absurd hlt (lt_irrefl 0)
    · intro k hk
      exact absurd hk (Nat.not_lt_zero k)
  | succ fuel ih =>
    by_cases hc : normX (dEdV gradPsi pm v) < tol
    · have hr : gdLoop normX gradPsi pm a tol (fuel + 1) v = (v, 0) := by
        simp [gdLoop, hc]
      rw [hr]
      refine ⟨Nat.zero_le _, rfl, fun _ => hc, ?_⟩
      intro k hk
      exact absurd hk (Nat.not_lt_zero k)
    · have hr : gdLoop normX gradPsi pm a tol (fuel + 1) v
          = ((gdLoop normX gradPsi pm a tol fuel (v + a • -dEdV gradPsi pm v)).1,
             (gdLoop normX gradPsi pm a tol fuel (v + a • -dEdV gradPsi pm v)).2 + 1) := by
        simp [gdLoop, hc]
      obtain ⟨h1, h2, h3, h4⟩ := ih (v + a • -dEdV gradPsi pm v)
      rw [hr]
      refine ⟨Nat.succ_le_succ h1, ?_, ?_, ?_⟩
      · simp only
        rw [Function.iterate_succ_apply]
        exact h2
      · intro hlt
        exact h3 (Nat.lt_of_succ_lt_succ hlt)
      · intro k hk
        cases k with
        | zero => exact hc
        | succ k =>
          rw [Function.iterate_succ_apply]
          exact h4 k (Nat.lt_of_succ_lt_succ hk)

/-- C20: `gradiendDescent(a, tol, verbose)` is total, starts from `q_dot` and performs
`N ≤ 100` updates `v ← v + a (-dEdV(v)) = v - a dEdV(v)`; none of the iterates before the
last has gradient norm below `tol`; if `N < 100` the returned iterate has gradient norm below
`tol`; and if `|dEdV(q_dot)| < tol` it returns `q_dot` unchanged. -/
theorem gradiendDescent_spec (normX : VecX α → α) (gradPsi : α → α → VecX α → VecX α)
    (pm : PhysicalMesh α) (a tol : α) (verbose : Bool) :
    (gdLoop normX gradPsi pm a tol 100 pm.q_dot).2 ≤ 100 ∧
    gradiendDescent normX gradPsi pm a tol verbose
      = (fun w => w - a • dEdV gradPsi pm w)^[(gdLoop normX gradPsi pm a tol 100 pm.q_dot).2]
          pm.q_dot ∧
    ((gdLoop normX gradPsi pm a tol 100 pm.q_dot).2 < 100 →
      normX (dEdV gradPsi pm (gradiendDescent normX gradPsi pm a tol verbose)) < tol) ∧
    (∀ k, k < (gdLoop normX gradPsi pm a tol 100 pm.q_dot).2 →
      ¬ normX (dEdV gradPsi pm ((fun w => w - a • dEdV gradPsi pm w)^[k] pm.q_dot)) < tol) ∧
    (normX (dEdV gradPsi pm pm.q_dot) < tol →
      gradiendDescent normX gradPsi pm a tol verbose = pm.q_dot) := by
  have hstep : (fun w : VecX α => w - a • dEdV gradPsi pm w)
      = fun w => w + a • -dEdV gradPsi pm w := by
    funext w
    rw [smul_neg, sub_eq_add_neg]
  obtain ⟨h1, h2, h3, h4⟩ := gdLoop_spec normX gradPsi pm a tol 100 pm.q_dot
  rw [hstep]
  refine ⟨h1, h2, h3, h4, ?_⟩
  intro hc
  unfold gradiendDescent
  simp [gdLoop, hc]

theorem unitTet_dVdQ (qq : VecX ℚ) (d : ℕ) (hd : d < 12) :
    dVdQ zeroGrad (PhysicalMesh.init (unitTet : TetrahedralMesh ℚ) emptySkin) qq d
      = if d % 3 = 1 then 1 / 2 else 0 := by
  have hn : (unitTet : TetrahedralMesh ℚ).indices.length / 4 = 1 := rfl
  have hidx : tetIndexAt (unitTet : TetrahedralMesh ℚ) 0 = [0, 1, 2, 3] := by
    simp [tetIndexAt, unitTet]
  rw [dVdQ_apply, init_n_tet, hn, Finset.sum_range_one,
    init_tetIndices_getD _ _ 0 (by rw [hn]; decide),
    init_volumes_getD _ _ 0 (by rw [hn]; decide), hidx, unitTet_vol, init_g]
  interval_cases d <;> simp [Finset.sum_range_succ, zeroGrad, mulVec] <;> norm_num

theorem unitTet_dEdV_rest (d : ℕ) (hd : d < 12) :
    dEdV zeroGrad (PhysicalMesh.init (unitTet : TetrahedralMesh ℚ) emptySkin)
        (PhysicalMesh.init (unitTet : TetrahedralMesh ℚ) emptySkin).q_dot d
      = if d % 3 = 1 then 1 / 2000 else 0 := by
  simp only [dEdV, Pi.add_apply, Pi.smul_apply, smul_eq_mul, unitTet_dVdQ _ d hd, sub_self]
  have h0 : mulVec (3 * (PhysicalMesh.init (unitTet : TetrahedralMesh ℚ) emptySkin).n)
      (PhysicalMesh.init (unitTet : TetrahedralMesh ℚ) emptySkin).M 0 d = 0 := by
    simp [mulVec]
  rw [h0]
  split_ifs
  · simp [h]
    norm_num
  · simp

/-- Witness of C20: for the unit tetrahedron under gravity alone, with the 1-norm and
tolerance 1, the gradient at `q_dot` is below the tolerance and `q_dot` is returned. -/
theorem gradiendDescent_spec_witness :
    gradiendDescent (fun x : VecX ℚ => ∑ d in Finset.range 12, |x d|) zeroGrad
        (PhysicalMesh.init (unitTet : TetrahedralMesh ℚ) emptySkin) 20 1 false
      = (PhysicalMesh.init (unitTet : TetrahedralMesh ℚ) emptySkin).q_dot :=
  (gradiendDescent_spec (fun x : VecX ℚ => ∑ d in Finset.range 12, |x d|) zeroGrad
    (PhysicalMesh.init (unitTet : TetrahedralMesh ℚ) emptySkin) 20 1 false).2.2.2.2
    (by
      rw [Finset.sum_congr rfl (fun d hd => by rw [unitTet_dEdV_rest d (Finset.mem_range.mp hd)])]
      simp [Finset.sum_range_succ]
      rw [abs_of_pos (by norm_num : (0 : ℚ) < 2000⁻¹)]
      norm_num)

/-- C17 (as amended): no step has an error path; whatever the solver returns, also for a
singular system, is integrated. Mass-spring: on every non-fixed vertex the new velocity is
the solver's answer `x` for `(M + h² K) x = M q_dot + h f` and the new position is
`q + h x`. FEM: `simulationStep` integrates the vector returned by `forwardEulerStep`, which on
a call that computes the inverse is the product of the solver's answers for the columns of the
identity with `M q_dot + h f`; `backwardEulerLinearStep` returns the solver's answer for
`M + h² K`, `K = -ddVddQ(q)`. -/
theorem step_integrates_solver_result (norm : Vec3 α → α) (solve : Mat α → VecX α → VecX α)
    (gradPsi : α → α → VecX α → VecX α) (psi_hessian : α → α → VecX α → Mat α)
    (ms : MassSpring.PhysicalMesh α) (hh : α) (pm : PhysicalMesh α) (gl : Globals α) :
    (∀ d, d / 3 ∉ ms.fixed_points →
      (MassSpring.simulationStep norm solve ms hh).q_dot d
        = solve (ms.M + (hh * hh) • (MassSpring.assemble norm ms).2)
            (mulVec (3 * ms.n) ms.M ms.q_dot + hh • (MassSpring.assemble norm ms).1) d ∧
      (MassSpring.simulationStep norm solve ms hh).q d
        = ms.q d + hh * solve (ms.M + (hh * hh) • (MassSpring.assemble norm ms).2)
            (mulVec (3 * ms.n) ms.M ms.q_dot + hh • (MassSpring.assemble norm ms).1) d) ∧
    (simulationStep solve gradPsi (pm, gl)).1
      = integrate pm (forwardEulerStep solve gradPsi gl pm).1 ∧
    (∀ v, (integrate pm v).q = pm.q + (h : α) • floorClamp pm v ∧
      (integrate pm v).q_dot = floorClamp pm v) ∧
    (gl.inverseCalculated = false →
      (forwardEulerStep solve gradPsi gl pm).1
        = mulVec (3 * pm.n) (fun r c => solve pm.M (fun e => if e = c then 1 else 0) r)
            (mulVec (3 * pm.n) pm.M pm.q_dot + (h : α) • -dVdQ gradPsi pm pm.q)) ∧
    backwardEulerLinearStep solve gradPsi psi_hessian pm
      = solve (pm.M + ((h : α) * h) • -ddVddQ psi_hessian pm pm.q)
          (mulVec (3 * pm.n) pm.M pm.q_dot + (h : α) • -dVdQ gradPsi pm pm.q) := by
  refine ⟨?_, rfl, fun v => ⟨rfl, rfl⟩, ?_, rfl⟩
  · intro d hd
    have hv : (MassSpring.simulationStep norm solve ms hh).q_dot d
        = solve (ms.M + (hh * hh) • (MassSpring.assemble norm ms).2)
            (mulVec (3 * ms.n) ms.M ms.q_dot + hh • (MassSpring.assemble norm ms).1) d := by
      simp only [MassSpring.simulationStep, MassSpring.backwardEulerStep, MassSpring.new_q_dot,
        MassSpring.foldl_scaleSegment_zero, hd, if_false]
    refine ⟨hv, ?_⟩
    rw [← hv]
    simp only [MassSpring.simulationStep, MassSpring.backwardEulerStep, Pi.add_apply,
      Pi.smul_apply, smul_eq_mul]
  · intro hfresh
    simp only [forwardEulerStep, hfresh]
    rfl


/-- C17 (counterexample): the triangle with particle mass `m = 0`, stiffness matrix disabled:
the system matrix `M + h² K` is zero, hence singular; with a solver answering the vector of
ones the step with `h = 1` raises nothing and changes `q` and `q_dot`. -/
theorem singular_step_integrates :
    (∀ r c, ((MassSpring.PhysicalMesh.init (fun v : Vec3 ℝ => Real.sqrt (dot v v))
          triangleMesh 0 1 0 []).M
        + ((1 : ℝ) * 1) • (MassSpring.assemble (fun v : Vec3 ℝ => Real.sqrt (dot v v))
          (MassSpring.PhysicalMesh.init (fun v : Vec3 ℝ => Real.sqrt (dot v v))
            triangleMesh 0 1 0 [])).2) r c = 0) ∧
    (MassSpring.simulationStep (fun v : Vec3 ℝ => Real.sqrt (dot v v)) onesSolve
        (MassSpring.PhysicalMesh.init (fun v : Vec3 ℝ => Real.sqrt (dot v v))
          triangleMesh 0 1 0 []) 1).q 0
      ≠ (MassSpring.PhysicalMesh.init (fun v : Vec3 ℝ => Real.sqrt (dot v v))
          triangleMesh 0 1 0 []).q 0 ∧
    (MassSpring.simulationStep (fun v : Vec3 ℝ => Real.sqrt (dot v v)) onesSolve
        (MassSpring.PhysicalMesh.init (fun v : Vec3 ℝ => Real.sqrt (dot v v))
          triangleMesh 0 1 0 []) 1).q_dot 0
      ≠ (MassSpring.PhysicalMesh.init (fun v : Vec3 ℝ => Real.sqrt (dot v v))
          triangleMesh 0 1 0 []).q_dot 0 := by
  refine ⟨?_, ?_, ?_⟩
  · intro r c
    rw [MassSpring.assemble_snd _ _ rfl]
    simp [MassSpring.PhysicalMesh.init]
  · simp [MassSpring.simulationStep, MassSpring.backwardEulerStep, MassSpring.new_q_dot,
      MassSpring.PhysicalMesh.init, onesSolve]
  · simp [MassSpring.simulationStep, MassSpring.backwardEulerStep, MassSpring.new_q_dot,
      MassSpring.PhysicalMesh.init, onesSolve]

/-- Witness of C17: the free vertex 1 of the triangle with the fixed-point list `[0]`. -/
theorem step_integrates_solver_result_witness :
    (MassSpring.simulationStep (fun v : Vec3 ℝ => Real.sqrt (dot v v)) onesSolve
        (MassSpring.PhysicalMesh.init (fun v : Vec3 ℝ => Real.sqrt (dot v v))
          triangleMesh 1 1 0 [0]) 1).q_dot 3
      = onesSolve
          ((MassSpring.PhysicalMesh.init (fun v : Vec3 ℝ => Real.sqrt (dot v v))
              triangleMesh 1 1 0 [0]).M
            + ((1 : ℝ) * 1) • (MassSpring.assemble (fun v : Vec3 ℝ => Real.sqrt (dot v v))
              (MassSpring.PhysicalMesh.init (fun v : Vec3 ℝ => Real.sqrt (dot v v))
                triangleMesh 1 1 0 [0])).2)
          (mulVec (3 * (MassSpring.PhysicalMesh.init (fun v : Vec3 ℝ => Real.sqrt (dot v v))
              triangleMesh 1 1 0 [0]).n)
              (MassSpring.PhysicalMesh.init (fun v : Vec3 ℝ => Real.sqrt (dot v v))
                triangleMesh 1 1 0 [0]).M
              (MassSpring.PhysicalMesh.init (fun v : Vec3 ℝ => Real.sqrt (dot v v))
                triangleMesh 1 1 0 [0]).q_dot
            + (1 : ℝ) • (MassSpring.assemble (fun v : Vec3 ℝ => Real.sqrt (dot v v))
              (MassSpring.PhysicalMesh.init (fun v : Vec3 ℝ => Real.sqrt (dot v v))
                triangleMesh 1 1 0 [0])).1) 3 :=
  ((step_integrates_solver_result (fun v : Vec3 ℝ => Real.sqrt (dot v v)) onesSolve zeroGrad
      identityHessian
      (MassSpring.PhysicalMesh.init (fun v : Vec3 ℝ => Real.sqrt (dot v v))
        triangleMesh 1 1 0 [0]) 1
      (PhysicalMesh.init (unitTet : TetrahedralMesh ℝ) emptySkin)
      { inverseCalculated := false, M_inv := fun _ _ => 0 }).1 3
    (by simp [MassSpring.PhysicalMesh.init])).1

/-- Witness of C18: the entry `(0, 0)` of the deformation gradient of the unit tetrahedron at
rest. -/
theorem Bs_mul_getQTet_witness :
    getFFlat (PhysicalMesh.init (unitTet : TetrahedralMesh ℚ) emptySkin) 0
        (PhysicalMesh.init (unitTet : TetrahedralMesh ℚ) emptySkin).q (3 * 0 + 0)
      = getFMat (PhysicalMesh.init (unitTet : TetrahedralMesh ℚ) emptySkin) 0
          (PhysicalMesh.init (unitTet : TetrahedralMesh ℚ) emptySkin).q 0 0 :=
  (Bs_mul_getQTet (unitTet : TetrahedralMesh ℚ) emptySkin 0
    (PhysicalMesh.init (unitTet : TetrahedralMesh ℚ) emptySkin).q).2 0 0 (by decide) (by decide)

theorem det3_eq_det (T : Mat α) :
    det3 T = Matrix.det (Matrix.of fun (i j : Fin 3) => T i.val j.val) := by
  rw [Matrix.det_fin_three]
  simp [det3]
  ring

/-- A 3×3 matrix has a left inverse exactly when its determinant is not zero. -/
theorem det3_ne_zero_iff (T : Mat α) :
    det3 T ≠ 0 ↔ ∃ B : Mat α, ∀ r c, r < 3 → c < 3 →
      ∑ t in Finset.range 3, B r t * T t c = if r = c then 1 else 0 := by
  constructor
  · intro hdet
    exact ⟨inverse3 T, fun r c hr hc => inverse3_mul T hdet r c hr hc⟩
  · rintro ⟨B, hB⟩ hdet
    have hmul : (Matrix.of fun (i j : Fin 3) => B i.val j.val)
        * (Matrix.of fun (i j : Fin 3) => T i.val j.val) = 1 := by
      ext i j
      rw [Matrix.mul_apply, Fin.sum_univ_three]
      have := hB i.val j.val i.isLt j.isLt
      simp only [Finset.sum_range_succ, Finset.sum_range_zero, zero_add] at this
      simp only [Matrix.of_apply, Fin.val_zero, Fin.val_one, Fin.val_two]
      rw [this, Matrix.one_apply]
      simp [Fin.ext_iff]
    have h1 := congrArg Matrix.det hmul
    rw [Matrix.det_mul, ← det3_eq_det T, hdet, mul_zero, Matrix.det_one] at h1
    exact zero_ne_one h1

theorem triple_eq_det (qTet : VecX α) :
    dot (cross (segment qTet 1 - segment qTet 0) (segment qTet 2 - segment qTet 0))
        (segment qTet 3 - segment qTet 0)
      = det3 (T_i qTet) := by
  simp [dot, cross, segment, det3, T_i]
  ring

/-- C22: for every tetrahedron the stored volume is `|det T_i| / 6`, `T_i` the matrix with
the columns `q1 - q0`, `q2 - q0`, `q3 - q0`, whose determinant is the scalar triple product of
these edge vectors; so the volume is `≥ 0`, and it is strictly positive exactly when `T_i` is
invertible (`det T_i ≠ 0`, equivalently `T_i` has an inverse). -/
theorem volume_spec (mesh : TetrahedralMesh α) (skinMesh : Mesh α) (i : ℕ)
    (hi : i < mesh.indices.length / 4) :
    (∀ r, r < 3 →
      (PhysicalMesh.init mesh skinMesh).Ts.getD i 0 r 0
        = qTetOf (tetIndexAt mesh i) (PhysicalMesh.init mesh skinMesh).q (3 + r)
          - qTetOf (tetIndexAt mesh i) (PhysicalMesh.init mesh skinMesh).q r ∧
      (PhysicalMesh.init mesh skinMesh).Ts.getD i 0 r 1
        = qTetOf (tetIndexAt mesh i) (PhysicalMesh.init mesh skinMesh).q (6 + r)
          - qTetOf (tetIndexAt mesh i) (PhysicalMesh.init mesh skinMesh).q r ∧
      (PhysicalMesh.init mesh skinMesh).Ts.getD i 0 r 2
        = qTetOf (tetIndexAt mesh i) (PhysicalMesh.init mesh skinMesh).q (9 + r)
          - qTetOf (tetIndexAt mesh i) (PhysicalMesh.init mesh skinMesh).q r) ∧
    dot (cross
          (segment (qTetOf (tetIndexAt mesh i) (PhysicalMesh.init mesh skinMesh).q) 1
            - segment (qTetOf (tetIndexAt mesh i) (PhysicalMesh.init mesh skinMesh).q) 0)
          (segment (qTetOf (tetIndexAt mesh i) (PhysicalMesh.init mesh skinMesh).q) 2
            - segment (qTetOf (tetIndexAt mesh i) (PhysicalMesh.init mesh skinMesh).q) 0))
        (segment (qTetOf (tetIndexAt mesh i) (PhysicalMesh.init mesh skinMesh).q) 3
          - segment (qTetOf (tetIndexAt mesh i) (PhysicalMesh.init mesh skinMesh).q) 0)
      = det3 ((PhysicalMesh.init mesh skinMesh).Ts.getD i 0) ∧
    (PhysicalMesh.init mesh skinMesh).volumes.getD i 0
      = |det3 ((PhysicalMesh.init mesh skinMesh).Ts.getD i 0)| / 6 ∧
    0 ≤ (PhysicalMesh.init mesh skinMesh).volumes.getD i 0 ∧
    (0 < (PhysicalMesh.init mesh skinMesh).volumes.getD i 0
      ↔ det3 ((PhysicalMesh.init mesh skinMesh).Ts.getD i 0) ≠ 0) ∧
    (0 < (PhysicalMesh.init mesh skinMesh).volumes.getD i 0
      ↔ ∃ B : Mat α, ∀ r c, r < 3 → c < 3 →
          ∑ t in Finset.range 3, B r t * (PhysicalMesh.init mesh skinMesh).Ts.getD i 0 t c
            = if r = c then 1 else 0) := by
  rw [init_volumes_getD mesh skinMesh i hi, init_Ts_getD mesh skinMesh i hi, vol_eq_det]
  have hpos : 0 < |det3 (T_i (qTetOf (tetIndexAt mesh i) (PhysicalMesh.init mesh skinMesh).q))| / 6
      ↔ det3 (T_i (qTetOf (tetIndexAt mesh i) (PhysicalMesh.init mesh skinMesh).q)) ≠ 0 := by
    constructor
    · intro h0 hdet
      rw [hdet, abs_zero, zero_div] at h0
      exact lt_irrefl 0 h0
    · intro hdet
      exact div_pos (abs_pos.mpr hdet) (by norm_num)
  refine ⟨?_, triple_eq_det _, rfl, div_nonneg (abs_nonneg _) (by norm_num), hpos, ?_⟩
  · intro r hr
    simp [T_i, hr]
  · rw [hpos]
    exact det3_ne_zero_iff _


/-- Witness of C22: the unit tetrahedron has volume `|det T_0| / 6`. -/
theorem volume_spec_witness :
    (PhysicalMesh.init (unitTet : TetrahedralMesh ℚ) emptySkin).volumes.getD 0 0
      = |det3 ((PhysicalMesh.init (unitTet : TetrahedralMesh ℚ) emptySkin).Ts.getD 0 0)| / 6 :=
  (volume_spec (unitTet : TetrahedralMesh ℚ) emptySkin 0 (by decide)).2.2.1

theorem getFMat_init (mesh : TetrahedralMesh α) (skinMesh : Mesh α) (i : ℕ)
    (hi : i < mesh.indices.length / 4) (qq : VecX α) (r c : ℕ) (hr : r < 3) (hc : c < 3) :
    getFMat (PhysicalMesh.init mesh skinMesh) i qq r c
      = ∑ k in Finset.range 3,
          (getQTet (PhysicalMesh.init mesh skinMesh).tetIndices i qq (3 * (k + 1) + r)
            - getQTet (PhysicalMesh.init mesh skinMesh).tetIndices i qq r)
          * inverse3 (T_i (getQTet (PhysicalMesh.init mesh skinMesh).tetIndices i
              (PhysicalMesh.init mesh skinMesh).q)) k c := by
  unfold getFMat matMul
  simp only [hr, hc, and_self, if_true]
  rw [init_Ds_getD mesh skinMesh i hi]
  unfold getQTet
  rw [init_tetIndices_getD mesh skinMesh i hi]
  simp [D_i, hc, Finset.sum_range_succ]
  ring

theorem getQTet_translate (tetIndices : List (List ℕ)) (i : ℕ) (qq : VecX α) (t : Vec3 α)
    (d : ℕ) (hd : d < 12) :
    getQTet tetIndices i (fun e => qq e + t.comp e) d
      = getQTet tetIndices i qq d + t.comp d := by
  unfold getQTet qTetOf
  rw [if_pos hd, if_pos hd]
  have hm : (3 * (tetIndices.getD i []).getD (d / 3) 0 + d % 3) % 3 = d % 3 := by omega
  simp only [Vec3.comp, hm]

/-- C24: for a tetrahedron `i` whose reference shape matrix is invertible, and every state
`qq`, the deformation gradient `F = getFMat(i, qq)` maps the undeformed edge vectors to the
deformed ones, `F * (X_j - X_0) = x_j - x_0` for `j = 1, 2, 3` (`X` the vertex positions at
construction, `x` those in `qq`); `F` is the identity at the rest state; each column of
`Ds[i]` sums to zero, and `F` is unchanged when all vertices are translated by one vector. -/
theorem deformation_gradient_spec (mesh : TetrahedralMesh α) (skinMesh : Mesh α) (i : ℕ)
    (hi : i < mesh.indices.length / 4)
    (hdet : det3 ((PhysicalMesh.init mesh skinMesh).Ts.getD i 0) ≠ 0) :
    (∀ (qq : VecX α) (j r : ℕ), j < 3 → r < 3 →
      ∑ c in Finset.range 3, getFMat (PhysicalMesh.init mesh skinMesh) i qq r c
          * (getQTet (PhysicalMesh.init mesh skinMesh).tetIndices i
                (PhysicalMesh.init mesh skinMesh).q (3 * (j + 1) + c)
              - getQTet (PhysicalMesh.init mesh skinMesh).tetIndices i
                (PhysicalMesh.init mesh skinMesh).q c)
        = getQTet (PhysicalMesh.init mesh skinMesh).tetIndices i qq (3 * (j + 1) + r)
          - getQTet (PhysicalMesh.init mesh skinMesh).tetIndices i qq r) ∧
    (∀ r c, r < 3 → c < 3 →
      getFMat (PhysicalMesh.init mesh skinMesh) i (PhysicalMesh.init mesh skinMesh).q r c
        = if r = c then 1 else 0) ∧
    (∀ c, ∑ j in Finset.range 4, (PhysicalMesh.init mesh skinMesh).Ds.getD i 0 j c = 0) ∧
    (∀ (qq : VecX α) (t : Vec3 α),
      getFMat (PhysicalMesh.init mesh skinMesh) i (fun e => qq e + t.comp e)
        = getFMat (PhysicalMesh.init mesh skinMesh) i qq) := by
  have hT : (PhysicalMesh.init mesh skinMesh).Ts.getD i 0
      = T_i (getQTet (PhysicalMesh.init mesh skinMesh).tetIndices i
          (PhysicalMesh.init mesh skinMesh).q) := by
    rw [init_Ts_getD mesh skinMesh i hi]
    unfold getQTet
    rw [init_tetIndices_getD mesh skinMesh i hi]
  rw [hT] at hdet
  have hcol : ∀ (X : VecX α) (j c : ℕ), j < 3 → c < 3 →
      X (3 * (j + 1) + c) - X c = T_i X c j := by
    intro X j c hj hc
    interval_cases j <;> simp [T_i, hc]
  refine ⟨?_, ?_, ?_, ?_⟩
  · intro qq j r hj hr
    have hterm : ∀ c ∈ Finset.range 3,
        getFMat (PhysicalMesh.init mesh skinMesh) i qq r c
          * (getQTet (PhysicalMesh.init mesh skinMesh).tetIndices i
                (PhysicalMesh.init mesh skinMesh).q (3 * (j + 1) + c)
              - getQTet (PhysicalMesh.init mesh skinMesh).tetIndices i
                (PhysicalMesh.init mesh skinMesh).q c)
        = ∑ k in Finset.range 3,
            (getQTet (PhysicalMesh.init mesh skinMesh).tetIndices i qq (3 * (k + 1) + r)
              - getQTet (PhysicalMesh.init mesh skinMesh).tetIndices i qq r)
            * (inverse3 (T_i (getQTet (PhysicalMesh.init mesh skinMesh).tetIndices i
                (PhysicalMesh.init mesh skinMesh).q)) k c
              * T_i (getQTet (PhysicalMesh.init mesh skinMesh).tetIndices i
                (PhysicalMesh.init mesh skinMesh).q) c j) := by
      intro c hc
      have hc3 : c < 3 := Finset.mem_range.mp hc
      rw [getFMat_init mesh skinMesh i hi qq r c hr hc3, hcol _ j c hj hc3, Finset.sum_mul]
      exact Finset.sum_congr rfl (fun k _ => by ring)
    rw [Finset.sum_congr rfl hterm, Finset.sum_comm]
    have hk : ∀ k ∈ Finset.range 3,
        ∑ c in Finset.range 3,
            (getQTet (PhysicalMesh.init mesh skinMesh).tetIndices i qq (3 * (k + 1) + r)
              - getQTet (PhysicalMesh.init mesh skinMesh).tetIndices i qq r)
            * (inverse3 (T_i (getQTet (PhysicalMesh.init mesh skinMesh).tetIndices i
                (PhysicalMesh.init mesh skinMesh).q)) k c
              * T_i (getQTet (PhysicalMesh.init mesh skinMesh).tetIndices i
                (PhysicalMesh.init mesh skinMesh).q) c j)
        = if k = j then
            getQTet (PhysicalMesh.init mesh skinMesh).tetIndices i qq (3 * (k + 1) + r)
              - getQTet (PhysicalMesh.init mesh skinMesh).tetIndices i qq r
          else 0 := by
      intro k hk
      rw [← Finset.mul_sum, inverse3_mul _ hdet k j (Finset.mem_range.mp hk) hj]
      split_ifs <;> simp
    rw [Finset.sum_congr rfl hk, Finset.sum_eq_single j]
    · rw [if_pos rfl]
    · intro b _ hb
      rw [if_neg hb]
    · intro hj2
      exact absurd (Finset.mem_range.mpr hj) hj2
  · intro r c hr hc
    rw [getFMat_init mesh skinMesh i hi _ r c hr hc]
    rw [← mul_inverse3 _ hdet r c hr hc]
    refine Finset.sum_congr rfl (fun k hk => ?_)
    rw [hcol _ k r (Finset.mem_range.mp hk) hr]
  · intro c
    rw [init_Ds_getD mesh skinMesh i hi]
    by_cases hc : c < 3
    · simp [D_i, hc, Finset.sum_range_succ]
      ring
    · simp [D_i, hc]
  · intro qq t
    funext r c
    by_cases hrc : r < 3 ∧ c < 3
    · rw [getFMat_init mesh skinMesh i hi _ r c hrc.1 hrc.2,
        getFMat_init mesh skinMesh i hi _ r c hrc.1 hrc.2]
      refine Finset.sum_congr rfl (fun k hk => ?_)
      have hk3 : k < 3 := Finset.mem_range.mp hk
      rw [getQTet_translate _ _ _ _ _ (by omega), getQTet_translate _ _ _ _ _ (by omega)]
      have hm : (3 * (k + 1) + r) % 3 = r % 3 := by omega
      simp only [Vec3.comp, hm]
      ring
    · unfold getFMat
      simp only [hrc, if_false]


theorem unitTet_Ts_det :
    det3 ((PhysicalMesh.init (unitTet : TetrahedralMesh ℚ) emptySkin).Ts.getD 0 0) ≠ 0 := by
  rw [init_Ts_getD _ _ 0 (by decide), init_q]
  norm_num [det3, T_i, qTetOf, tetIndexAt, unitTet, Vec3.comp]

/-- Witness of C24: entry `(0, 0)` of the deformation gradient of the unit tetrahedron at rest
is `1`. -/
theorem deformation_gradient_spec_witness :
    getFMat (PhysicalMesh.init (unitTet : TetrahedralMesh ℚ) emptySkin) 0
        (PhysicalMesh.init (unitTet : TetrahedralMesh ℚ) emptySkin).q 0 0 = 1 :=
  (deformation_gradient_spec (unitTet : TetrahedralMesh ℚ) emptySkin 0 (by decide)
    unitTet_Ts_det).2.1 0 0 (by decide) (by decide)

theorem skinWeights_row_sum (phi : Vec3 α) (r : ℕ) (hr : r < 3) :
    ∑ c in Finset.range 12, skinWeights phi r c = 1 := by
  interval_cases r <;> simp [skinWeights, Finset.sum_range_succ] <;> ring

theorem skinWeights_apply (phi : Vec3 α) (X : VecX α) (r : ℕ) (hr : r < 3) :
    ∑ c in Finset.range 12, skinWeights phi r c * X c
      = (1 - phi 0 - phi 1 - phi 2) * X r + phi 0 * X (3 + r) + phi 1 * X (6 + r)
        + phi 2 * X (9 + r) := by
  interval_cases r <;> simp [skinWeights, Finset.sum_range_succ]

theorem skinWeights_rest (X : VecX α) (v : Vec3 α) (hdet : det3 (T_i X) ≠ 0) (r : Fin 3) :
    ∑ c in Finset.range 12,
        skinWeights (skinPhi (inverse3 (T_i X)) (segment X 0) v) r.val c * X c
      = v r := by
  rw [skinWeights_apply _ _ _ r.isLt]
  have h0 := mul_inverse3 (T_i X) hdet r.val 0 r.isLt (by norm_num)
  have h1 := mul_inverse3 (T_i X) hdet r.val 1 r.isLt (by norm_num)
  have h2 := mul_inverse3 (T_i X) hdet r.val 2 r.isLt (by norm_num)
  simp only [Finset.sum_range_succ, Finset.sum_range_zero, zero_add] at h0 h1 h2
  simp only [skinPhi_eq_range]
  generalize inverse3 (T_i X) = P at h0 h1 h2 ⊢
  fin_cases r <;> simp [T_i, segment] at h0 h1 h2 ⊢ <;>
    linear_combination (v 0 - X 0) * h0 + (v 1 - X 1) * h1 + (v 2 - X 2) * h2

/-- C28: directly after construction, a bound skin vertex `j` whose tetrahedron `t` has an
invertible reference shape matrix is returned by `getSkinMesh` at its original position,
`W_j * getQTet(t, q_rest) = skinMesh.positions[j]`; every row of `W_j` sums to one, so for every
object holding this binding, translating all simulated vertices by `tr` translates the skin
vertex by `tr`. -/
theorem skin_rest_pose (mesh : TetrahedralMesh α) (skinMesh : Mesh α) (j t : ℕ) (w : Mat α)
    (hsome : (PhysicalMesh.init mesh skinMesh).skinMeshTetrahedra j = some (t, w))
    (hdet : det3 ((PhysicalMesh.init mesh skinMesh).Ts.getD t 0) ≠ 0) :
    (fun r : Fin 3 => ∑ c in Finset.range 12, w r.val c
        * getQTet (PhysicalMesh.init mesh skinMesh).tetIndices t
            (PhysicalMesh.init mesh skinMesh).q c)
      = skinMesh.positions.getD j 0 ∧
    (getSkinMesh (PhysicalMesh.init mesh skinMesh)).2.positions.getD j 0
      = skinMesh.positions.getD j 0 ∧
    (∀ r, r < 3 → ∑ c in Finset.range 12, w r c = 1) ∧
    (∀ (pm : PhysicalMesh α) (tr : Vec3 α), pm.skinMeshTetrahedra j = some (t, w) →
      j < pm.skinMesh.positions.length →
      (getSkinMesh { pm with q := fun e => pm.q e + tr.comp e }).2.positions.getD j 0
        = (getSkinMesh pm).2.positions.getD j 0 + tr) := by
  obtain ⟨ht, hj, _, hw, _⟩ := init_skin_inv mesh skinMesh j t w hsome
  have hrest : (fun r : Fin 3 => ∑ c in Finset.range 12, w r.val c
        * getQTet (PhysicalMesh.init mesh skinMesh).tetIndices t
            (PhysicalMesh.init mesh skinMesh).q c)
      = skinMesh.positions.getD j 0 := by
    funext r
    rw [hw]
    unfold restPhi getQTet
    rw [init_tetIndices_getD mesh skinMesh t ht]
    rw [init_Ts_getD mesh skinMesh t ht] at hdet
    exact skinWeights_rest _ _ hdet r
  refine ⟨hrest, ?_, ?_, ?_⟩
  · rw [getSkinMesh_bound (PhysicalMesh.init mesh skinMesh) j t w
      (by rw [init_skinMesh]; exact hj) hsome]
    exact hrest
  · intro r hr
    rw [hw]
    exact skinWeights_row_sum _ r hr
  · intro pm tr hb hjp
    rw [getSkinMesh_bound pm j t w hjp hb,
      getSkinMesh_bound { pm with q := fun e => pm.q e + tr.comp e } j t w hjp hb]
    funext r
    show ∑ c in Finset.range 12, w r.val c
        * getQTet pm.tetIndices t (fun e => pm.q e + tr.comp e) c
      = ∑ c in Finset.range 12, w r.val c * getQTet pm.tetIndices t pm.q c + tr r
    have hterm : ∀ c ∈ Finset.range 12,
        w r.val c * getQTet pm.tetIndices t (fun e => pm.q e + tr.comp e) c
          = w r.val c * getQTet pm.tetIndices t pm.q c + w r.val c * tr r := by
      intro c hc
      rw [getQTet_translate _ _ _ _ _ (Finset.mem_range.mp hc), mul_add, hw]
      congr 1
      by_cases h1 : c % 3 = r.val
      · have hcr : tr.comp c = tr r := by
          unfold Vec3.comp
          congr 1
          exact Fin.ext h1
        rw [hcr]
      · have hz : skinWeights (restPhi mesh skinMesh t j) r.val c = 0 := by
          unfold skinWeights
          rw [if_neg (fun h => h1 h.2.2)]
        rw [hz, zero_mul, zero_mul]
    rw [Finset.sum_congr rfl hterm, Finset.sum_add_distrib, ← Finset.sum_mul, hw,
      skinWeights_row_sum _ r.val r.isLt, one_mul]


theorem unitTet_skin_det :
    det3 ((PhysicalMesh.init (unitTet : TetrahedralMesh ℚ)
      (skinAt (![1 / 4, 1 / 4, 1 / 4] : Vec3 ℚ))).Ts.getD 0 0) ≠ 0 := by
  rw [init_Ts_getD _ _ 0 (by decide), init_q]
  norm_num [det3, T_i, qTetOf, tetIndexAt, unitTet, Vec3.comp]

/-- Witness of C28: the skin vertex `(1/4, 1/4, 1/4)` bound to the unit tetrahedron is returned
at its original position. -/
theorem skin_rest_pose_witness :
    (getSkinMesh (PhysicalMesh.init unitTet
        (skinAt (![1 / 4, 1 / 4, 1 / 4] : Vec3 ℚ)))).2.positions.getD 0 0
      = (skinAt (![1 / 4, 1 / 4, 1 / 4] : Vec3 ℚ)).positions.getD 0 0 :=
  (skin_rest_pose unitTet (skinAt (![1 / 4, 1 / 4, 1 / 4] : Vec3 ℚ)) 0 0 _
    unitTet_skin_quarter unitTet_skin_det).2.1

theorem init_M_symm (mesh : TetrahedralMesh α) (skinMesh : Mesh α) (r c : ℕ) :
    (PhysicalMesh.init mesh skinMesh).M r c = (PhysicalMesh.init mesh skinMesh).M c r := by
  rw [init_M, init_M]
  refine Finset.sum_congr rfl (fun i _ => ?_)
  rw [Finset.sum_comm]
  refine Finset.sum_congr rfl (fun j _ => Finset.sum_congr rfl (fun k _ => ?_))
  rw [M_i_symm k j]
  by_cases h1 : 3 * (tetIndexAt mesh i).getD (j / 3) 0 + j % 3 = c
      ∧ 3 * (tetIndexAt mesh i).getD (k / 3) 0 + k % 3 = r
  · rw [if_pos h1, if_pos ⟨h1.2, h1.1⟩]
  · rw [if_neg h1, if_neg (fun h => h1 ⟨h.2, h.1⟩)]

/-- A symmetric system matrix whose systems the solver solves has a trivial kernel. -/
theorem solves_symm_injective (solve : Mat α → VecX α → VecX α) (N : ℕ) (A : Mat α)
    (hs : Solves N solve A) (hsymm : ∀ r c, A r c = A c r) (y : VecX α)
    (hy : ∀ d, d < N → mulVec N A y d = 0) (d : ℕ) (hd : d < N) : y d = 0 := by
  have h1 : ∑ r in Finset.range N,
      y r * mulVec N A (solve A (fun e => if e = d then 1 else 0)) r = y d := by
    have hterm : ∀ r ∈ Finset.range N,
        y r * mulVec N A (solve A (fun e => if e = d then 1 else 0)) r
          = if r = d then y d else 0 := by
      intro r hr
      rw [hs _ r (Finset.mem_range.mp hr)]
      split_ifs with h
      · rw [h, mul_one]
      · rw [mul_zero]
    rw [Finset.sum_congr rfl hterm, Finset.sum_eq_single d]
    · rw [if_pos rfl]
    · intro b _ hb
      rw [if_neg hb]
    · intro h
      exact absurd (Finset.mem_range.mpr hd) h
  have h2 : ∑ r in Finset.range N,
      y r * mulVec N A (solve A (fun e => if e = d then 1 else 0)) r
      = ∑ c in Finset.range N,
          solve A (fun e => if e = d then 1 else 0) c * mulVec N A y c := by
    unfold mulVec
    simp only [Finset.mul_sum]
    rw [Finset.sum_comm]
    refine Finset.sum_congr rfl (fun c _ => Finset.sum_congr rfl (fun r _ => ?_))
    rw [hsymm c r]
    ring
  rw [← h1, h2]
  refine Finset.sum_eq_zero (fun c hc => ?_)
  rw [hy c (Finset.mem_range.mp hc), mul_zero]

theorem mulVec_sub (N : ℕ) (A : Mat α) (x y : VecX α) (d : ℕ) :
    mulVec N A (fun c => x c - y c) d = mulVec N A x d - mulVec N A y d := by
  unfold mulVec
  rw [← Finset.sum_sub_distrib]
  exact Finset.sum_congr rfl (fun c _ => by ring)

theorem mulVec_smul (N : ℕ) (A : Mat α) (a : α) (x : VecX α) (d : ℕ) :
    mulVec N A (fun c => a * x c) d = a * mulVec N A x d := by
  unfold mulVec
  rw [Finset.mul_sum]
  exact Finset.sum_congr rfl (fun c _ => by ring)

theorem M_i_row_y (j : ℕ) (hj : j < 12) :
    ∑ k in Finset.range 12, (M_i : Mat α) j k * (if k % 3 = 1 then 1 else 0)
      = if j % 3 = 1 then 5 else 0 := by
  have hterm : ∀ k ∈ Finset.range 12,
      (M_i : Mat α) j k * (if k % 3 = 1 then 1 else 0)
        = ((if j = k then 1 else 0) + (if j % 3 = k % 3 then 1 else 0))
          * (if k % 3 = 1 then 1 else 0) := by
    intro k hk
    rw [M_i_eq j k hj (Finset.mem_range.mp hk)]
  rw [Finset.sum_congr rfl hterm]
  interval_cases j <;> simp [Finset.sum_range_succ] <;> norm_num

theorem dVdQ_zeroGrad (pm : PhysicalMesh α) (qq : VecX α) (d : ℕ) :
    dVdQ zeroGrad pm qq d
      = ∑ i in Finset.range pm.n_tet, ∑ k in Finset.range 4,
          (if d = (pm.tetIndices.getD i []).getD k 0 * 3 + 1
            then pm.volumes.getD i 0 * pm.g else 0) := by
  rw [dVdQ_apply]
  refine Finset.sum_congr rfl (fun i _ => Finset.sum_congr rfl (fun k _ => ?_))
  have hz : mulVec 9 (pm.volumes.getD i 0 • transpose (pm.Bs.getD i 0))
      (zeroGrad pm.C pm.D (getFFlat pm i qq)) (3 * k + d % 3) = 0 := by
    simp [mulVec, zeroGrad]
  rw [hz, ite_self, zero_add]

theorem gravity_local (idx : ℕ → ℕ) (V g : α) (d : ℕ) :
    4 * g * ∑ j in Finset.range 12,
        (if 3 * idx (j / 3) + j % 3 = d then V / 20 * (if j % 3 = 1 then 5 else 0) else 0)
      = ∑ k in Finset.range 4, (if d = idx k * 3 + 1 then V * g else 0) := by
  have h : ∀ a, (3 * a + 1 = d) ↔ (d = a * 3 + 1) := fun a => by omega
  have e : ∀ a, 4 * g * (if 3 * a + 1 = d then V / 20 * 5 else 0)
      = if d = a * 3 + 1 then V * g else 0 := by
    intro a
    simp only [h]
    split_ifs
    · ring
    · ring
  simp only [Finset.sum_range_succ, Finset.sum_range_zero]
  norm_num
  simp only [mul_add, e]

theorem mass_column_sum (idx : ℕ → ℕ) (V : α) (N d : ℕ) (hidx : ∀ k, k < 4 → idx k < N) :
    ∑ c in Finset.range (3 * N),
        (∑ j in Finset.range 12, ∑ k in Finset.range 12,
          if 3 * idx (j / 3) + j % 3 = d ∧ 3 * idx (k / 3) + k % 3 = c
          then V * M_i j k / 20 else 0) * (if c % 3 = 1 then 1 else 0)
      = ∑ j in Finset.range 12,
        (if 3 * idx (j / 3) + j % 3 = d then V / 20 * (if j % 3 = 1 then 5 else 0) else 0) := by
  simp only [Finset.sum_mul]
  rw [Finset.sum_comm]
  refine Finset.sum_congr rfl (fun j hj => ?_)
  rw [Finset.sum_comm]
  have hk : ∀ k ∈ Finset.range 12,
      ∑ c in Finset.range (3 * N),
        (if 3 * idx (j / 3) + j % 3 = d ∧ 3 * idx (k / 3) + k % 3 = c
          then V * M_i j k / 20 else 0) * (if c % 3 = 1 then 1 else 0)
      = if 3 * idx (j / 3) + j % 3 = d
        then V / 20 * (M_i j k * (if k % 3 = 1 then 1 else 0)) else 0 := by
    intro k hk
    have hk12 : k < 12 := Finset.mem_range.mp hk
    have hcol : 3 * idx (k / 3) + k % 3 < 3 * N := by
      have := hidx (k / 3) (by omega)
      omega
    rw [Finset.sum_eq_single (3 * idx (k / 3) + k % 3)]
    · have hm : (3 * idx (k / 3) + k % 3) % 3 = k % 3 := by omega
      rw [hm]
      by_cases h1 : 3 * idx (j / 3) + j % 3 = d
      · rw [if_pos ⟨h1, rfl⟩, if_pos h1]
        ring
      · rw [if_neg (fun h => h1 h.1), if_neg h1, zero_mul]
    · intro b _ hb
      rw [if_neg (fun h => hb h.2.symm), zero_mul]
    · intro h
      exact absurd (Finset.mem_range.mpr hcol) h
  rw [Finset.sum_congr rfl hk]
  by_cases h1 : 3 * idx (j / 3) + j % 3 = d
  · simp only [h1, if_true]
    rw [← Finset.mul_sum, M_i_row_y j (Finset.mem_range.mp hj)]
  · simp only [h1, if_false, Finset.sum_const_zero]

theorem init_gravity (mesh : TetrahedralMesh α) (skinMesh : Mesh α)
    (hvalid : ∀ x ∈ mesh.indices, x < mesh.positions.length) (d : ℕ) :
    ∑ i in Finset.range (PhysicalMesh.init mesh skinMesh).n_tet, ∑ k in Finset.range 4,
        (if d = ((PhysicalMesh.init mesh skinMesh).tetIndices.getD i []).getD k 0 * 3 + 1
          then (PhysicalMesh.init mesh skinMesh).volumes.getD i 0
            * (PhysicalMesh.init mesh skinMesh).g else 0)
      = 4 * (PhysicalMesh.init mesh skinMesh).g
        * mulVec (3 * (PhysicalMesh.init mesh skinMesh).n) (PhysicalMesh.init mesh skinMesh).M
            (fun c => if c % 3 = 1 then 1 else 0) d := by
  rw [init_n_tet, init_n]
  unfold mulVec
  simp only [init_M, Finset.sum_mul]
  conv_rhs => rw [Finset.sum_comm]
  rw [Finset.mul_sum]
  refine Finset.sum_congr rfl (fun i hi => ?_)
  have hi2 : i < mesh.indices.length / 4 := Finset.mem_range.mp hi
  rw [init_volumes_getD mesh skinMesh i hi2, init_tetIndices_getD mesh skinMesh i hi2]
  have hidx : ∀ k, k < 4 → (tetIndexAt mesh i).getD k 0 < mesh.positions.length := by
    intro k hk
    rw [tetIndexAt_getD mesh i k hk]
    have hlt : i * 4 + k < mesh.indices.length := by omega
    rw [List.getD_eq_getElem _ _ hlt]
    exact hvalid _ (List.getElem_mem _)
  have hcs := mass_column_sum (fun k => (tetIndexAt mesh i).getD k 0)
    (vol (qTetOf (tetIndexAt mesh i) (PhysicalMesh.init mesh skinMesh).q))
    mesh.positions.length d hidx
  simp only [Finset.sum_mul] at hcs
  rw [hcs]
  exact (gravity_local (fun k => (tetIndexAt mesh i).getD k 0) _ _ d).symm

/-- C26: the gravity part of `dVdQ` (which adds `volumes[t] * g` to entry `3 a + 1` for every
tetrahedron `t` and every slot of `t` holding vertex `a`) equals `4 g M e_y`, for every mesh
whose tetrahedron indices are vertex indices; so, when the mass system is solvable and there
are no elastic forces, the explicit step returns the velocity `q_dot - 4 g h e_y`: gravity
accelerates every vertex by exactly `4 g` downwards. -/
theorem gravity_uniform (mesh : TetrahedralMesh α) (skinMesh : Mesh α)
    (hvalid : ∀ x ∈ mesh.indices, x < mesh.positions.length) :
    (∀ (gradPsi : α → α → VecX α → VecX α) (qq : VecX α) (d : ℕ),
      dVdQ gradPsi (PhysicalMesh.init mesh skinMesh) qq d
        = ∑ i in Finset.range (PhysicalMesh.init mesh skinMesh).n_tet, ∑ k in Finset.range 4,
            (if d / 3 = ((PhysicalMesh.init mesh skinMesh).tetIndices.getD i []).getD k 0
              then mulVec 9 ((PhysicalMesh.init mesh skinMesh).volumes.getD i 0
                  • transpose ((PhysicalMesh.init mesh skinMesh).Bs.getD i 0))
                (gradPsi (PhysicalMesh.init mesh skinMesh).C (PhysicalMesh.init mesh skinMesh).D
                  (getFFlat (PhysicalMesh.init mesh skinMesh) i qq)) (3 * k + d % 3)
              else 0)
          + 4 * (PhysicalMesh.init mesh skinMesh).g
            * mulVec (3 * (PhysicalMesh.init mesh skinMesh).n)
                (PhysicalMesh.init mesh skinMesh).M (fun c => if c % 3 = 1 then 1 else 0) d) ∧
    (∀ (qq : VecX α) (d : ℕ),
      dVdQ zeroGrad (PhysicalMesh.init mesh skinMesh) qq d
        = 4 * (PhysicalMesh.init mesh skinMesh).g
          * mulVec (3 * (PhysicalMesh.init mesh skinMesh).n)
              (PhysicalMesh.init mesh skinMesh).M (fun c => if c % 3 = 1 then 1 else 0) d) ∧
    (∀ (solve : Mat α → VecX α → VecX α) (gl : Globals α) (qq vv : VecX α),
      Solves (3 * (PhysicalMesh.init mesh skinMesh).n) solve (PhysicalMesh.init mesh skinMesh).M →
      gl.inverseCalculated = false →
      ∀ d, d < 3 * (PhysicalMesh.init mesh skinMesh).n →
        (forwardEulerStep solve zeroGrad gl
            { PhysicalMesh.init mesh skinMesh with q := qq, q_dot := vv }).1 d
          = vv d - h * (4 * (PhysicalMesh.init mesh skinMesh).g)
              * (if d % 3 = 1 then 1 else 0)) := by
  have hz : ∀ (qq : VecX α) (d : ℕ),
      dVdQ zeroGrad (PhysicalMesh.init mesh skinMesh) qq d
        = 4 * (PhysicalMesh.init mesh skinMesh).g
          * mulVec (3 * (PhysicalMesh.init mesh skinMesh).n)
              (PhysicalMesh.init mesh skinMesh).M (fun c => if c % 3 = 1 then 1 else 0) d := by
    intro qq d
    rw [dVdQ_zeroGrad, init_gravity mesh skinMesh hvalid d]
  refine ⟨?_, hz, ?_⟩
  · intro gradPsi qq d
    rw [dVdQ_apply, ← init_gravity mesh skinMesh hvalid d, ← Finset.sum_add_distrib]
    refine Finset.sum_congr rfl (fun i _ => ?_)
    rw [← Finset.sum_add_distrib]
  · intro solve gl qq vv hs hfresh d hd
    have hstep := fun e he => forwardEulerStep_fresh solve zeroGrad gl
      { PhysicalMesh.init mesh skinMesh with q := qq, q_dot := vv } hfresh hs e he
    have hgrav : ∀ e, dVdQ zeroGrad
        { PhysicalMesh.init mesh skinMesh with q := qq, q_dot := vv } qq e
        = dVdQ zeroGrad (PhysicalMesh.init mesh skinMesh) qq e := by
      intro e
      rw [dVdQ_zeroGrad, dVdQ_zeroGrad]
    have hker := solves_symm_injective solve (3 * (PhysicalMesh.init mesh skinMesh).n)
      (PhysicalMesh.init mesh skinMesh).M hs (init_M_symm mesh skinMesh)
      (fun c => (forwardEulerStep solve zeroGrad gl
            { PhysicalMesh.init mesh skinMesh with q := qq, q_dot := vv }).1 c
          - (fun c => vv c - (h * (4 * (PhysicalMesh.init mesh skinMesh).g))
              * (if c % 3 = 1 then 1 else 0)) c)
      (fun e he => by
        rw [mulVec_sub, mulVec_sub, mulVec_smul]
        have h1 := hstep e he
        simp only [Pi.add_apply, Pi.smul_apply, Pi.neg_apply, smul_eq_mul] at h1
        rw [hgrav e, hz qq e] at h1
        rw [h1]
        ring)
      d hd
    simp only at hker
    linear_combination hker


/-- Witness of C26: the explicit step of the unit tetrahedron under gravity alone, entry 1 of
the returned velocity. -/
theorem gravity_uniform_witness :
    (forwardEulerStep tetMassSolve zeroGrad
        ({ inverseCalculated := false, M_inv := fun _ _ => 0 } : Globals ℚ)
        { PhysicalMesh.init (unitTet : TetrahedralMesh ℚ) emptySkin with
          q := (PhysicalMesh.init (unitTet : TetrahedralMesh ℚ) emptySkin).q,
          q_dot := fun _ => 0 }).1 1
      = 0 - h * (4 * (PhysicalMesh.init (unitTet : TetrahedralMesh ℚ) emptySkin).g) * 1 :=
  (gravity_uniform (unitTet : TetrahedralMesh ℚ) emptySkin
    (by simp [unitTet])).2.2 tetMassSolve _ _ _ unitTet_solves rfl 1
    (by rw [init_n]; decide)

end Theorems

end Fem

end Sim
